import Mathlib

/-! neva: delivery network and constant analysis

A shallow embedding of

* `internal/runtime/network.go` (`Network.pipe`, `Network.fanIn`, the two built-in
  interceptors), and
* `internal/compiler/analyzer/const.go` (`Analyzer.analyzeConst`),

followed by the properties established about them.

Channels and the cancellation context are not data of the program: a run is described by
the outcome of every `select` the code executes, in execution order.
-/

set_option autoImplicit false
set_option linter.unnecessarySeqFocus false

namespace Runtime

/-! ## internal/runtime/network.go -/

/-- Go `PortAddr`; `Idx` is a `uint8`. -/
structure PortAddr where
  Path : String
  Port : String
  Idx : Nat
  Arr : Bool
deriving DecidableEq, Repr

/-- Go `IndexedMsg`. `Msg` is an interface type: `data` is `none` for the nil interface
value and `some v` otherwise. `index` is a `uint64`; the code only copies and compares it. -/
structure IndexedMsg (μ : Type) where
  data : Option μ
  index : Nat
deriving DecidableEq, Repr

/-- Go `Interceptor`. `Sent` returns a `Msg`, `none` being nil. `Received` returns nothing
and is kept out of the data flow. -/
structure Interceptor (μ : Type) where
  Sent : PortAddr → PortAddr → Option μ → Option μ

/-- Go `Sender`: the address; the traffic of its channel `Port` is given by the schedule. -/
structure Sender where
  Addr : PortAddr
deriving DecidableEq, Repr

/-- Go `Receiver`: the address; writes to its channel `Port` are the output of a run. -/
structure Receiver where
  Addr : PortAddr
deriving DecidableEq, Repr

/-- Go `Network`. -/
structure Network (μ : Type) where
  connections : List (Receiver × List Sender)
  interceptor : Interceptor μ

/-- Go `printer`: `Sent` prints and returns nil. -/
def printer (μ : Type) : Interceptor μ where
  Sent := fun _ _ _ => none

/-- Go `dummy`: `Sent` returns nil. -/
def dummy (μ : Type) : Interceptor μ where
  Sent := fun _ _ _ => none

/-- Go `NewNetwork`. -/
def NewNetwork {μ : Type} (connections : List (Receiver × List Sender)) (debug : Bool) :
    Network μ :=
  if debug then { connections := connections, interceptor := printer μ }
  else { connections := connections, interceptor := dummy μ }

/-- One turn of the loop of `pipe`: what the first `select` chose (`none`: `ctx.Done()`,
`some msg`: a message read from `s.Port`) and whether the second `select` chose the write
to `r.Port` (`true`) or `ctx.Done()` (`false`). -/
structure PipeTurn (μ : Type) where
  recv : Option (IndexedMsg μ)
  sendOk : Bool

/-- Go `Network.pipe`: the messages written to `r.Port`, in order. An exhausted schedule
means the goroutine stays blocked on its read. -/
def Network.pipe {μ : Type} (n : Network μ) (r : Receiver) (s : Sender) :
    List (PipeTurn μ) → List (IndexedMsg μ)
  | [] => []
  | t :: ts =>
    match t.recv with
    | none => []
    | some msg =>
      let msg : IndexedMsg μ :=
        match n.interceptor.Sent s.Addr r.Addr msg.data with
        | some intercepted => { data := some intercepted, index := msg.index }
        | none => msg
      if t.sendOk then msg :: Network.pipe n r s ts else []

/-- Go `fanInQueueItem`. -/
structure fanInQueueItem (μ : Type) where
  sender : PortAddr
  msg : IndexedMsg μ
deriving DecidableEq, Repr

/-- The three cases of the non-blocking `select` in the collecting loop of `fanIn`. -/
inductive Poll (μ : Type) where
  | done
  | recv (msg : IndexedMsg μ)
  | dflt
deriving DecidableEq, Repr

/-- How a loop of `fanIn` ended: `cancelled` is the `return` under `ctx.Done()`,
`starved` is a schedule (or iteration budget) that ran out before the loop ended. -/
inductive Outcome (α : Type) where
  | cancelled
  | starved
  | ok (a : α)
deriving DecidableEq, Repr

/-- The inner `for _, s := range ss` of the collecting loop: one non-blocking `select`
per sender, successful receives appended to the buffer. -/
def rangeSenders {μ : Type} (n : Network μ) (r : Receiver) :
    List Sender → List (Poll μ) → List (fanInQueueItem μ) →
      Outcome (List (fanInQueueItem μ) × List (Poll μ))
  | [], polls, buf => .ok (buf, polls)
  | _ :: _, [], _ => .starved
  | s :: ss, p :: polls, buf =>
    match p with
    | .done => .cancelled
    | .recv msg =>
      let msg : IndexedMsg μ :=
        match n.interceptor.Sent s.Addr r.Addr msg.data with
        | some intercepted => { data := some intercepted, index := msg.index }
        | none => msg
      rangeSenders n r ss polls (buf ++ [{ sender := s.Addr, msg := msg }])
    | .dflt => rangeSenders n r ss polls buf

/-- The collecting loop of `fanIn` (`for { if len(buf) > 0 && i >= len(ss) { break } ... i++ }`),
started at counter `i` and buffer `buf`; `fuel` bounds the number of iterations. -/
def collect {μ : Type} (n : Network μ) (r : Receiver) (ss : List Sender) :
    Nat → Nat → List (fanInQueueItem μ) → List (Poll μ) →
      Outcome (List (fanInQueueItem μ) × List (Poll μ))
  | 0, _, _, _ => .starved
  | fuel + 1, i, buf, polls =>
    if buf.length > 0 ∧ i ≥ ss.length then .ok (buf, polls)
    else
      match rangeSenders n r ss polls buf with
      | .ok (buf1, polls1) => collect n r ss fuel (i + 1) buf1 polls1
      | .cancelled => .cancelled
      | .starved => .starved

/-- Inner loop of Go's insertion sort (`for j := i; j > a && less(j, j-1); j--` with a
swap per step): `x` sinks to the left through the already ordered part, which is held
nearest neighbour first. -/
def sinkLeft {α : Type} (less : α → α → Bool) (x : α) : List α → List α
  | [] => [x]
  | p :: ps => if less x p then p :: sinkLeft less x ps else x :: p :: ps

/-- Outer loop of Go's insertion sort: elements are taken left to right; `done` is the
ordered part, nearest neighbour first. -/
def insertionLoop {α : Type} (less : α → α → Bool) : List α → List α → List α
  | done, [] => done
  | done, x :: xs => insertionLoop less (sinkLeft less x done) xs

/-- Go `sort.Slice` (standard library). It is this insertion sort on slices of at most 12
elements and pattern-defeating quicksort on longer ones; both return the elements of the
slice ordered by `less`, and they can differ only in the order of elements that `less`
does not separate. -/
def sortSlice {α : Type} (less : α → α → Bool) (l : List α) : List α :=
  (insertionLoop less [] l).reverse

/-- The comparison closure passed to `sort.Slice` in `fanIn`. -/
def lessIndex {μ : Type} (a b : fanInQueueItem μ) : Bool :=
  decide (a.msg.index < b.msg.index)

/-- The delivery loop of `fanIn` (`for _, item := range buf { select ... }`): `writes`
holds, per item, whether the `select` chose the write (`true`) or `ctx.Done()` (`false`).
Returns the items whose message was written to `r.Port` (each followed by a `Received`
call with the item's sender) and how the loop ended, with the rest of the schedule when
it ran through the whole buffer. -/
def deliver {μ : Type} :
    List (fanInQueueItem μ) → List Bool → List (fanInQueueItem μ) × Outcome (List Bool)
  | [], writes => ([], .ok writes)
  | _ :: _, [] => ([], .starved)
  | item :: rest, w :: writes =>
    if w then
      let res := deliver rest writes
      (item :: res.1, res.2)
    else ([], .cancelled)

/-- The schedule of a `fanIn` goroutine: outcomes of the polling selects and of the writing
selects, each in execution order. -/
structure Sched (μ : Type) where
  polls : List (Poll μ)
  writes : List Bool

/-- One turn of the outer loop of `fanIn`: collect a buffer, sort it by index, deliver it.
Returns the items delivered, in order (the message of each was written to `r.Port` and
reported to `Received` with the item's sender), and how the turn ended. -/
def fanInBatch {μ : Type} (n : Network μ) (r : Receiver) (ss : List Sender)
    (fuel : Nat) (sch : Sched μ) : List (fanInQueueItem μ) × Outcome (Sched μ) :=
  match collect n r ss fuel 0 [] sch.polls with
  | .cancelled => ([], .cancelled)
  | .starved => ([], .starved)
  | .ok (buf, polls) =>
    let res := deliver (sortSlice lessIndex buf) sch.writes
    (res.1,
      match res.2 with
      | .ok writes => .ok { polls := polls, writes := writes }
      | .cancelled => .cancelled
      | .starved => .starved)

/-- Go `Network.fanIn`: the messages written to `r.Port`, in order. `batches` bounds the
number of turns of the outer loop and `fuel` the iterations of each collecting loop. -/
def Network.fanIn {μ : Type} (n : Network μ) (r : Receiver) (ss : List Sender)
    (fuel : Nat) : Nat → Sched μ → List (IndexedMsg μ)
  | 0, _ => []
  | batches + 1, sch =>
    match fanInBatch n r ss fuel sch with
    | (out, .ok sch1) => out.map (fun item => item.msg) ++ Network.fanIn n r ss fuel batches sch1
    | (out, _) => out.map (fun item => item.msg)

/-- The message a poll received, if any. -/
def Poll.received {μ : Type} : Poll μ → Option (IndexedMsg μ)
  | .recv msg => some msg
  | _ => none

/-- The senders whose ports the selects of `k` sweeps of the collecting loop read, one per
`select`, in execution order: every sweep goes through `ss` once. -/
def sweepSenders (ss : List Sender) : Nat → List Sender
  | 0 => []
  | k + 1 => ss ++ sweepSenders ss k

/-- The messages read by a run of polling selects, each with the sender whose port its
`select` read: `sources` holds the sender of every `select` and `polls` its outcome. -/
def readsFrom {μ : Type} (sources : List Sender) (polls : List (Poll μ)) :
    List (Sender × IndexedMsg μ) :=
  (sources.zip polls).filterMap (fun sp => sp.2.received.map (fun m => (sp.1, m)))

/-! ### Sample run -/

/-- The non-array port `v` of the node at `path`. -/
def portAddr (path : String) : PortAddr := { Path := path, Port := "v", Idx := 0, Arr := false }

/-- A network with the interceptor `dummy`. -/
def sampleNet : Network Nat := NewNetwork [] false

/-- A network whose interceptor replaces every payload sent from the address of sender `a` by
`100` and leaves the messages of every other sender alone. -/
def addrNet : Network Nat where
  connections := []
  interceptor := { Sent := fun sender _ _ => if sender = portAddr "a" then some 100 else none }

/-- Two senders. -/
def sampleSenders : List Sender := [{ Addr := portAddr "a" }, { Addr := portAddr "b" }]

/-- A schedule for two senders: both deliver in the first sweep (indexes 3 and 1), the first
sender delivers again in the second sweep (index 4); no select chooses `ctx.Done()`. -/
def sampleSched : Sched Nat where
  polls := [.recv { data := some 10, index := 3 }, .recv { data := some 20, index := 1 },
    .recv { data := some 11, index := 4 }, .dflt, .recv { data := some 99, index := 9 }]
  writes := [true, true, true]

/-- The schedule `sampleSched` with cancellation chosen at the third write. -/
def cancelSched : Sched Nat where
  polls := sampleSched.polls
  writes := [true, true, false]

end Runtime

namespace Compiler

/-! ## internal/compiler/analyzer/const.go

The packages `sourcecode`, `sourcecode/typesystem` and `compiler` that declare the types
used by `analyzeConst` are not part of the sources at hand; the declarations below carry
exactly the fields `analyzeConst` reads or writes. Pointer, slice and map fields that the
code compares with nil are options (`none` is nil). -/

/-- Modelled from the spec: the source range `Meta` of the `sourcecode` package, which
`analyzeConst` only copies. -/
structure Meta where
  Text : String
  Line : Nat
  Column : Nat
deriving DecidableEq, Repr

/-- Modelled from the spec: `EntityRef` = (optional package, name). -/
structure EntityRef where
  Pkg : String
  Name : String
deriving DecidableEq, Repr

/-- A `float64` literal, held as its bit pattern. -/
abbrev Float64 := Nat

mutual
/-- Modelled from the spec: the type expression `Expr` of the `typesystem` package used by
the analyzer (instantiation or literal; `Lit` or `Inst` must be non-nil, but not both),
after `pkg/typesystem/typesystem.go`. -/
inductive Expr where
  | mk (Lit : Option LitExpr) (Inst : Option InstExpr)
/-- Modelled from the spec: `LitExpr`, literal kinds array, struct, enum, union. -/
inductive LitExpr where
  | mk (Arr : Option ArrLit) (Struct : Option (List (String × Expr)))
      (Enum : Option (List String)) (Union : Option (List Expr))
/-- Modelled from the spec: `InstExpr`; `Ref` holds the text that `Ref.String()` returns. -/
inductive InstExpr where
  | mk (Ref : String) (Args : List Expr)
/-- Modelled from the spec: `ArrLit`. -/
inductive ArrLit where
  | mk (Expr : Expr) (Size : Int)
end

/-- Field `Lit` of an `Expr`. -/
def Expr.Lit : Expr → Option LitExpr
  | .mk lit _ => lit

/-- Field `Inst` of an `Expr`. -/
def Expr.Inst : Expr → Option InstExpr
  | .mk _ inst => inst

/-- Field `Struct` of a `LitExpr`. -/
def LitExpr.Struct : LitExpr → Option (List (String × Expr))
  | .mk _ s _ _ => s

/-- Field `Enum` of a `LitExpr`. -/
def LitExpr.Enum : LitExpr → Option (List String)
  | .mk _ _ e _ => e

/-- Field `Union` of a `LitExpr`. -/
def LitExpr.Union : LitExpr → Option (List Expr)
  | .mk _ _ _ u => u

/-- Field `Ref` of an `InstExpr`, as the text of `Ref.String()`. -/
def InstExpr.Ref : InstExpr → String
  | .mk ref _ => ref

mutual
/-- Modelled from the spec: `Const` of the `sourcecode` package: type expression, value,
source range. -/
inductive Const where
  | mk (TypeExpr : Expr) (Value : ConstValue) (Meta : Meta)
/-- Modelled from the spec: `ConstValue`, a reference to another constant or a literal
message. -/
inductive ConstValue where
  | mk (Ref : Option EntityRef) (Message : Option Message)
/-- Modelled from the spec: `Message`, one nullable field per literal kind, with the field
names `analyzeConst` uses. -/
inductive Message where
  | mk (Float : Option Float64) (Str : Option String)
      (DictOrStruct : Option (List (String × Const))) (Union : Option (EntityRef × String))
      (List : Option (List Const)) (Int : Option Int) (Bool : Option Bool)
end

/-- Field `TypeExpr` of a `Const`. -/
def Const.TypeExpr : Const → Expr
  | .mk t _ _ => t

/-- Field `Value` of a `Const`. -/
def Const.Value : Const → ConstValue
  | .mk _ v _ => v

/-- Field `Meta` of a `Const`. -/
def Const.Meta : Const → Meta
  | .mk _ _ m => m

/-- Field `Ref` of a `ConstValue`. -/
def ConstValue.Ref : ConstValue → Option EntityRef
  | .mk ref _ => ref

/-- Field `Message` of a `ConstValue`. -/
def ConstValue.Message : ConstValue → Option Message
  | .mk _ msg => msg

/-- Field `DictOrStruct` of a `Message`. -/
def Message.DictOrStruct : Message → Option (List (String × Const))
  | .mk _ _ d _ _ _ _ => d

/-- Field `List` of a `Message`. -/
def Message.List : Message → Option (List Const)
  | .mk _ _ _ _ l _ _ => l

/-- Field `Int` of a `Message`. -/
def Message.Int : Message → Option Int
  | .mk _ _ _ _ _ i _ => i

/-- Field `Bool` of a `Message`. -/
def Message.Bool : Message → Option Bool
  | .mk _ _ _ _ _ _ b => b

/-- Field `Float` of a `Message`. -/
def Message.Float : Message → Option Float64
  | .mk f _ _ _ _ _ _ => f

/-- Field `Str` of a `Message`. -/
def Message.Str : Message → Option String
  | .mk _ s _ _ _ _ _ => s

/-- Field `Union` of a `Message`. -/
def Message.Union : Message → Option (EntityRef × String)
  | .mk _ _ _ u _ _ _ => u

/-- Modelled from the spec: the entity kinds of the `sourcecode` package
(Entity ∈ { Type, Const, Interface, Component }). -/
inductive EntityKind where
  | TypeEntity
  | ConstEntity
  | InterfaceEntity
  | ComponentEntity
deriving DecidableEq, Repr

/-- Modelled from the spec: `Entity`, with the fields `Kind` and `Const` that
`analyzeConst` reads. -/
structure Entity where
  Kind : EntityKind
  Const : Const

/-- Modelled from the spec: `Scope`, by its method `Entity(ref)`, which returns the entity
and an error (`none` is a nil error, `some text` an error with that `Error()` text); the
location it also returns is discarded by `analyzeConst`. -/
structure Scope where
  Entity : EntityRef → Entity × Option String

/-- Modelled from the spec: `compiler.Error`: message, source range, and the error it
wraps. -/
inductive Error where
  | mk (Message : String) (Meta : Option Meta) (child : Option Error)

/-- Modelled from the spec: `compiler.Error.Wrap`, which attaches the wrapped cause to the
error. -/
def Error.Wrap : Error → Error → Error
  | .mk msg meta _, child => .mk msg meta (some child)

/-- Go `Analyzer`: `analyzeTypeExpr` is its method of that name (type-expression
resolution, declared in another file of the package); `entityMeta` is `Entity.Meta()`;
`sprintConst`, `sprintMessage` and `sprintKind` are the `%v` renderings of `fmt.Sprintf`. -/
structure Analyzer where
  analyzeTypeExpr : Expr → Scope → Except Error Expr
  entityMeta : Entity → Option Meta
  sprintConst : Const → String
  sprintMessage : Option Message → String
  sprintKind : EntityKind → String

/-- The local variable `typeExprStrRepr` of `analyzeConst`. -/
def typeExprStrRepr (resolvedType : Expr) : String :=
  match resolvedType.Inst with
  | some inst => inst.Ref
  | none =>
    match resolvedType.Lit with
    | some lit =>
      if lit.Enum.isSome then "enum"
      else if lit.Struct.isSome then "struct"
      else ""
    | none => ""

/-- Go `Analyzer.analyzeConst`. The result is `none` when the recursion on references goes
deeper than `fuel` calls, `some (.error e)` for a returned `*compiler.Error` and
`some (.ok c)` for a returned constant with a nil error. -/
def Analyzer.analyzeConst (a : Analyzer) (scope : Scope) :
    Nat → Const → Option (Except Error Const)
  | 0, _ => none
  | fuel + 1, constant =>
    match constant.Value.Message, constant.Value.Ref with
    | none, none =>
      some (.error (.mk "Constant must either have value or reference to another constant"
        (some constant.Meta) none))
    | none, some ref =>
      let (entity, err) := scope.Entity ref
      match err with
      | some text => some (.error (.mk text (a.entityMeta entity) none))
      | none =>
        if entity.Kind ≠ EntityKind.ConstEntity then
          some (.error (.mk
            ("Constant refers to an entity that is not constant: " ++ a.sprintKind entity.Kind)
            (a.entityMeta entity) none))
        else Analyzer.analyzeConst a scope fuel entity.Const
    | some message, _ =>
      match a.analyzeTypeExpr constant.TypeExpr scope with
      | .error err =>
        some (.error (Error.Wrap (.mk "Cannot resolve constant type" (some constant.Meta) none)
          err))
      | .ok resolvedType =>
        -- resolvedType.Lit != nil && resolvedType.Lit.Union != nil
        if (resolvedType.Lit.bind LitExpr.Union).isSome then
          some (.error (.mk "Constant cannot have type union" (some constant.Meta) none))
        else
          let several (text : String) : Option (Except Error Const) :=
            some (.error (.mk ("Constant cannot have several values at once: " ++ text)
              (some constant.Meta) none))
          let missing (text : String) : Option (Except Error Const) :=
            some (.error (.mk (text ++ a.sprintConst constant) (some constant.Meta) none))
          let accepted : Option (Except Error Const) :=
            some (.ok (.mk resolvedType constant.Value constant.Meta))
          let repr := typeExprStrRepr resolvedType
          if repr = "bool" then
            if message.Bool.isNone then
              missing "Boolean value is missing in boolean contant: "
            else if message.Int.isSome || message.Float.isSome || message.Str.isSome ||
                message.List.isSome || message.DictOrStruct.isSome || message.Union.isSome then
              several (a.sprintConst constant)
            else accepted
          else if repr = "int" then
            if message.Int.isNone then
              missing "Integer value is missing in integer contant: "
            else if message.Bool.isSome || message.Float.isSome || message.Str.isSome ||
                message.List.isSome || message.DictOrStruct.isSome || message.Union.isSome then
              several (a.sprintMessage (some message))
            else accepted
          else if repr = "float" then
            if message.Float.isNone && message.Int.isNone then
              missing "Float or integer value is missing in float contant: "
            else if message.Float.isSome && message.Int.isSome then
              several (a.sprintMessage (some message))
            else if message.Bool.isSome || message.Str.isSome || message.List.isSome ||
                message.DictOrStruct.isSome || message.Union.isSome then
              several (a.sprintMessage (some message))
            else accepted
          else if repr = "string" then
            if message.Str.isNone then
              missing "String value is missing in string contant: "
            else if message.Bool.isSome || message.Int.isSome || message.Float.isSome ||
                message.List.isSome || message.DictOrStruct.isSome || message.Union.isSome then
              several (a.sprintMessage (some message))
            else accepted
          else if repr = "list" then
            if message.List.isNone then
              missing "List value is missing in list contant: "
            else if message.Bool.isSome || message.Int.isSome || message.Float.isSome ||
                message.DictOrStruct.isSome || message.Union.isSome then
              several (a.sprintMessage (some message))
            else accepted
          else if repr = "map" ∨ repr = "struct" then
            if message.DictOrStruct.isNone then
              missing "Map or struct value is missing in map or struct contant: "
            else if message.Bool.isSome || message.Int.isSome || message.Float.isSome ||
                message.List.isSome || message.Union.isSome then
              several (a.sprintMessage (some message))
            else accepted
          else if repr = "enum" then
            if message.Union.isNone then
              missing "Enum value is missing in enum contant: "
            else if message.Bool.isSome || message.Int.isSome || message.Float.isSome ||
                message.List.isSome || message.DictOrStruct.isSome then
              several (a.sprintMessage (some message))
            else accepted
          else accepted

/-! ### Sample constants -/

/-- An analyzer whose type resolution returns the expression it is given. -/
def sampleAnalyzer : Analyzer where
  analyzeTypeExpr := fun e _ => .ok e
  entityMeta := fun e => some e.Const.Meta
  sprintConst := fun _ => "const"
  sprintMessage := fun _ => "message"
  sprintKind := fun _ => "kind"

/-- A source range. -/
def sampleMeta : Meta := { Text := "", Line := 1, Column := 0 }

/-- The instantiation `ref` without type arguments. -/
def instExpr (ref : String) : Expr := .mk none (some (.mk ref []))

/-- `const a = b`. -/
def constA : Const := .mk (instExpr "int") (.mk (some { Pkg := "", Name := "b" }) none) sampleMeta

/-- `const b = a`. -/
def constB : Const := .mk (instExpr "int") (.mk (some { Pkg := "", Name := "a" }) none) sampleMeta

/-- A scope that holds `const a = b` and `const b = a` and nothing else. -/
def cyclicScope : Scope where
  Entity := fun ref =>
    if ref.Name = "a" then ({ Kind := .ConstEntity, Const := constA }, none)
    else if ref.Name = "b" then ({ Kind := .ConstEntity, Const := constB }, none)
    else ({ Kind := .TypeEntity, Const := constA }, some "entity not found")

/-- An `int` constant that carries both the literal `1` and a reference to `b`. -/
def bothConst : Const :=
  .mk (instExpr "int")
    (.mk (some { Pkg := "", Name := "b" }) (some (.mk none none none none none (some 1) none)))
    sampleMeta

/-- A `list` constant whose message has the list field and the string field set. -/
def listStrConst : Const :=
  .mk (instExpr "list")
    (.mk none (some (.mk none (some "x") none none (some []) none none))) sampleMeta

/-- A `map` constant whose message has the dict-or-struct field and the string field set. -/
def mapStrConst : Const :=
  .mk (instExpr "map")
    (.mk none (some (.mk none (some "x") (some []) none none none none))) sampleMeta

/-- An enum constant whose message has the union field and the string field set. -/
def enumStrConst : Const :=
  .mk (.mk (some (.mk none none (some ["Red", "Green"]) none)) none)
    (.mk none (some (.mk none (some "x") none (some ({ Pkg := "", Name := "Color" }, "Red"))
      none none none))) sampleMeta

/-- The messages that the `switch` of `analyzeConst` lets through for the type text `repr`. -/
def accepts (repr : String) (m : Message) : Bool :=
  if repr = "bool" then
    m.Bool.isSome && !(m.Int.isSome || m.Float.isSome || m.Str.isSome ||
      m.List.isSome || m.DictOrStruct.isSome || m.Union.isSome)
  else if repr = "int" then
    m.Int.isSome && !(m.Bool.isSome || m.Float.isSome || m.Str.isSome ||
      m.List.isSome || m.DictOrStruct.isSome || m.Union.isSome)
  else if repr = "float" then
    !(m.Float.isNone && m.Int.isNone) && !(m.Float.isSome && m.Int.isSome) &&
      !(m.Bool.isSome || m.Str.isSome || m.List.isSome || m.DictOrStruct.isSome ||
        m.Union.isSome)
  else if repr = "string" then
    m.Str.isSome && !(m.Bool.isSome || m.Int.isSome || m.Float.isSome ||
      m.List.isSome || m.DictOrStruct.isSome || m.Union.isSome)
  else if repr = "list" then
    m.List.isSome && !(m.Bool.isSome || m.Int.isSome || m.Float.isSome ||
      m.DictOrStruct.isSome || m.Union.isSome)
  else if repr = "map" ∨ repr = "struct" then
    m.DictOrStruct.isSome && !(m.Bool.isSome || m.Int.isSome || m.Float.isSome ||
      m.List.isSome || m.Union.isSome)
  else if repr = "enum" then
    m.Union.isSome && !(m.Bool.isSome || m.Int.isSome || m.Float.isSome ||
      m.List.isSome || m.DictOrStruct.isSome)
  else true

/-- `c` has only a reference, and the scope resolves it, without error, to the const entity
that holds `next`. -/
def RefersTo (scope : Scope) (c next : Const) : Prop :=
  ∃ t ref meta, c = .mk t (.mk (some ref) none) meta ∧
    scope.Entity ref = ({ Kind := .ConstEntity, Const := next }, none)

/-- `const z int = 1`. -/
def constZ : Const :=
  .mk (instExpr "int") (.mk none (some (.mk none none none none none (some 1) none))) sampleMeta

/-- `const y = z`. -/
def constY : Const := .mk (instExpr "int") (.mk (some { Pkg := "", Name := "z" }) none) sampleMeta

/-- `const x = y`. -/
def constX : Const := .mk (instExpr "int") (.mk (some { Pkg := "", Name := "y" }) none) sampleMeta

/-- `const w = T`, where `T` is a type. -/
def constW : Const := .mk (instExpr "int") (.mk (some { Pkg := "", Name := "T" }) none) sampleMeta

/-- `const v = w`. -/
def constV : Const := .mk (instExpr "int") (.mk (some { Pkg := "", Name := "w" }) none) sampleMeta

/-- A scope with the constants `x = y`, `y = z`, `z = 1`, `v = w`, `w = T` and the type `T`. -/
def chainScope : Scope where
  Entity := fun ref =>
    if ref.Name = "x" then ({ Kind := .ConstEntity, Const := constX }, none)
    else if ref.Name = "y" then ({ Kind := .ConstEntity, Const := constY }, none)
    else if ref.Name = "z" then ({ Kind := .ConstEntity, Const := constZ }, none)
    else if ref.Name = "v" then ({ Kind := .ConstEntity, Const := constV }, none)
    else if ref.Name = "w" then ({ Kind := .ConstEntity, Const := constW }, none)
    else if ref.Name = "T" then ({ Kind := .TypeEntity, Const := constZ }, none)
    else ({ Kind := .TypeEntity, Const := constZ }, some "entity not found")

end Compiler

namespace Compiler.Interface

/-! ## internal/compiler/analyzer/interface.go

This file is of a revision in which `compiler.Error` carries the fields `Err`, `Location` and
`Range`; the declarations it uses from `sourcecode`, `typesystem` and `compiler` are not part
of the sources at hand. Maps are association lists: the order of the list is the order in
which `range` visits the map. -/

/-- A Go `error` made by `errors.New`, identified by its text. -/
structure GoError where
  text : String
deriving DecidableEq, Repr

/-- Go `ErrInterfaceTypeParams`. -/
def ErrInterfaceTypeParams : GoError := { text := "Cannot resolve interface type parameters" }

/-- Go `ErrEmptyInports`. -/
def ErrEmptyInports : GoError := { text := "Interface must have inports" }

/-- Go `ErrEmptyOutports`. -/
def ErrEmptyOutports : GoError := { text := "Interface must have outports" }

/-- Go `ErrInvalidInports`. -/
def ErrInvalidInports : GoError := { text := "Inports are invalid" }

/-- Go `ErrInvalidOutports`. -/
def ErrInvalidOutports : GoError := { text := "Outports are invalid" }

/-- Modelled from the spec: the `Location` of the `sourcecode` package (module, package,
file). -/
structure Location where
  ModRef : String
  PkgName : String
  FileName : String
deriving DecidableEq, Repr

/-- Modelled from the spec: `Scope`, by the field `Location` that this file reads. -/
structure Scope where
  Location : Location

/-- Modelled from the spec: `compiler.Error` with the fields `Err`, `Location`, `Range` and the
error it wraps. -/
inductive Error where
  | mk (Err : Option GoError) (Location : Option Location) (Range : Option Meta)
      (child : Option Error)

/-- Field `Err` of an `Error`. -/
def Error.Err : Error → Option GoError
  | .mk err _ _ _ => err

/-- Modelled from the spec: `compiler.Error.Wrap`, which attaches the wrapped cause to the
error. -/
def Error.Wrap : Error → Error → Error
  | .mk err loc range _, child => .mk err loc range (some child)

/-- Modelled from the spec: `Port` = type expression + is-array flag, with its source
range. -/
structure Port where
  TypeExpr : Expr
  IsArray : Bool
  Meta : Meta

end Compiler.Interface

/-- Modelled from the spec: the `IO` of an interface, inports and outports by name. -/
structure Compiler.Interface.IO where
  In : List (String × Port)
  Out : List (String × Port)

namespace Compiler.Interface

/-- Go `typesystem.Param`. -/
structure Param where
  Name : String
  Constr : Option Expr

/-- Go `analyzeInterfaceParams`. -/
structure analyzeInterfaceParams where
  allowEmptyInports : Bool
  allowEmptyOutports : Bool

/-- Go `Analyzer`: `analyzeTypeDef` is its method of that name (declared in another file of
the package), called on the definition with the given parameters and body and with
`allowEmptyBody: false`; it yields the resolved body or an error. -/
structure Analyzer where
  analyzeTypeDef : List Param → Expr → Scope → Except Error Expr

/-- Go `Analyzer.analyzePort`. The port returned has the zero `Meta`. -/
def Analyzer.analyzePort (a : Analyzer) (params : List Param) (port : Port) (scope : Scope) :
    Except Error Port :=
  match a.analyzeTypeDef params port.TypeExpr scope with
  | .error err =>
    .error (Error.Wrap (.mk none (some scope.Location) (some port.Meta) none) err)
  | .ok body =>
    .ok { TypeExpr := body, IsArray := port.IsArray, Meta := { Text := "", Line := 0, Column := 0 } }

/-- Go `Analyzer.analyzePorts`: the loop over the map, stopped by the first port that fails. -/
def Analyzer.analyzePorts (a : Analyzer) (params : List Param) :
    List (String × Port) → Scope → Except Error (List (String × Port))
  | [], _ => .ok []
  | (name, port) :: rest, scope =>
    match a.analyzePort params port scope with
    | .error err =>
      .error (Error.Wrap (.mk none (some scope.Location) (some port.Meta) none) err)
    | .ok resolvedPort =>
      match Analyzer.analyzePorts a params rest scope with
      | .error err => .error err
      | .ok resolvedPorts => .ok ((name, resolvedPort) :: resolvedPorts)

/-- Go `Analyzer.analyzeIO`. -/
def Analyzer.analyzeIO (a : Analyzer) (typeParams : List Param) (io : Interface.IO) (scope : Scope)
    (params : analyzeInterfaceParams) : Except Error Interface.IO :=
  if !params.allowEmptyInports && io.In.length == 0 then
    .error (.mk (some ErrEmptyInports) (some scope.Location) none none)
  else if !params.allowEmptyOutports && io.Out.length == 0 then
    .error (.mk (some ErrEmptyOutports) (some scope.Location) none none)
  else
    match a.analyzePorts typeParams io.In scope with
    | .error err =>
      .error (Error.Wrap (.mk (some ErrInvalidInports) (some scope.Location) none none) err)
    | .ok resolvedIn =>
      match a.analyzePorts typeParams io.Out scope with
      | .error err =>
        .error (Error.Wrap (.mk (some ErrInvalidOutports) (some scope.Location) none none) err)
      | .ok resolvedOut => .ok { In := resolvedIn, Out := resolvedOut }

/-! ### Sample interface -/

/-- An analyzer whose type-definition resolution returns the body it is given. -/
def sampleAnalyzer : Analyzer where
  analyzeTypeDef := fun _ body _ => .ok body

/-- A scope located in the file `main`. -/
def sampleScope : Scope where
  Location := { ModRef := "", PkgName := "main", FileName := "main" }

/-- A non-array port of type `int`. -/
def intPort : Port := { TypeExpr := instExpr "int", IsArray := false, Meta := sampleMeta }

end Compiler.Interface

namespace Strings

/-! ## Go package `strings`

The functions of the standard library that the sources call, on strings of valid UTF-8. -/

/-- The parts of `s` between the occurrences of the character `sep`. -/
def splitChars (sep : Char) : List Char → List (List Char)
  | [] => [[]]
  | c :: cs =>
    if c = sep then [] :: splitChars sep cs
    else
      match splitChars sep cs with
      | [] => [[c]]
      | p :: ps => (c :: p) :: ps

/-- Go `strings.Split(s, sep)` for a separator `sep` of one character, as at its call site. -/
def Split (s : String) (sep : Char) : List String :=
  (splitChars sep s.data).map String.mk

/-- Whether `substr` occurs in the characters given. -/
def containsChars (substr : List Char) : List Char → Bool
  | [] => substr.isEmpty
  | c :: cs => substr.isPrefixOf (c :: cs) || containsChars substr cs

/-- Go `strings.Contains(s, substr)`. -/
def Contains (s substr : String) : Bool :=
  containsChars substr.data s.data

/-- The scan of `strings.ReplaceAll`: from left to right, an occurrence of `old` is replaced
by `new` and the scan goes on behind it; `skip` counts the characters of a replaced
occurrence still to pass over. -/
def replaceChars (old new : List Char) : Nat → List Char → List Char
  | _, [] => []
  | skip + 1, _ :: cs => replaceChars old new skip cs
  | 0, c :: cs =>
    if old.isPrefixOf (c :: cs) then new ++ replaceChars old new (old.length - 1) cs
    else c :: replaceChars old new 0 cs

/-- Go `strings.ReplaceAll(s, old, new)` for a non-empty `old`, as at its call sites. -/
def ReplaceAll (s old new : String) : String :=
  String.mk (replaceChars old.data new.data 0 s.data)

end Strings

namespace Irgen

/-! ## internal/compiler/irgen/runtime_func.go -/

/-- Modelled from the spec: `src.Directive`, the name of a directive. -/
abbrev Directive := String

/-- Modelled from the spec: `compiler.ExternDirective`, the name of the "extern"
directive. -/
def ExternDirective : Directive := "extern"

/-- Modelled from the spec: `src.Component`, by its directive map (directive name to
arguments). -/
structure Component where
  Directives : List (Directive × List String)

/-- The loop `for _, arg := range args` of `getFuncRef` with the `return` behind it. The
result is `none` when an index is out of range (a run-time panic). -/
def rangeArgs (firstTypeArg : String) : List String → Option (String × Option String)
  | [] => some ("", some "type argument mismatches runtime func directive")
  | arg :: rest =>
    match Strings.Split arg ' ' with
    | [] => none
    | part0 :: tail =>
      if firstTypeArg = part0 then
        match tail with
        | [] => none
        | part1 :: _ => some (part1, none)
      else rangeArgs firstTypeArg rest

/-- Go `getFuncRef`: the string and the error returned (`none` is the nil error), or `none`
when the call panics. -/
def getFuncRef (component : Component) (nodeTypeArgs : List Compiler.Expr) :
    Option (String × Option String) :=
  match component.Directives.lookup ExternDirective with
  | none => some ("", none)
  | some args =>
    match args with
    | [arg] => some (arg, none)
    | _ =>
      match nodeTypeArgs with
      | [] => some ("", none)
      | first :: _ =>
        match first.Inst with
        | none => some ("", none)
        | some inst => rangeArgs inst.Ref args

/-! ### Sample components -/

/-- A component bound by `#extern(int intAdd, float floatAdd)`. -/
def addComponent : Component where
  Directives := [("extern", ["int intAdd", "float floatAdd"])]

/-- A component bound by `#extern(int intAdd)`. -/
def onePairComponent : Component where
  Directives := [("extern", ["int intAdd"])]

/-! ## internal/compiler/parser/listener_helpers.go: `parseCompilerDirectives`, and
`getCfgMsg` of irgen -/

/-- Modelled from the spec: `compiler.BindDirective`, the name of the "bind" directive. -/
def BindDirective : Directive := "bind"

/-- Modelled from the spec: `src.Node`, by its directive map. -/
structure Node where
  Directives : List (Directive × List String)

/-- Modelled from the spec: the parse tree of one directive (`ICompilerDirectiveContext`):
the text of its identifier, and its arguments when it has a list of them
(`CompilerDirectivesArgs() != nil`), each argument by the texts of its identifiers. -/
structure DirectiveContext where
  IDENTIFIER : String
  CompilerDirectivesArgs : Option (List (List String))
deriving DecidableEq, Repr

/-- The map assignment `result[key] = ss`. -/
def setDirective : List (Directive × List String) → Directive → List String →
    List (Directive × List String)
  | [], key, ss => [(key, ss)]
  | (k, v) :: rest, key, ss =>
    if k = key then (key, ss) :: rest else (k, v) :: setDirective rest key ss

/-- The loop `for i, id := range ids { s += id.GetText(); if i < len(ids)-1 { s += " " } }`,
from index `i` on; `len` is `len(ids)`. -/
def joinLoop (len : Nat) : Nat → List String → String → String
  | _, [], s => s
  | i, id :: ids, s =>
    let s := s ++ id
    joinLoop len (i + 1) ids (if i < len - 1 then s ++ " " else s)

/-- The loop `for _, arg := range args` of `parseCompilerDirectives`. -/
def argsLoop : List (List String) → List String → List String
  | [], ss => ss
  | ids :: rest, ss => argsLoop rest (ss ++ [joinLoop ids.length 0 ids ""])

/-- The loop `for _, directive := range directives` of `parseCompilerDirectives`. -/
def directivesLoop : List DirectiveContext → List (Directive × List String) →
    List (Directive × List String)
  | [], result => result
  | directive :: rest, result =>
    match directive.CompilerDirectivesArgs with
    | none => directivesLoop rest (setDirective result directive.IDENTIFIER [])
    | some args => directivesLoop rest (setDirective result directive.IDENTIFIER (argsLoop args []))

/-- Go `parseCompilerDirectives`; `actx` is `none` for a nil context, for which the map
returned is nil (the empty list: reading a nil map finds nothing). -/
def parseCompilerDirectives (actx : Option (List DirectiveContext)) :
    List (Directive × List String) :=
  match actx with
  | none => []
  | some directives => directivesLoop directives []

/-- Go `getCfgMsg`: the message and the error returned, or `none` when the call panics.
`entity` is `scope.Entity(compiler.ParseEntityRef(·))` and `getIRMsgBySrcRef` the function
of that name applied to the constant of the entity found. -/
def getCfgMsg {ε μ : Type} (node : Node) (entity : String → Except String ε)
    (getIRMsgBySrcRef : ε → Except String μ) : Option (Except String (Option μ)) :=
  match node.Directives.lookup BindDirective with
  | none => some (.ok none)
  | some args =>
    match args[0]? with
    | none => none
    | some arg0 =>
      match entity arg0 with
      | .error err => some (.error err)
      | .ok e =>
        match getIRMsgBySrcRef e with
        | .error err => some (.error err)
        | .ok msg => some (.ok (some msg))

/-! ### Sample directives -/

/-- The directive `#extern(foo, bar)`. -/
def externSingles : DirectiveContext where
  IDENTIFIER := "extern"
  CompilerDirectivesArgs := some [["foo"], ["bar"]]

/-- The directive `#bind` without arguments. -/
def bareBind : DirectiveContext where
  IDENTIFIER := "bind"
  CompilerDirectivesArgs := none

end Irgen

namespace Runtime

/-- Go `PortAddr.String`. `%v` renders the strings as they are and the `uint8` index in
decimal. -/
def PortAddr.String (p : PortAddr) : String :=
  let path :=
    if Strings.Contains p.Path "/out" then Strings.ReplaceAll p.Path "/out" ""
    else if Strings.Contains p.Path "/in" then Strings.ReplaceAll p.Path "/in" ""
    else p.Path
  if !p.Arr then path ++ ":" ++ p.Port
  else path ++ ":" ++ p.Port ++ "[" ++ toString p.Idx ++ "]"

end Runtime

namespace Funcs

/-! ## internal/runtime/funcs/string_at.go

A Go string is taken to hold valid UTF-8 and is a `String`; `len` and `range` see its
bytes. -/

/-- Go `errStrIndexOutOfBounds`, by its text. -/
def errStrIndexOutOfBounds : String := "string index out of bounds"

/-- A message written by the body of `stringAt`: `runtime.NewStrMsg(s)` on the outport `res`,
or `errorFromString(text)` on the outport `err`. Neither constructor is part of the sources at
hand; a message is held by the string it is made from. -/
inductive Emission where
  | res (s : String)
  | err (text : String)
deriving DecidableEq, Repr

/-- Go `utf8.RuneLen`: the number of bytes of the UTF-8 encoding of a rune. -/
def runeLen (c : Char) : Nat :=
  if c.toNat < 128 then 1
  else if c.toNat < 2048 then 2
  else if c.toNat < 65536 then 3
  else 4

/-- Go `len(data)`: the number of bytes of the string. -/
def len (data : String) : Nat :=
  (data.data.map runeLen).sum

/-- Go `for i, r := range data`: the runes of the string, each with the byte offset `i` at
which it starts; `off` is the offset of the first one. -/
def rangeRunes : Nat → List Char → List (Nat × Char)
  | _, [] => []
  | off, r :: rest => (off, r) :: rangeRunes (off + runeLen r) rest

/-- The loop `for i, r := range data { if int64(i) == idx { res = r; found = true; break } }`:
`some res` when `found`, `none` otherwise. -/
def findRune (idx : Int) : List (Nat × Char) → Option Char
  | [] => none
  | (i, r) :: rest => if (i : Int) = idx then some r else findRune idx rest

/-- One turn of the loop of the body: what the two reading selects chose (`none`:
`ctx.Done()`) and whether the writing select chose the write. `idx` is an `int64`. -/
structure StringAtTurn where
  data : Option String
  idx : Option Int
  sendOk : Bool

/-- The body returned by `stringAt.Create`: the messages it writes, in order. The sum
`idx + len(data)` is taken only for a negative `idx` and stays within `int64`. -/
def stringAtBody : List StringAtTurn → List Emission
  | [] => []
  | t :: ts =>
    match t.data with
    | none => []
    | some data =>
      match t.idx with
      | none => []
      | some idx =>
        let idx : Int := if idx < 0 then idx + (len data : Int) else idx
        let found : Option Char :=
          if idx ≥ 0 ∧ idx < (len data : Int) then findRune idx (rangeRunes 0 data.data)
          else none
        match found with
        | some res =>
          if t.sendOk then Emission.res (String.singleton res) :: stringAtBody ts else []
        | none =>
          if t.sendOk then Emission.err errStrIndexOutOfBounds :: stringAtBody ts else []

end Funcs

namespace Program

/-! ## internal/runtime/runtime.go

This file is of a revision that takes its addresses from the package `program`, which is
not part of the sources at hand. Maps are association lists with distinct keys; the order
of the list is the order in which `range` visits the map, which Go leaves open. -/

/-- Modelled from the spec: `program.PortAddr`, with the fields `Node`, `Port` and `Idx`
(a `uint8`) that `runtime.go` uses. -/
structure PortAddr where
  Node : String
  Port : String
  Idx : Nat
deriving DecidableEq, Repr

/-- Modelled from the spec: `program.WorkerNodeMeta`, with the maps `In` and `Out` from port
name to slot count (a `uint8`, 0 for a port that is not an array port) and the component
name. -/
structure WorkerNodeMeta where
  In : List (String × Nat)
  Out : List (String × Nat)
  ComponentName : String

/-- Modelled from the spec: `program.Type` of a constant, of which `runtime.go` tests
`IntType`. -/
inductive ConstType where
  | IntType
  | other
deriving DecidableEq, Repr

/-- Modelled from the spec: `program.Const`, with the fields `Type` (here `Typ`) and
`IntValue` that `constOutport` reads. -/
structure Const where
  Typ : ConstType
  IntValue : Int
deriving DecidableEq, Repr

/-- Modelled from the spec: `program.Connection`, from one address to a list of
addresses. -/
structure Connection where
  From : PortAddr
  To : List PortAddr
deriving DecidableEq, Repr

/-- Modelled from the spec: `program.Component`, with the fields that `spawnNode` reads: the
operator name (empty for a component made of worker nodes), the constants, the worker
nodes by name, and the connections. -/
structure Component where
  Operator : String
  Const : List (String × Const)
  WorkerNodesMeta : List (String × WorkerNodeMeta)
  Net : List Connection

end Program

/-- Go `IO` of `runtime.go`: the input and output ports of a node, each a `Ports` map from
address to channel; a channel `chan Msg` is the serial number of the `make` that made it. -/
structure Runtime.IO where
  In : List (Program.PortAddr × Nat)
  Out : List (Program.PortAddr × Nat)
deriving DecidableEq, Repr

namespace Runtime

/-- A channel `chan Msg`, identified by the serial number of the `make` that made it. -/
abbrev Chan := Nat

/-- Go `Ports`. -/
abbrev Ports := List (Program.PortAddr × Chan)

/-- The errors of `Ports.PortGroup` and `Ports.Port`, by their format: "ErrArrPortNotFound:
%s", "unexpected arr port %v", and `ErrPortNotFound` wrapped by "%w: want '%s', got: %v". -/
inductive PortsError where
  | ErrArrPortNotFound (arrPort : String)
  | unexpectedArrPort (addr : Program.PortAddr)
  | ErrPortNotFound (name : String)
deriving DecidableEq, Repr

/-- The map assignment `ports[addr] = ch`. -/
def Ports.set : Ports → Program.PortAddr → Chan → Ports
  | [], addr, ch => [(addr, ch)]
  | (a, c) :: rest, addr, ch =>
    if a = addr then (addr, ch) :: rest else (a, c) :: Ports.set rest addr ch

/-- The loop `for idx := uint8(0); idx < slots; idx++ { addr.Idx = idx; in[addr] = make(chan
Msg) }`, with `left` turns to go from `idx` on; `next` is the serial number of the next
channel made. -/
def slotLoop (node port : String) : Nat → Nat → Ports → Nat → Ports × Nat
  | 0, _, ports, next => (ports, next)
  | left + 1, idx, ports, next =>
    slotLoop node port left (idx + 1)
      (Ports.set ports { Node := node, Port := port, Idx := idx } next) (next + 1)

/-- The loop `for port, slots := range nodeMeta.In` of `nodeIO` (and the one over
`nodeMeta.Out`), for the node name `node`. -/
def nodePorts (node : String) : List (String × Nat) → Ports → Nat → Ports × Nat
  | [], ports, next => (ports, next)
  | (port, slots) :: rest, ports, next =>
    if slots = 0 then
      nodePorts node rest (Ports.set ports { Node := node, Port := port, Idx := 0 } next)
        (next + 1)
    else
      let res := slotLoop node port slots 0 ports next
      nodePorts node rest res.1 res.2

/-- Go `Runtime.nodeIO`. -/
def nodeIO (nodeMeta : Program.WorkerNodeMeta) : Runtime.IO :=
  let ins := nodePorts "in" nodeMeta.In [] 0
  let outports := nodePorts "out" nodeMeta.Out [] ins.2
  { In := ins.1, Out := outports.1 }

/-- The loop of `Ports.PortGroup`. -/
def portGroupLoop (arrPort : String) : Ports → List Chan → List Chan
  | [], cc => cc
  | (addr, ch) :: rest, cc =>
    if addr.Port = arrPort then portGroupLoop arrPort rest (cc ++ [ch])
    else portGroupLoop arrPort rest cc

/-- Go `Ports.PortGroup`. -/
def Ports.PortGroup (ports : Ports) (arrPort : String) : Except PortsError (List Chan) :=
  let cc := portGroupLoop arrPort ports []
  if cc.length = 0 then .error (.ErrArrPortNotFound arrPort) else .ok cc

/-- The loop of `Ports.Port` with the `return` behind it. -/
def portLoop (name : String) : Ports → Except PortsError Chan
  | [] => .error (.ErrPortNotFound name)
  | (addr, ch) :: rest =>
    if addr.Port ≠ name then portLoop name rest
    else if addr.Idx > 0 then .error (.unexpectedArrPort addr)
    else .ok ch

/-- Go `Ports.Port`. -/
def Ports.Port (ports : Ports) (name : String) : Except PortsError Chan :=
  portLoop name ports

/-! ### Sample node -/

/-- A node with the non-array inport `v`, the array inport `a` of two slots and the array
inport `s` of one slot. -/
def sampleNodeMeta : Program.WorkerNodeMeta where
  In := [("v", 0), ("a", 2), ("s", 1)]
  Out := [("res", 0)]
  ComponentName := "sample"

/-- The entries that `nodeIO` makes for one declared port: one at index 0 for a slot count
of 0, one per index below the slot count otherwise; `next` is the serial number of the first
channel. -/
def slotEntries (node port : String) (slots next : Nat) : Ports :=
  if slots = 0 then [({ Node := node, Port := port, Idx := 0 }, next)]
  else (List.range slots).map (fun j => ({ Node := node, Port := port, Idx := j }, next + j))

/-- The entries that `nodeIO` makes for a list of declared ports. -/
def entriesOf (node : String) : List (String × Nat) → Nat → Ports
  | [], _ => []
  | (port, slots) :: rest, next =>
    slotEntries node port slots next ++
      entriesOf node rest (next + if slots = 0 then 1 else slots)

end Runtime

namespace Runtime

/-! ## internal/runtime/network.go: how the goroutines end -/

/-- Go `Network.pipe`, with the way its run ended beside the messages written: `cancelled`
is the `return` under `ctx.Done()`, `starved` a schedule that ran out. -/
def Network.pipeRun {μ : Type} (n : Network μ) (r : Receiver) (s : Sender) :
    List (PipeTurn μ) → List (IndexedMsg μ) × Outcome Unit
  | [] => ([], .starved)
  | t :: ts =>
    match t.recv with
    | none => ([], .cancelled)
    | some msg =>
      let msg : IndexedMsg μ :=
        match n.interceptor.Sent s.Addr r.Addr msg.data with
        | some intercepted => { data := some intercepted, index := msg.index }
        | none => msg
      if t.sendOk then
        let res := Network.pipeRun n r s ts
        (msg :: res.1, res.2)
      else ([], .cancelled)

/-- Go `Network.fanIn`, with the way its run ended beside the messages written. -/
def Network.fanInRun {μ : Type} (n : Network μ) (r : Receiver) (ss : List Sender)
    (fuel : Nat) : Nat → Sched μ → List (IndexedMsg μ) × Outcome Unit
  | 0, _ => ([], .starved)
  | batches + 1, sch =>
    match fanInBatch n r ss fuel sch with
    | (out, .ok sch1) =>
      let res := Network.fanInRun n r ss fuel batches sch1
      (out.map (fun item => item.msg) ++ res.1, res.2)
    | (out, .cancelled) => (out.map (fun item => item.msg), .cancelled)
    | (out, .starved) => (out.map (fun item => item.msg), .starved)

/-- The function `f` that `Network.Run` starts for a connection. -/
inductive Task where
  | pipe (r : Receiver) (s : Sender)
  | fanIn (r : Receiver) (ss : List Sender)
deriving DecidableEq, Repr

/-- The choice of `f` in `Network.Run`: `pipe` when `len(ss) == 1`, `fanIn` otherwise. -/
def taskOf (r : Receiver) (ss : List Sender) : Task :=
  match ss with
  | [s] => .pipe r s
  | _ => .fanIn r ss

/-- The schedule of one goroutine of `Network.Run`: the turns of `pipe`, and for `fanIn` the
bounds on its loops and its selects. -/
structure TaskSched (μ : Type) where
  turns : List (PipeTurn μ)
  fuel : Nat
  batches : Nat
  sched : Sched μ

/-- The run of the goroutine of one connection. -/
def Network.runTask {μ : Type} (n : Network μ) (t : Task) (ts : TaskSched μ) :
    List (IndexedMsg μ) × Outcome Unit :=
  match t with
  | .pipe r s => n.pipeRun r s ts.turns
  | .fanIn r ss => n.fanInRun r ss ts.fuel ts.batches ts.sched

/-- The counter of the `sync.WaitGroup` of `Run` after the goroutines ran: it starts at
`counter` and `wg.Done()` takes one off for every goroutine whose function returned;
`outcomes` holds, per goroutine, how its run ended. -/
def wgDone : Nat → List (Outcome Unit) → Nat
  | counter, [] => counter
  | counter, o :: outcomes =>
    wgDone (if o = Outcome.cancelled then counter - 1 else counter) outcomes

/-- Go `Network.Run`: `wg.Add(len(n.connections))`, one goroutine per connection that runs
`f` and then calls `wg.Done()`, then `wg.Wait()`. The result says whether `wg.Wait()`
returns, which it does when the counter is zero; `scheds` gives the schedule of the
goroutine of each connection, by position, and a goroutine without one has not run. -/
def Network.Run {μ : Type} (n : Network μ) (scheds : List (TaskSched μ)) : Bool :=
  decide (wgDone n.connections.length
    (List.zipWith (fun c ts => (n.runTask (taskOf c.1 c.2) ts).2) n.connections scheds) = 0)

/-- Whether a polling `select` took `ctx.Done()`. -/
def Poll.isDone {μ : Type} : Poll μ → Bool
  | .done => true
  | _ => false

/-- The polls before the first that takes `ctx.Done()`. -/
def pollsUntilDone {μ : Type} (polls : List (Poll μ)) : List (Poll μ) :=
  polls.takeWhile (fun p => !p.isDone)

/-- The writing selects before the first that takes `ctx.Done()`. -/
def writesUntilDone (writes : List Bool) : List Bool :=
  writes.takeWhile (fun w => w)

/-- The schedule of a `fanIn` goroutine cut before its first selects that take
`ctx.Done()`. -/
def Sched.untilDone {μ : Type} (sch : Sched μ) : Sched μ :=
  { polls := pollsUntilDone sch.polls, writes := writesUntilDone sch.writes }

/-- How a loop ends on a schedule cut before the selects that take `ctx.Done()`: as on the
whole schedule when it ran through (with the rest of the schedule cut by `cut`), and out of
schedule where it was cancelled. -/
def Outcome.cutBy {α : Type} (cut : α → α) : Outcome α → Outcome α
  | .ok a => .ok (cut a)
  | _ => .starved

/-- Whether the turns `turns` of `pipe`, the first of them starting with the `k`-th `select`
of the goroutine, can occur when the cancellation signal is raised after `raised` selects.
`ctx.Done()` is closed by the signal, so a `select` before it cannot take that case; a
`select` after it can, and can as well take its channel operation when the other side is
ready (Go chooses among the cases that are ready). -/
def pipePossible {μ : Type} (raised : Nat) : Nat → List (PipeTurn μ) → Bool
  | _, [] => true
  | k, t :: ts =>
    match t.recv with
    | none => decide (raised ≤ k)
    | some _ => if t.sendOk then pipePossible raised (k + 2) ts else decide (raised ≤ k + 1)

/-- Turns of `pipe`: two messages forwarded, then `ctx.Done()` at the read. -/
def raceTurns : List (PipeTurn Nat) :=
  [{ recv := some { data := some 1, index := 0 }, sendOk := true },
   { recv := some { data := some 2, index := 1 }, sendOk := true },
   { recv := none, sendOk := true }]

/-- A network with the one connection from sender `a` to the receiver. -/
def oneNet : Network Nat where
  connections := [({ Addr := portAddr "r" }, [{ Addr := portAddr "a" }])]
  interceptor := dummy Nat

/-- A schedule for the goroutine of `oneNet`, a `pipe` that runs the turns `raceTurns`. -/
def oneSched : TaskSched Nat where
  turns := raceTurns
  fuel := 0
  batches := 0
  sched := { polls := [], writes := [] }

/-- A schedule of polls for two senders in which nothing arrives during the first two
sweeps and the first sender delivers in the third. -/
def latePolls : List (Poll Nat) :=
  [.dflt, .dflt, .dflt, .dflt, .recv { data := some 7, index := 0 }, .dflt,
    .recv { data := some 8, index := 1 }]

/-- A receiver. -/
def sampleReceiver : Receiver := { Addr := portAddr "r" }

end Runtime

namespace Compiler.Parser

/-! ## internal/compiler/parser/parser.go

The walk over the parse tree is a run of the listener's callbacks that either returns or
panics; it is given by its outcome. -/

/-- Modelled from the spec: `src.Position`. -/
structure Position where
  Line : Nat
  Column : Nat
deriving DecidableEq, Repr

/-- Modelled from the spec: `src.Meta`, with the fields that `parseTypeExpr` sets. -/
structure Meta where
  Text : String
  Start : Position
  Stop : Position
deriving DecidableEq, Repr

/-- Modelled from the spec: `compiler.Error`, with the fields `Err` (the text of the wrapped
error) and `Meta` that the parser sets. -/
structure Error where
  Err : String
  Meta : Option Meta
deriving DecidableEq, Repr

/-- A value given to `panic`: a `*compiler.Error`, or a value of any other type, held by its
`%v` text. -/
inductive PanicValue where
  | compilerError (e : Error)
  | other (text : String)
deriving DecidableEq, Repr

/-- The last branch of `parseTypeExpr`: the value it panics with when the context holds none
of `TypeInstExpr`, `UnionTypeExpr` and `TypeLitExpr`; `text`, `startLine` and `stopLine` are
`expr.GetText()`, `expr.GetStart().GetLine()` and `expr.GetStop().GetLine()` (the source
fills both columns from `GetLine()`). -/
def missingTypeExpr (text : String) (startLine stopLine : Nat) : PanicValue :=
  .compilerError
    { Err := "Missing type expression",
      Meta := some
        { Text := text,
          Start := { Line := startLine, Column := startLine },
          Stop := { Line := stopLine, Column := stopLine } } }

/-- Go `walkTree`. `walk` is the outcome of `antlr.ParseTreeWalkerDefault.Walk`: `none` when
it returned, `some v` when it panicked with `v`; `stack` is `string(debug.Stack())`. The
result is the named return value `err` (`none` = nil) after the deferred function ran: the
deferred function assigns to `err` only when the type assertion `e.(*compiler.Error)` fails. -/
def walkTree (walk : Option PanicValue) (stack : String) : Option Error :=
  match walk with
  | none => none
  | some (.compilerError _) => none
  | some (.other text) => some { Err := text ++ ": " ++ stack, Meta := none }

/-- Go `Parser.parseFile`, from the walk on: `file` is `listener.file` as the walk left it,
`empty` is `src.File{}`, `lexerErrors` and `parserErrors` are the `Errors` of the two
error listeners. -/
def parseFile {φ : Type} (empty : φ) (walk : Option PanicValue) (stack : String) (file : φ)
    (lexerErrors parserErrors : List Error) : φ × Option Error :=
  match walkTree walk stack with
  | some err => (empty, some err)
  | none =>
    match lexerErrors with
    | e :: _ => (empty, some e)
    | [] =>
      match parserErrors with
      | e :: _ => (empty, some e)
      | [] => (file, none)

end Compiler.Parser

namespace Core

/-! ## internal/core/runtime.go

The types `NodeIO`, `nodePorts`, `PortPoint` and the module types are of the package `core`
but not in the file at hand. Maps are association lists in the order in which `range`
visits them; a channel is the serial number of the `make` that made it. -/

/-- A channel `chan Msg`. -/
abbrev Chan := Nat

/-- Go `tmpArrSize`. -/
def tmpArrSize : Nat := 10

/-- Modelled from the spec: `PortType`, of which `Ports` reads the field `Arr`. -/
structure PortType where
  Arr : Bool
deriving DecidableEq, Repr

/-- Go `Port` (`interface{}`), holding what `Ports` stores: a channel, or a slice of
channels for an array port. -/
inductive Port where
  | norm (c : Chan)
  | arr (cc : List Chan)
deriving DecidableEq, Repr

/-- Modelled from the spec: `nodePorts`, a map from port name to `Port`. -/
abbrev nodePorts := List (String × Port)

/-- Modelled from the spec: `NodeIO`, the inports and the outports of a node. -/
structure NodeIO where
  inports : nodePorts
  out : nodePorts
deriving DecidableEq, Repr

/-- The map assignment `result[port] = v`. -/
def nodePorts.set : nodePorts → String → Port → nodePorts
  | [], port, v => [(port, v)]
  | (p, w) :: rest, port, v =>
    if p = port then (port, v) :: rest else (p, w) :: nodePorts.set rest port v

/-- The loop of Go `Runtime.Ports`; `next` is the serial number of the next channel made. -/
def portsLoop : List (String × PortType) → nodePorts → Nat → nodePorts × Nat
  | [], result, next => (result, next)
  | (port, typ) :: rest, result, next =>
    if typ.Arr then
      portsLoop rest
        (result.set port (.arr ((List.range tmpArrSize).map (fun i => next + i))))
        (next + tmpArrSize)
    else
      portsLoop rest (result.set port (.norm next)) (next + 1)

/-- Go `Runtime.Ports`. -/
def Ports (ports : List (String × PortType)) (next : Nat) : nodePorts × Nat :=
  portsLoop ports [] next

/-- Go `Runtime.nodeIO`. -/
def nodeIO (inp out : List (String × PortType)) (next : Nat) : NodeIO × Nat :=
  let inports := Ports inp next
  let outports := Ports out inports.2
  ({ inports := inports.1, out := outports.1 }, outports.2)

/-- Modelled from the spec: `NodeIO.ArrOutport`, the outport `port` as a slice of channels,
or an error when there is no such outport or it is not an array port. -/
def NodeIO.ArrOutport (io : NodeIO) (port : String) : Except String (List Chan) :=
  match io.out.lookup port with
  | some (.arr cc) => .ok cc
  | some (.norm _) => .error ("not an array outport: " ++ port)
  | none => .error ("outport not found: " ++ port)

/-- Modelled from the spec: `NodeIO.NormOut`, the outport `port` as one channel, or an error
when there is no such outport or it is an array port. -/
def NodeIO.NormOut (io : NodeIO) (port : String) : Except String Chan :=
  match io.out.lookup port with
  | some (.norm c) => .ok c
  | some (.arr _) => .error ("not a normal outport: " ++ port)
  | none => .error ("outport not found: " ++ port)

/-- Modelled from the spec: `PortPoint`, by its dynamic type: `ArrPortPoint` (with `Port` and
the `uint8` `Index`), `NormPortPoint` (with `Port`), or any other type, held by its name. -/
inductive PortPoint where
  | ArrPortPoint (Node Port : String) (Index : Nat)
  | NormPortPoint (Node Port : String)
  | other (typeName : String)
deriving DecidableEq, Repr

/-- Go `PortPoint.NodeName`. -/
def PortPoint.NodeName : PortPoint → String
  | .ArrPortPoint node _ _ => node
  | .NormPortPoint node _ => node
  | .other _ => ""

/-- The ways in which `chanByPoint` panics: with the error of a port lookup, with "arrport to
small", with the run-time error of a slice index out of range, and with the name of the
type of the point. -/
inductive Panic where
  | err (e : String)
  | arrportToSmall
  | indexOutOfRange (index len : Nat)
  | pointType (typeName : String)
deriving DecidableEq, Repr

/-- Go `Runtime.chanByPoint`; `.error` is a panic. `uint8(len(arrport))` is the length
modulo 256. -/
def chanByPoint (point : PortPoint) ( nodeIO : NodeIO) : Except Panic Chan :=
  match point with
  | .ArrPortPoint _ port index =>
    match nodeIO.ArrOutport port with
    | .error e => .error (.err e)
    | .ok arrport =>
      if arrport.length % 256 < index then .error .arrportToSmall
      else
        match arrport[index]? with
        | some c => .ok c
        | none => .error (.indexOutOfRange index arrport.length)
  | .NormPortPoint _ port =>
    match nodeIO.NormOut port with
    | .error e => .error (.err e)
    | .ok normPort => .ok normPort
  | .other typeName => .error (.pointType typeName)

/-- A node with the one array outport `port` holding the channels `cc`. -/
def arrNode (port : String) (cc : List Chan) : NodeIO :=
  { inports := [], out := [(port, .arr cc)] }

/-! ### `Runtime.Run`

The recursion of `Run` is bounded by `fuel`; `none` is a recursion deeper than the fuel. The
cache, the channels made and the goroutines started are kept in a state. -/

/-- Modelled from the spec: the interface of a module (`mod.Interface()`), with the fields
`In` and `Out` that `Run` reads. -/
structure ModuleInterface where
  In : List (String × PortType)
  Out : List (String × PortType)
deriving DecidableEq, Repr

/-- Modelled from the spec: `StreamDef`, a sender point and its receiver points. -/
structure StreamDef where
  Sender : PortPoint
  Recievers : List PortPoint
deriving DecidableEq, Repr

/-- Modelled from the spec: `connection`, a sender channel and its receiver channels. -/
structure connection where
  Sender : Chan
  Receivers : List Chan
deriving DecidableEq, Repr

/-- Modelled from the spec: `Module`, by its dynamic type: `nativeModule` (with the name of
its `impl`), `customModule` (with `deps`, `workers` from worker name to module name, and
`net`), or any other type. -/
inductive Module where
  | nativeModule (iface : ModuleInterface) (impl : String)
  | customModule (iface : ModuleInterface) (deps : List (String × ModuleInterface))
      (workers : List (String × String)) (net : List StreamDef)
  | other (iface : ModuleInterface) (typeName : String)
deriving DecidableEq, Repr

/-- Go `Module.Interface`. -/
def Module.Interface : Module → ModuleInterface
  | .nativeModule iface _ => iface
  | .customModule iface _ _ _ => iface
  | .other iface _ => iface

/-- The ways in which `Run` ends without a `NodeIO`: the errors `errModNotFound`,
`errUnknownModType` and "unresolved dependency '%s': %w", and a panic of `chanByPoint`. -/
inductive RunError where
  | errModNotFound (name : String)
  | errUnknownModType (name : String)
  | unresolvedDependency (dep : String) (err : String)
  | panic (p : Panic)
deriving DecidableEq, Repr

/-- The goroutines that `Run` starts: `go nmod.impl(io)` and `go r.connect(c)`. -/
inductive RunEffect where
  | impl (name : String) (io : NodeIO)
  | connect (c : connection)
deriving DecidableEq, Repr

/-- The state of a run: the names that `r.cache` maps to `true`, the serial number of the
next channel made, and the goroutines started so far. -/
structure RunState where
  cache : List String
  next : Nat
  effects : List RunEffect
deriving DecidableEq, Repr

/-- Go `Runtime.resolveDeps`; `compare` is `Interface.Compare` by the error it returns. -/
def resolveDeps (compare : ModuleInterface → ModuleInterface → Option String)
    (env : List (String × Module)) : List (String × ModuleInterface) → Option RunError
  | [] => none
  | (dep, want) :: rest =>
    match env.lookup dep with
    | none => some (.errModNotFound dep)
    | some mod =>
      match compare mod.Interface want with
      | some err => some (.unresolvedDependency dep err)
      | none => resolveDeps compare env rest

/-- The map read `io[name]`, the zero `NodeIO` for a missing key. -/
def nodeIOAt (io : List (String × NodeIO)) (name : String) : NodeIO :=
  (io.lookup name).getD { inports := [], out := [] }

/-- The map assignment `nodesIO[name] = io`. -/
def setNode : List (String × NodeIO) → String → NodeIO → List (String × NodeIO)
  | [], name, io => [(name, io)]
  | (k, v) :: rest, name, io =>
    if k = name then (name, io) :: rest else (k, v) :: setNode rest name io

/-- The inner loop of `connections`, over the receivers of one stream. -/
def receiversLoop (io : List (String × NodeIO)) :
    List PortPoint → List Chan → Except Panic (List Chan)
  | [], receivers => .ok receivers
  | receiver :: rest, receivers =>
    match chanByPoint receiver (nodeIOAt io receiver.NodeName) with
    | .error p => .error p
    | .ok ch => receiversLoop io rest (receivers ++ [ch])

/-- The outer loop of `connections`. -/
def connectionsLoop (io : List (String × NodeIO)) :
    List StreamDef → List connection → Except Panic (List connection)
  | [], rels => .ok rels
  | rel :: rest, rels =>
    match chanByPoint rel.Sender (nodeIOAt io rel.Sender.NodeName) with
    | .error p => .error p
    | .ok sender =>
      match receiversLoop io rel.Recievers [] with
      | .error p => .error p
      | .ok receivers =>
        connectionsLoop io rest (rels ++ [{ Sender := sender, Receivers := receivers }])

/-- Go `Runtime.connections`; `.error` is a panic of `chanByPoint` (the error returned is
always nil). -/
def connections (io : List (String × NodeIO)) (net : List StreamDef) :
    Except Panic (List connection) :=
  connectionsLoop io net []

/-- The loop `for w, dep := range cmod.workers` of `Run`; `run` is the recursive call. -/
def workersLoop (run : String → RunState → Option (Except RunError NodeIO × RunState)) :
    List (String × String) → List (String × NodeIO) → RunState →
      Option (Except RunError (List (String × NodeIO)) × RunState)
  | [], nodes, st => some (.ok nodes, st)
  | (w, dep) :: rest, nodes, st =>
    match run dep st with
    | none => none
    | some (.error err, st1) => some (.error err, st1)
    | some (.ok io, st1) => workersLoop run rest (setNode nodes w io) st1

/-- Go `Runtime.Run` of `core`, with `fuel` bounding the depth of the recursion: `none` when
the recursion goes deeper, else what is returned (or the panic) with the state reached. -/
def Run (compare : ModuleInterface → ModuleInterface → Option String)
    (env : List (String × Module)) :
    Nat → String → RunState → Option (Except RunError NodeIO × RunState)
  | 0, _, _ => none
  | fuel + 1, name, st =>
    match env.lookup name with
    | none => some (.error (.errModNotFound name), st)
    | some (.nativeModule iface _) =>
      let made := nodeIO iface.In iface.Out st.next
      some (.ok made.1,
        { st with next := made.2, effects := st.effects ++ [.impl name made.1] })
    | some (.other _ _) => some (.error (.errUnknownModType name), st)
    | some (.customModule iface deps workers net) =>
      let resolved : Except RunError RunState :=
        if st.cache.contains name then .ok st
        else
          match resolveDeps compare env deps with
          | some err => .error err
          | none => .ok { st with cache := name :: st.cache }
      match resolved with
      | .error err => some (.error err, st)
      | .ok st =>
        let inNode := nodeIO [] iface.In st.next
        let outNode := nodeIO iface.Out [] inNode.2
        let nodes := setNode (setNode [] "in" inNode.1) "out" outNode.1
        match workersLoop (Run compare env fuel) workers nodes
            { st with next := outNode.2 } with
        | none => none
        | some (.error err, st) => some (.error err, st)
        | some (.ok nodes, st) =>
          match connections nodes net with
          | .error p => some (.error (.panic p), st)
          | .ok rels =>
            some (.ok { inports := (nodeIOAt nodes "in").out,
                        out := (nodeIOAt nodes "out").inports },
              { st with effects := st.effects ++ rels.map RunEffect.connect })

/-! ### Sample environments -/

/-- The interface without ports. -/
def noPorts : ModuleInterface := { In := [], Out := [] }

/-- An environment whose custom module `loop` has a worker that is `loop` itself. -/
def selfEnv : List (String × Module) :=
  [("loop", .customModule noPorts [] [("w", "loop")] [])]

/-- An environment whose custom modules `a` and `b` have each other as workers; `a` has a
worker of the native module `plus` before. -/
def chainEnv : List (String × Module) :=
  [("plus", .nativeModule noPorts "plus"),
   ("a", .customModule noPorts [] [("x", "plus"), ("y", "b")] []),
   ("b", .customModule noPorts [] [("z", "a")] [])]

/-- An interface comparison that accepts everything. -/
def okCompare : ModuleInterface → ModuleInterface → Option String := fun _ _ => none

end Core

namespace Typesystem

/-! ## pkg/typesystem/typesystem.go

A pointer is an `Option` (`none` = nil), and so is a slice or a map where the source tells
nil from empty; `Ref`, a `fmt.Stringer`, is held by the text its `String()` returns. A map is
the list of its entries in the order in which `range` visits them. -/

mutual
/-- Go `Expr`. -/
inductive Expr where
  | mk (Lit : Option LitExpr) (Inst : Option InstExpr)
/-- Go `LitExpr`. -/
inductive LitExpr where
  | mk (Arr : Option ArrLit) (Rec : Option (List (String × Expr))) (Enum : Option (List String))
      (Union : Option (List Expr))
/-- Go `InstExpr`. -/
inductive InstExpr where
  | mk (Ref : Option String) (Args : List Expr)
/-- Go `ArrLit`. -/
inductive ArrLit where
  | mk (Expr : Expr) (Size : Int)
end

/-- Go `LiteralType`. -/
inductive LiteralType where
  | EmptyLitType
  | ArrLitType
  | RecLitType
  | EnumLitType
  | UnionLitType
deriving DecidableEq, Repr

/-- Go `LitExpr.Type`, on a pointer. -/
def LitExpr.Type : Option LitExpr → LiteralType
  | none => .EmptyLitType
  | some (.mk arr rec enum union) =>
    if arr.isSome then .ArrLitType
    else if rec.isSome then .RecLitType
    else if enum.isSome then .EnumLitType
    else if union.isSome then .UnionLitType
    else .EmptyLitType

/-- The loop of the case `EnumLitType` of `Expr.String`, from index `i` on. -/
def enumLoop (len : Nat) : Nat → List String → String → String
  | _, [], str => str
  | i, el :: rest, str =>
    let str := str ++ (" " ++ el)
    enumLoop len (i + 1) rest (if i = len - 1 then str ++ " " else str ++ ",")

mutual
/-- Go `Expr.String` on a non-nil pointer: the string returned, or `none` when the call
dereferences nil. -/
def Expr.String : Expr → Option String
  | .mk lit inst =>
    if inst.isNone && lit.isNone then some "empty"
    else
      match LitExpr.Type lit with
      | .ArrLitType =>
        match lit with
        | some (.mk (some (.mk e size)) _ _ _) =>
          match Expr.String e with
          | none => none
          | some s => some ("[" ++ toString size ++ "]" ++ s)
        | _ => none
      | .EnumLitType =>
        match lit with
        | some (.mk _ _ enum _) =>
          some (enumLoop (enum.getD []).length 0 (enum.getD []) "\x7b" ++ "\x7d")
        | none => none
      | .RecLitType =>
        match lit with
        | some (.mk _ (some rec) _ _) =>
          match recLoop rec.length 0 rec "\x7b" with
          | none => none
          | some str => some (str ++ "\x7d")
        | some (.mk _ none _ _) => some "\x7b\x7d"
        | none => none
      | .UnionLitType =>
        match lit with
        | some (.mk _ _ _ (some union)) => sepLoop " | " union.length 0 union ""
        | some (.mk _ _ _ none) => some ""
        | none => none
      | .EmptyLitType =>
        match inst with
        | none => none
        | some (.mk ref args) =>
          if args.length = 0 then ref
          else
            match sepLoop ", " args.length 0 args (ref.getD "" ++ "<") with
            | none => none
            | some str => some (str ++ ">")
/-- The loop of the case `RecLitType`, from the count `count` on. -/
def recLoop (len : Nat) : Nat → List (String × Expr) → String → Option String
  | _, [], str => some str
  | count, (fieldName, fieldExpr) :: rest, str =>
    match Expr.String fieldExpr with
    | none => none
    | some s =>
      let str := str ++ (" " ++ fieldName ++ " " ++ s)
      recLoop len (count + 1) rest (if count < len - 1 then str ++ "," else str ++ " ")
/-- The loops over `expr.Lit.Union` (separator `" | "`) and over `expr.Inst.Args`
(separator `", "`), from index `i` on. -/
def sepLoop (sep : String) (len : Nat) : Nat → List Expr → String → Option String
  | _, [], str => some str
  | i, el :: rest, str =>
    match Expr.String el with
    | none => none
    | some s =>
      let str := str ++ s
      sepLoop sep len (i + 1) rest (if i < len - 1 then str ++ sep else str)
end

/-- Go `Expr.String` on a pointer that may be nil (`expr == nil` gives "empty"). -/
def stringOfPtr : Option Expr → Option String
  | none => some "empty"
  | some expr => expr.String

mutual
/-- Well-formedness in the words of the claim: exactly one of `Lit` and `Inst` is set, a set
`Lit` has exactly one of `Arr`, `Rec`, `Enum`, `Union` initialised, an `Inst` has a non-nil
`Ref`, and so for all sub-expressions. -/
def Expr.wellFormed : Expr → Bool
  | .mk none none => false
  | .mk (some _) (some _) => false
  | .mk (some lit) none => LitExpr.wellFormed lit
  | .mk none (some inst) => InstExpr.wellFormed inst
/-- Well-formedness of a literal expression. -/
def LitExpr.wellFormed : LitExpr → Bool
  | .mk arr rec enum union =>
    decide (arr.isSome.toNat + rec.isSome.toNat + enum.isSome.toNat + union.isSome.toNat = 1) &&
    (match arr with
      | some (.mk e _) => Expr.wellFormed e
      | none => true) &&
    (match rec with
      | some fields => fieldsWellFormed fields
      | none => true) &&
    (match union with
      | some els => allWellFormed els
      | none => true)
/-- Well-formedness of an instantiation. -/
def InstExpr.wellFormed : InstExpr → Bool
  | .mk ref args => ref.isSome && allWellFormed args
/-- Well-formedness of the fields of a record. -/
def fieldsWellFormed : List (String × Expr) → Bool
  | [] => true
  | (_, e) :: rest => Expr.wellFormed e && fieldsWellFormed rest
/-- Well-formedness of a list of expressions. -/
def allWellFormed : List Expr → Bool
  | [] => true
  | e :: rest => Expr.wellFormed e && allWellFormed rest
end

/-! ### Sample expressions -/

/-- The instantiation `ref` without arguments. -/
def inst (ref : String) : Expr := .mk none (some (.mk (some ref) []))

/-- The expression `map<int, { a, b }>`. -/
def mapExpr : Expr :=
  .mk none (some (.mk (some "map") [inst "int", .mk (some (.mk none none (some ["a", "b"]) none)) none]))

/-- The expression `[3]{ x int, y int | string }`. -/
def arrExpr : Expr :=
  .mk (some (.mk (some (.mk
    (.mk (some (.mk none
      (some [("x", inst "int"),
        ("y", .mk (some (.mk none none none (some [inst "int", inst "string"]))) none)])
      none none)) none) 3)) none none none)) none

end Typesystem

namespace Runtime

/-! ## internal/runtime/runtime.go: `spawnNode`

The recursion of `spawnNode` is bounded by `fuel`; `none` is a recursion deeper than the
fuel. The channels made and the calls of the connector are kept in a state. -/

/-- Go `Port`: a channel with its address. -/
structure Port where
  Ch : Chan
  Addr : Program.PortAddr
deriving DecidableEq, Repr

/-- Go `Connection`. -/
structure Connection where
  From : Port
  To : List Port
deriving DecidableEq, Repr

/-- The errors of `spawnNode` and `connections`, by their format: "component not found: %s",
"connect operator: %w", "not found IO for node %s", "outport %s not found", "io for receiver
node not found: %s", "inport not found %s". -/
inductive SpawnError where
  | componentNotFound (name : String)
  | connectOperator (err : String)
  | fromIONotFound (node : String)
  | outportNotFound (addr : Program.PortAddr)
  | receiverIONotFound (node : String)
  | inportNotFound (addr : Program.PortAddr)
deriving DecidableEq, Repr

/-- What `spawnNode` does besides returning: the calls of the connector, and the goroutine
of `constOutport`, which sends `msg` on `ch` forever (`none` is the zero `Msg`). -/
inductive Effect where
  | ConnectOperator (operator : String) (io : Runtime.IO)
  | ConnectSubnet (cc : List Connection)
  | constSender (ch : Chan) (msg : Option Int)
deriving DecidableEq, Repr

/-- The state of a run of `spawnNode`: the serial number of the next channel made, and the
effects so far. -/
structure SpawnState where
  next : Nat
  effects : List Effect
deriving DecidableEq, Repr

/-- Modelled from the spec: `Connector`, by the error that `ConnectOperator` returns (`none`
is nil); `ConnectSubnet` returns nothing. -/
structure Connector where
  ConnectOperator : String → Runtime.IO → Option String

/-- Go `Runtime.nodeIO`, with the channels numbered from `next` on. -/
def nodeIOFrom (nodeMeta : Program.WorkerNodeMeta) (next : Nat) : Runtime.IO × Nat :=
  let ins := nodePorts "in" nodeMeta.In [] next
  let outports := nodePorts "out" nodeMeta.Out [] ins.2
  ({ In := ins.1, Out := outports.1 }, outports.2)

/-- Go `Runtime.constOutport`. -/
def constOutport (cnst : Program.Const) (st : SpawnState) : Chan × SpawnState :=
  let msg := if cnst.Typ = .IntType then some cnst.IntValue else none
  (st.next, { next := st.next + 1, effects := st.effects ++ [.constSender st.next msg] })

/-- The loop `for name, cnst := range component.Const` of `spawnNode`. -/
def constLoop : List (String × Program.Const) → Ports → SpawnState → Ports × SpawnState
  | [], out, st => (out, st)
  | (name, cnst) :: rest, out, st =>
    let res := constOutport cnst st
    constLoop rest (Ports.set out { Node := "const", Port := name, Idx := 0 } res.1) res.2

/-- The loops of `patchIO`. -/
def patchLoop (nodeName : String) : Ports → Ports → Ports
  | [], acc => acc
  | (addr, ch) :: rest, acc =>
    patchLoop nodeName rest (Ports.set acc { addr with Node := nodeName } ch)

/-- Go `Runtime.patchIO`. -/
def patchIO (_meta : Program.WorkerNodeMeta) (io : Runtime.IO) (nodeName : String) :
    Runtime.IO :=
  { In := patchLoop nodeName io.In [], Out := patchLoop nodeName io.Out [] }

/-- The inner loop of `connections`, over the receiving addresses of one connection. -/
def receiversLoop (nodes : List (String × Runtime.IO)) :
    List Program.PortAddr → List Port → Except SpawnError (List Port)
  | [], receivers => .ok receivers
  | toAddr :: rest, receivers =>
    match nodes.lookup toAddr.Node with
    | none => .error (.receiverIONotFound toAddr.Node)
    | some toNode =>
      match toNode.In.lookup toAddr with
      | none => .error (.inportNotFound toAddr)
      | some receiver =>
        receiversLoop nodes rest (receivers ++ [{ Ch := receiver, Addr := toAddr }])

/-- The outer loop of `connections`. -/
def connectionsLoop (nodes : List (String × Runtime.IO)) :
    List Program.Connection → List Connection → Except SpawnError (List Connection)
  | [], cc => .ok cc
  | c :: rest, cc =>
    match nodes.lookup c.From.Node with
    | none => .error (.fromIONotFound c.From.Node)
    | some fromNode =>
      match fromNode.Out.lookup c.From with
      | none => .error (.outportNotFound c.From)
      | some sender =>
        match receiversLoop nodes c.To [] with
        | .error err => .error err
        | .ok receivers =>
          connectionsLoop nodes rest
            (cc ++ [{ From := { Ch := sender, Addr := c.From }, To := receivers }])

/-- Go `Runtime.connections`. -/
def connections (nodes : List (String × Runtime.IO)) (net : List Program.Connection) :
    Except SpawnError (List Connection) :=
  connectionsLoop nodes net []

/-- The map assignment `subnetIO[name] = io`. -/
def setSubnet : List (String × Runtime.IO) → String → Runtime.IO →
    List (String × Runtime.IO)
  | [], name, io => [(name, io)]
  | (k, v) :: rest, name, io =>
    if k = name then (name, io) :: rest else (k, v) :: setSubnet rest name io

/-- The loop `for workerNodeName, workerNodeMeta := range component.WorkerNodesMeta` of
`spawnNode`; `spawn` is the recursive call. -/
def workersLoop
    (spawn : String → Program.WorkerNodeMeta → SpawnState →
      Option (Except SpawnError Runtime.IO × SpawnState)) :
    List (String × Program.WorkerNodeMeta) → List (String × Runtime.IO) → SpawnState →
      Option (Except SpawnError (List (String × Runtime.IO)) × SpawnState)
  | [], subnet, st => some (.ok subnet, st)
  | (workerNodeName, workerNodeMeta) :: rest, subnet, st =>
    match spawn workerNodeName workerNodeMeta st with
    | none => none
    | some (.error err, st1) => some (.error err, st1)
    | some (.ok spawned, st1) =>
      workersLoop spawn rest (setSubnet subnet workerNodeName spawned) st1

/-- Go `Runtime.spawnNode`, with `fuel` bounding the depth of the recursion: `none` when the
recursion goes deeper, else what is returned together with the state reached. -/
def spawnNode (cnctr : Connector) (scope : List (String × Program.Component)) :
    Nat → String → Program.WorkerNodeMeta → SpawnState →
      Option (Except SpawnError Runtime.IO × SpawnState)
  | 0, _, _, _ => none
  | fuel + 1, nodeName, nodeMeta, st =>
    match scope.lookup nodeMeta.ComponentName with
    | none => some (.error (.componentNotFound nodeMeta.ComponentName), st)
    | some component =>
      let made := nodeIOFrom nodeMeta st.next
      let io := made.1
      let st : SpawnState := { st with next := made.2 }
      if component.Operator ≠ "" then
        let st : SpawnState :=
          { st with effects := st.effects ++ [.ConnectOperator component.Operator io] }
        match cnctr.ConnectOperator component.Operator io with
        | some err => some (.error (.connectOperator err), st)
        | none => some (.ok ( patchIO nodeMeta io nodeName), st)
      else
        let subnet : List (String × Runtime.IO) :=
          [("in", { In := [], Out := io.In }), ("out", { In := io.Out, Out := [] })]
        let withConst : List (String × Runtime.IO) × SpawnState :=
          if component.Const.length > 0 then
            let res := constLoop component.Const [] st
            (setSubnet subnet "const" { In := [], Out := res.1 }, res.2)
          else (subnet, st)
        match workersLoop (spawnNode cnctr scope fuel) component.WorkerNodesMeta withConst.1
            withConst.2 with
        | none => none
        | some (.error err, st) => some (.error err, st)
        | some (.ok subnet, st) =>
          match connections subnet component.Net with
          | .error err => some (.error err, st)
          | .ok cc =>
            some (.ok ( patchIO nodeMeta io nodeName),
              { st with effects := st.effects ++ [.ConnectSubnet cc] })

/-- Go `Runtime.Run` of `runtime.go`, on `p.Scope` and `p.RootNodeMeta`. -/
def Run (cnctr : Connector) (scope : List (String × Program.Component))
    (rootNodeMeta : Program.WorkerNodeMeta) (fuel : Nat) :
    Option (Except SpawnError Runtime.IO × SpawnState) :=
  spawnNode cnctr scope fuel "root" rootNodeMeta { next := 0, effects := [] }

/-! ### Sample scopes -/

/-- A connector that accepts every operator. -/
def okConnector : Connector := { ConnectOperator := fun _ _ => none }

/-- A worker node without ports that refers to the component `name`. -/
def nodeOf (name : String) : Program.WorkerNodeMeta :=
  { In := [], Out := [], ComponentName := name }

/-- A scope whose component `loop` has a worker node that refers to `loop` itself. -/
def selfScope : List (String × Program.Component) :=
  [("loop",
    { Operator := "", Const := [], WorkerNodesMeta := [("w", nodeOf "loop")], Net := [] })]

/-- A scope whose components `a` and `b` refer to each other; `a` has a worker of the
operator component `op` before the one that refers to `b`. -/
def chainScope2 : List (String × Program.Component) :=
  [("op", { Operator := "plus", Const := [], WorkerNodesMeta := [], Net := [] }),
   ("a", { Operator := "", Const := [],
           WorkerNodesMeta := [("x", nodeOf "op"), ("y", nodeOf "b")], Net := [] }),
   ("b", { Operator := "", Const := [], WorkerNodesMeta := [("z", nodeOf "a")], Net := [] })]

/-- A scope without self-reference: `top` has one worker of the operator component `op`. -/
def flatScope : List (String × Program.Component) :=
  [("op", { Operator := "plus", Const := [], WorkerNodesMeta := [], Net := [] }),
   ("top", { Operator := "", Const := [], WorkerNodesMeta := [("x", nodeOf "op")], Net := [] })]

/-! ### Sample runs with cancellation -/

/-- Turns of `pipe`: one message forwarded, then `ctx.Done()` at the read; the turn behind
is never reached. -/
def pipeTurns : List (PipeTurn Nat) :=
  [{ recv := some { data := some 1, index := 0 }, sendOk := true },
   { recv := none, sendOk := true },
   { recv := some { data := some 2, index := 1 }, sendOk := true }]

/-- A schedule of `fanIn` for two senders: three messages in two sweeps, all written, then
`ctx.Done()` at the first poll of the next batch. -/
def doneSched : Sched Nat where
  polls := [.recv { data := some 10, index := 3 }, .recv { data := some 20, index := 1 },
    .recv { data := some 11, index := 4 }, .dflt, .done,
    .recv { data := some 99, index := 9 }]
  writes := [true, true, true, true]

end Runtime

/-! # Properties -/

namespace Runtime

/-! ## Sorting -/

/-- Sinking an element into a list keeps the elements. -/
theorem sinkLeft_perm {α : Type} (less : α → α → Bool) (x : α) (l : List α) :
    (sinkLeft less x l).Perm (x :: l) := by
  induction l with
  | nil => simp [sinkLeft]
  | cons p ps ih =>
    simp only [sinkLeft]
    split
    · exact (List.Perm.cons p ih).trans (List.Perm.swap x p ps)
    · exact List.Perm.refl _

/-- The insertion loop keeps the elements. -/
theorem insertionLoop_perm {α : Type} (less : α → α → Bool) (done l : List α) :
    (insertionLoop less done l).Perm (done ++ l) := by
  induction l generalizing done with
  | nil => simp [insertionLoop]
  | cons x xs ih =>
    simp only [insertionLoop]
    refine (ih _).trans ?_
    refine (List.Perm.append_right xs (sinkLeft_perm less x done)).trans ?_
    simpa using (@List.perm_middle _ x done xs).symm

/-- `sortSlice` returns a permutation of the slice. -/
theorem sortSlice_perm {α : Type} (less : α → α → Bool) (l : List α) :
    (sortSlice less l).Perm l := by
  unfold sortSlice
  exact (List.reverse_perm _).trans (by simpa using insertionLoop_perm less [] l)

/-- Sinking an element into a list held in descending key order keeps that order. -/
theorem sinkLeft_desc {α : Type} (key : α → Nat) (x : α) (l : List α)
    (h : l.Pairwise (fun a b => key b ≤ key a)) :
    (sinkLeft (fun a b => decide (key a < key b)) x l).Pairwise (fun a b => key b ≤ key a) := by
  induction l with
  | nil => simp [sinkLeft]
  | cons p ps ih =>
    simp only [sinkLeft]
    rw [List.pairwise_cons] at h
    split
    · rename_i hlt
      have hlt : key x < key p := by simpa using hlt
      rw [List.pairwise_cons]
      refine ⟨?_, ih h.2⟩
      intro b hb
      have := (sinkLeft_perm (fun a b => decide (key a < key b)) x ps).mem_iff.mp hb
      rcases List.mem_cons.mp this with rfl | hb
      · omega
      · exact h.1 b hb
    · rename_i hlt
      have hlt : key p ≤ key x := by simpa using hlt
      rw [List.pairwise_cons]
      refine ⟨?_, List.pairwise_cons.mpr h⟩
      intro b hb
      rcases List.mem_cons.mp hb with rfl | hb
      · exact hlt
      · exact le_trans (h.1 b hb) hlt

/-- The insertion loop keeps its ordered part in descending key order. -/
theorem insertionLoop_desc {α : Type} (key : α → Nat) (done l : List α)
    (h : done.Pairwise (fun a b => key b ≤ key a)) :
    (insertionLoop (fun a b => decide (key a < key b)) done l).Pairwise
      (fun a b => key b ≤ key a) := by
  induction l generalizing done with
  | nil => simpa [insertionLoop] using h
  | cons x xs ih =>
    simp only [insertionLoop]
    exact ih _ (sinkLeft_desc key x done h)

/-- `sortSlice` with the comparison `key a < key b` returns the slice in non-decreasing key
order. -/
theorem sortSlice_sorted {α : Type} (key : α → Nat) (l : List α) :
    (sortSlice (fun a b => decide (key a < key b)) l).Pairwise (fun a b => key a ≤ key b) := by
  unfold sortSlice
  rw [List.pairwise_reverse]
  exact insertionLoop_desc key [] l List.Pairwise.nil

/-- The buffer sorted by `lessIndex` has non-decreasing indexes. -/
theorem sortSlice_lessIndex_sorted {μ : Type} (buf : List (fanInQueueItem μ)) :
    (sortSlice lessIndex buf).Pairwise (fun a b => a.msg.index ≤ b.msg.index) :=
  sortSlice_sorted (fun it : fanInQueueItem μ => it.msg.index) buf

/-- When every select of the delivery loop chooses the write, the whole buffer is delivered
in order. -/
theorem deliver_all {μ : Type} (buf : List (fanInQueueItem μ)) (writes : List Bool)
    (hlen : buf.length ≤ writes.length) (hwr : ∀ w ∈ writes, w = true) :
    deliver buf writes = (buf, .ok (writes.drop buf.length)) := by
  induction buf generalizing writes with
  | nil => cases writes <;> simp [deliver]
  | cons item rest ih =>
    cases writes with
    | nil => simp at hlen
    | cons w ws =>
      have hw : w = true := hwr w (by simp)
      have := ih ws (by simpa using hlen) (fun w hw => hwr w (by simp [hw]))
      simp [deliver, hw, this]

/-- Without cancellation a turn of `fanIn` delivers the sorted buffer. -/
theorem fanInBatch_all {μ : Type} (n : Network μ) (r : Receiver) (ss : List Sender) (fuel : Nat)
    (sch : Sched μ) (buf : List (fanInQueueItem μ)) (rest : List (Poll μ))
    (hbuf : collect n r ss fuel 0 [] sch.polls = .ok (buf, rest))
    (hlen : buf.length ≤ sch.writes.length) (hwr : ∀ w ∈ sch.writes, w = true) :
    (fanInBatch n r ss fuel sch).1 = sortSlice lessIndex buf := by
  unfold fanInBatch
  rw [hbuf]
  simp only
  rw [deliver_all _ _ (by rw [(sortSlice_perm _ _).length_eq]; exact hlen) hwr]

/-- A list in non-decreasing key order that is a permutation of a list in strictly increasing
key order is that list. -/
theorem eq_of_perm_of_key_sorted {α : Type} (key : α → Nat) (l₁ l₂ : List α)
    (hperm : l₁.Perm l₂)
    (h₁ : l₁.Pairwise (fun a b => key a ≤ key b))
    (h₂ : l₂.Pairwise (fun a b => key a < key b)) : l₁ = l₂ := by
  have hnd₂ : (l₂.map key).Nodup := by
    rw [List.Nodup, List.pairwise_map]
    exact h₂.imp (fun h => Nat.ne_of_lt h)
  have hnd₁ : (l₁.map key).Nodup := ((hperm.map key).nodup_iff).mpr hnd₂
  have h₁lt : l₁.Pairwise (fun a b => key a < key b) := by
    rw [List.Nodup, List.pairwise_map] at hnd₁
    exact (h₁.and hnd₁).imp (fun h => lt_of_le_of_ne h.1 h.2)
  haveI : IsAntisymm α (fun a b => key a < key b) :=
    ⟨fun a b hab hba => absurd hab (Nat.lt_asymm hba)⟩
  exact List.eq_of_perm_of_sorted hperm h₁lt h₂

/-- One sweep over the senders appends to the buffer, in order, the message of every poll
that received one, intercepted and tagged with the sender it was read from. -/
theorem rangeSenders_reads {μ : Type} (n : Network μ) (r : Receiver) (ss : List Sender)
    (polls : List (Poll μ)) (buf buf1 : List (fanInQueueItem μ)) (rest : List (Poll μ))
    (h : rangeSenders n r ss polls buf = .ok (buf1, rest)) :
    ∃ (consumed : List (Poll μ)) (reads : List (Sender × IndexedMsg μ)),
      polls = consumed ++ rest ∧
      reads.map Prod.snd = consumed.filterMap Poll.received ∧
      (∀ p ∈ reads, p.1 ∈ ss) ∧
      buf1 = buf ++ reads.map (fun p =>
        { sender := p.1.Addr,
          msg := { data := if (n.interceptor.Sent p.1.Addr r.Addr p.2.data).isSome
                     then n.interceptor.Sent p.1.Addr r.Addr p.2.data else p.2.data,
                   index := p.2.index } }) := by
  induction ss generalizing polls buf with
  | nil =>
    simp only [rangeSenders, Outcome.ok.injEq, Prod.mk.injEq] at h
    exact ⟨[], [], by simp [h.2], by simp, by simp, by simp [h.1]⟩
  | cons s ss ih =>
    cases polls with
    | nil => simp [rangeSenders] at h
    | cons p polls =>
      cases p with
      | done => simp [rangeSenders] at h
      | recv msg =>
        simp only [rangeSenders] at h
        obtain ⟨consumed, reads, h1, h2, h3, h4⟩ := ih _ _ h
        refine ⟨Poll.recv msg :: consumed, (s, msg) :: reads, by simp [h1], ?_, ?_, ?_⟩
        · simp [Poll.received, h2]
        · intro p hp
          rcases List.mem_cons.mp hp with rfl | hp
          · simp
          · exact List.mem_cons_of_mem _ (h3 p hp)
        · rw [h4]
          cases hS : n.interceptor.Sent s.Addr r.Addr msg.data <;> simp [hS]
      | dflt =>
        simp only [rangeSenders] at h
        obtain ⟨consumed, reads, h1, h2, h3, h4⟩ := ih _ _ h
        refine ⟨Poll.dflt :: consumed, reads, by simp [h1], ?_, ?_, h4⟩
        · simp [Poll.received, h2]
        · intro p hp
          exact List.mem_cons_of_mem _ (h3 p hp)

/-- The collecting loop appends to the buffer, in order, the message of every consumed poll
that received one, intercepted and tagged with the sender it was read from. -/
theorem collect_reads {μ : Type} (n : Network μ) (r : Receiver) (ss : List Sender)
    (fuel i : Nat) (polls : List (Poll μ)) (buf buf1 : List (fanInQueueItem μ))
    (rest : List (Poll μ))
    (h : collect n r ss fuel i buf polls = .ok (buf1, rest)) :
    ∃ (consumed : List (Poll μ)) (reads : List (Sender × IndexedMsg μ)),
      polls = consumed ++ rest ∧
      reads.map Prod.snd = consumed.filterMap Poll.received ∧
      (∀ p ∈ reads, p.1 ∈ ss) ∧
      buf1 = buf ++ reads.map (fun p =>
        { sender := p.1.Addr,
          msg := { data := if (n.interceptor.Sent p.1.Addr r.Addr p.2.data).isSome
                     then n.interceptor.Sent p.1.Addr r.Addr p.2.data else p.2.data,
                   index := p.2.index } }) := by
  induction fuel generalizing i polls buf with
  | zero => simp [collect] at h
  | succ fuel ih =>
    simp only [collect] at h
    split at h
    · simp only [Outcome.ok.injEq, Prod.mk.injEq] at h
      exact ⟨[], [], by simp [h.2], by simp, by simp, by simp [h.1]⟩
    · split at h
      · rename_i buf2 polls2 hrs
        obtain ⟨c1, r1, a1, a2, a3, a4⟩ := rangeSenders_reads n r ss polls buf buf2 polls2 hrs
        obtain ⟨c2, r2, b1, b2, b3, b4⟩ := ih _ _ _ h
        refine ⟨c1 ++ c2, r1 ++ r2, by simp [a1, b1], by simp [a2, b2], ?_, ?_⟩
        · intro p hp
          rcases List.mem_append.mp hp with hp | hp
          · exact a3 p hp
          · exact b3 p hp
        · rw [b4, a4]; simp
      · simp at h
      · simp at h

/-- The delivery loop delivers an initial part of the buffer. -/
theorem deliver_isPrefix {μ : Type} (buf : List (fanInQueueItem μ)) (writes : List Bool) :
    (deliver buf writes).1 <+: buf := by
  induction buf generalizing writes with
  | nil => cases writes <;> simp [deliver]
  | cons item rest ih =>
    cases writes with
    | nil => simp [deliver]
    | cons w ws =>
      cases w with
      | false => simp [deliver]
      | true =>
        simp only [deliver, if_true]
        exact (List.prefix_cons_inj item).mpr (ih ws)

/-- A turn of `fanIn` delivers an initial part of the sorted buffer. -/
theorem fanInBatch_isPrefix {μ : Type} (n : Network μ) (r : Receiver) (ss : List Sender)
    (fuel : Nat) (sch : Sched μ) (buf : List (fanInQueueItem μ)) (rest : List (Poll μ))
    (hbuf : collect n r ss fuel 0 [] sch.polls = .ok (buf, rest)) :
    (fanInBatch n r ss fuel sch).1 <+: sortSlice lessIndex buf := by
  unfold fanInBatch
  rw [hbuf]
  exact deliver_isPrefix _ _

/-- The messages `pipe` writes are, in order, the intercepted messages of an initial run of
its turns. -/
theorem pipe_forwards {μ : Type} (n : Network μ) (r : Receiver) (s : Sender)
    (turns : List (PipeTurn μ)) :
    ∃ k, n.pipe r s turns = ((turns.take k).filterMap (fun t => t.recv)).map (fun m =>
      { data := if (n.interceptor.Sent s.Addr r.Addr m.data).isSome
          then n.interceptor.Sent s.Addr r.Addr m.data else m.data,
        index := m.index }) := by
  induction turns with
  | nil => exact ⟨0, rfl⟩
  | cons t ts ih =>
    obtain ⟨k, hk⟩ := ih
    cases hr : t.recv with
    | none => exact ⟨0, by simp [Network.pipe, hr]⟩
    | some msg =>
      cases hs : t.sendOk with
      | false => exact ⟨0, by simp [Network.pipe, hr, hs]⟩
      | true =>
        refine ⟨k + 1, ?_⟩
        simp only [Network.pipe, hr, hs, if_true, List.take_succ_cons, List.filterMap_cons,
          List.map_cons, hk]
        cases hS : n.interceptor.Sent s.Addr r.Addr msg.data <;> simp [hS]

/-! ## Delivery -/

/-- C1: when no select chooses cancellation, the messages a turn of `fanIn` writes to the
receiver are a permutation of the messages of the collected buffer, and their indexes are in
non-decreasing order. -/
theorem fanIn_batch_sorted_perm {μ : Type} (n : Network μ) (r : Receiver) (ss : List Sender)
    (fuel : Nat) (sch : Sched μ) (buf : List (fanInQueueItem μ)) (rest : List (Poll μ))
    (hbuf : collect n r ss fuel 0 [] sch.polls = .ok (buf, rest))
    (hlen : buf.length ≤ sch.writes.length) (hwr : ∀ w ∈ sch.writes, w = true) :
    (((fanInBatch n r ss fuel sch).1).map (fun item => item.msg)).Perm
        (buf.map (fun item => item.msg)) ∧
      (((fanInBatch n r ss fuel sch).1).map (fun item => item.msg)).Pairwise
        (fun a b => a.index ≤ b.index) := by
  rw [fanInBatch_all n r ss fuel sch buf rest hbuf hlen hwr]
  refine ⟨(sortSlice_perm _ _).map _, ?_⟩
  rw [List.pairwise_map]
  exact sortSlice_lessIndex_sorted buf

/-- Witness of C1: the sample run collects the indexes 3, 1, 4 and writes them as 1, 3, 4. -/
theorem fanIn_batch_sorted_perm_witness :
    (((fanInBatch sampleNet { Addr := portAddr "r" } sampleSenders 5 sampleSched).1).map
        (fun item => item.msg) =
      [{ data := some 20, index := 1 }, { data := some 10, index := 3 },
        { data := some 11, index := 4 }]) ∧
    ((((fanInBatch sampleNet { Addr := portAddr "r" } sampleSenders 5 sampleSched).1).map
        (fun item => item.msg)).Perm
        [{ data := some 10, index := 3 }, { data := some 20, index := 1 },
          { data := some 11, index := 4 }] ∧
      (((fanInBatch sampleNet { Addr := portAddr "r" } sampleSenders 5 sampleSched).1).map
        (fun item => item.msg)).Pairwise (fun a b => a.index ≤ b.index)) :=
  ⟨by decide,
    fanIn_batch_sorted_perm sampleNet { Addr := portAddr "r" } sampleSenders 5 sampleSched
      [{ sender := portAddr "a", msg := { data := some 10, index := 3 } },
        { sender := portAddr "b", msg := { data := some 20, index := 1 } },
        { sender := portAddr "a", msg := { data := some 11, index := 4 } }]
      [.recv { data := some 99, index := 9 }] (by decide) (by decide) (by decide)⟩

/-- C2: with an interceptor whose `Sent` returns nil and no cancellation, `pipe` writes to
the receiver exactly the sequence of indexed messages it reads from its sender. -/
theorem pipe_fifo {μ : Type} (n : Network μ) (r : Receiver) (s : Sender)
    (msgs : List (IndexedMsg μ))
    (hnil : ∀ (a b : PortAddr) (m : Option μ), n.interceptor.Sent a b m = none) :
    n.pipe r s (msgs.map (fun m => { recv := some m, sendOk := true })) = msgs := by
  induction msgs with
  | nil => rfl
  | cons m ms ih => simp [Network.pipe, hnil, ih]

/-- Witness of C2: the interceptors `dummy` and `printer` on a three-message sequence. -/
theorem pipe_fifo_witness :
    (NewNetwork [] false : Network Nat).pipe { Addr := portAddr "r" } { Addr := portAddr "a" }
        (([{ data := some 5, index := 2 }, { data := none, index := 1 },
          { data := some 5, index := 2 }] : List (IndexedMsg Nat)).map
          (fun m => { recv := some m, sendOk := true })) =
        [{ data := some 5, index := 2 }, { data := none, index := 1 },
          { data := some 5, index := 2 }] ∧
      (NewNetwork [] true : Network Nat).pipe { Addr := portAddr "r" } { Addr := portAddr "a" }
        (([{ data := some 5, index := 2 }, { data := none, index := 1 },
          { data := some 5, index := 2 }] : List (IndexedMsg Nat)).map
          (fun m => { recv := some m, sendOk := true })) =
        [{ data := some 5, index := 2 }, { data := none, index := 1 },
          { data := some 5, index := 2 }] :=
  ⟨pipe_fifo _ _ _ _ (fun _ _ _ => rfl), pipe_fifo _ _ _ _ (fun _ _ _ => rfl)⟩

/-- C3: when, in the collected buffer, the messages of each sender carry strictly increasing
indexes in the order they were read from that sender, the items a turn of `fanIn` delivers,
restricted to any one sender, are that sender's items in the order they were read: an
initial part of them under any schedule, and all of them when no select chooses
cancellation. -/
theorem fanIn_batch_sender_fifo {μ : Type} (n : Network μ) (r : Receiver) (ss : List Sender)
    (fuel : Nat) (sch : Sched μ) (buf : List (fanInQueueItem μ)) (rest : List (Poll μ))
    (hbuf : collect n r ss fuel 0 [] sch.polls = .ok (buf, rest))
    (hmono : ∀ a : PortAddr, (buf.filter (fun item => decide (item.sender = a))).Pairwise
      (fun x y => x.msg.index < y.msg.index))
    (a : PortAddr) :
    ((fanInBatch n r ss fuel sch).1).filter (fun item => decide (item.sender = a)) <+:
        buf.filter (fun item => decide (item.sender = a)) ∧
      (buf.length ≤ sch.writes.length → (∀ w ∈ sch.writes, w = true) →
        ((fanInBatch n r ss fuel sch).1).filter (fun item => decide (item.sender = a)) =
          buf.filter (fun item => decide (item.sender = a))) := by
  have hsorted : (sortSlice lessIndex buf).filter (fun item => decide (item.sender = a)) =
      buf.filter (fun item => decide (item.sender = a)) := by
    apply eq_of_perm_of_key_sorted (fun it : fanInQueueItem μ => it.msg.index)
    · exact (sortSlice_perm _ _).filter _
    · exact (sortSlice_lessIndex_sorted buf).sublist (List.filter_sublist _)
    · exact hmono a
  constructor
  · rw [← hsorted]
    exact (fanInBatch_isPrefix n r ss fuel sch buf rest hbuf).filter _
  · intro hlen hwr
    rw [fanInBatch_all n r ss fuel sch buf rest hbuf hlen hwr, hsorted]

/-- Witness of C3: in the sample run the first sender is read at indexes 3 and 4, the second
at index 1; the first sender's items are delivered in the order 3, 4, and only the item of
index 3 when the third write is cancelled. -/
theorem fanIn_batch_sender_fifo_witness :
    ((fanInBatch sampleNet { Addr := portAddr "r" } sampleSenders 5 sampleSched).1).filter
        (fun item => decide (item.sender = portAddr "a")) =
      [{ sender := portAddr "a", msg := { data := some 10, index := 3 } },
        { sender := portAddr "a", msg := { data := some 11, index := 4 } }] ∧
    ((fanInBatch sampleNet { Addr := portAddr "r" } sampleSenders 5 cancelSched).1).filter
        (fun item => decide (item.sender = portAddr "a")) =
      [{ sender := portAddr "a", msg := { data := some 10, index := 3 } }] ∧
    ((fanInBatch sampleNet { Addr := portAddr "r" } sampleSenders 5 sampleSched).1).filter
        (fun item => decide (item.sender = portAddr "a")) =
      ([{ sender := portAddr "a", msg := { data := some 10, index := 3 } },
        { sender := portAddr "b", msg := { data := some 20, index := 1 } },
        { sender := portAddr "a", msg := { data := some 11, index := 4 } }] :
          List (fanInQueueItem Nat)).filter (fun item => decide (item.sender = portAddr "a")) ∧
    ((fanInBatch sampleNet { Addr := portAddr "r" } sampleSenders 5 cancelSched).1).filter
        (fun item => decide (item.sender = portAddr "a")) <+:
      ([{ sender := portAddr "a", msg := { data := some 10, index := 3 } },
        { sender := portAddr "b", msg := { data := some 20, index := 1 } },
        { sender := portAddr "a", msg := { data := some 11, index := 4 } }] :
          List (fanInQueueItem Nat)).filter (fun item => decide (item.sender = portAddr "a")) :=
  ⟨by decide, by decide,
    (fanIn_batch_sender_fifo sampleNet { Addr := portAddr "r" } sampleSenders 5 sampleSched
      [{ sender := portAddr "a", msg := { data := some 10, index := 3 } },
        { sender := portAddr "b", msg := { data := some 20, index := 1 } },
        { sender := portAddr "a", msg := { data := some 11, index := 4 } }]
      [.recv { data := some 99, index := 9 }] (by decide)
      (fun a => by
        by_cases ha : portAddr "a" = a
        · subst ha; decide
        · by_cases hb : portAddr "b" = a
          · subst hb; decide
          · simp [List.filter, ha, hb])
      (portAddr "a")).2 (by decide) (by decide),
    (fanIn_batch_sender_fifo sampleNet { Addr := portAddr "r" } sampleSenders 5 cancelSched
      [{ sender := portAddr "a", msg := { data := some 10, index := 3 } },
        { sender := portAddr "b", msg := { data := some 20, index := 1 } },
        { sender := portAddr "a", msg := { data := some 11, index := 4 } }]
      [.recv { data := some 99, index := 9 }] (by decide)
      (fun a => by
        by_cases ha : portAddr "a" = a
        · subst ha; decide
        · by_cases hb : portAddr "b" = a
          · subst hb; decide
          · simp [List.filter, ha, hb])
      (portAddr "a")).1⟩

/-- The number of selects in `k` sweeps. -/
theorem sweepSenders_length (ss : List Sender) (k : Nat) :
    (sweepSenders ss k).length = k * ss.length := by
  induction k with
  | zero => simp [sweepSenders]
  | succ k ih => simp [sweepSenders, ih, Nat.succ_mul, Nat.add_comm]

/-- The `j`-th `select` of the sweeps reads the port of the sender at position `j` modulo the
number of senders. -/
theorem sweepSenders_getElem (ss : List Sender) (k j : Nat) (hj : j < k * ss.length) :
    (sweepSenders ss k)[j]? = ss[j % ss.length]? := by
  induction k generalizing j with
  | zero => simp at hj
  | succ k ih =>
    simp only [sweepSenders]
    by_cases hlt : j < ss.length
    · rw [List.getElem?_append_left hlt, Nat.mod_eq_of_lt hlt]
    · have hge : ss.length ≤ j := Nat.le_of_not_lt hlt
      rw [List.getElem?_append_right hge, ih (j - ss.length) (by
        rw [Nat.succ_mul] at hj
        omega)]
      rw [Nat.mod_eq_sub_mod hge]

/-- Reads over sweeps put side by side. -/
theorem readsFrom_append {μ : Type} (s1 s2 : List Sender) (p1 p2 : List (Poll μ))
    (h : s1.length = p1.length) :
    readsFrom (s1 ++ s2) (p1 ++ p2) = readsFrom s1 p1 ++ readsFrom s2 p2 := by
  unfold readsFrom
  rw [List.zip_append h, List.filterMap_append]

/-- Every message received is among the reads, in order, when every poll has its sender. -/
theorem readsFrom_snd {μ : Type} (sources : List Sender) (polls : List (Poll μ))
    (h : sources.length = polls.length) :
    (readsFrom sources polls).map Prod.snd = polls.filterMap Poll.received := by
  induction sources generalizing polls with
  | nil =>
    cases polls with
    | nil => rfl
    | cons p ps => simp at h
  | cons s ss ih =>
    cases polls with
    | nil => simp at h
    | cons p ps =>
      have := ih ps (by simpa using h)
      have e1 : (Poll.done : Poll μ).received = none := rfl
      have e2 : ∀ m : IndexedMsg μ, (Poll.recv m).received = some m := fun _ => rfl
      have e3 : (Poll.dflt : Poll μ).received = none := rfl
      unfold readsFrom at this ⊢
      cases p <;>
        simp only [List.zip_cons_cons, List.filterMap_cons, e1, e2, e3, Option.map_none',
          Option.map_some', List.map_cons, this]

/-- One sweep over the senders appends to the buffer, in order, the message of every poll
that received one, intercepted for and tagged with the sender whose port the poll read. -/
theorem rangeSenders_reads_exact {μ : Type} (n : Network μ) (r : Receiver) (ss : List Sender)
    (polls : List (Poll μ)) (buf buf1 : List (fanInQueueItem μ)) (rest : List (Poll μ))
    (h : rangeSenders n r ss polls buf = .ok (buf1, rest)) :
    ∃ consumed : List (Poll μ),
      polls = consumed ++ rest ∧ consumed.length = ss.length ∧
      buf1 = buf ++ (readsFrom ss consumed).map (fun p =>
        { sender := p.1.Addr,
          msg := { data := if (n.interceptor.Sent p.1.Addr r.Addr p.2.data).isSome
                     then n.interceptor.Sent p.1.Addr r.Addr p.2.data else p.2.data,
                   index := p.2.index } }) := by
  induction ss generalizing polls buf with
  | nil =>
    simp only [rangeSenders, Outcome.ok.injEq, Prod.mk.injEq] at h
    exact ⟨[], by simp [h.2], rfl, by simp [h.1, readsFrom]⟩
  | cons s ss ih =>
    cases polls with
    | nil => simp [rangeSenders] at h
    | cons p polls =>
      cases p with
      | done => simp [rangeSenders] at h
      | recv msg =>
        simp only [rangeSenders] at h
        obtain ⟨consumed, h1, h2, h3⟩ := ih _ _ h
        refine ⟨Poll.recv msg :: consumed, by simp [h1], by simp [h2], ?_⟩
        rw [h3]
        unfold readsFrom
        cases hS : n.interceptor.Sent s.Addr r.Addr msg.data <;> simp [hS, Poll.received]
      | dflt =>
        simp only [rangeSenders] at h
        obtain ⟨consumed, h1, h2, h3⟩ := ih _ _ h
        refine ⟨Poll.dflt :: consumed, by simp [h1], by simp [h2], ?_⟩
        rw [h3]
        unfold readsFrom
        simp [Poll.received]

/-- The collecting loop runs whole sweeps and appends to the buffer, in order, the message of
every consumed poll that received one, intercepted for and tagged with the sender whose
port the poll read. -/
theorem collect_reads_exact {μ : Type} (n : Network μ) (r : Receiver) (ss : List Sender)
    (fuel i : Nat) (polls : List (Poll μ)) (buf buf1 : List (fanInQueueItem μ))
    (rest : List (Poll μ))
    (h : collect n r ss fuel i buf polls = .ok (buf1, rest)) :
    ∃ (k : Nat) (consumed : List (Poll μ)),
      polls = consumed ++ rest ∧ consumed.length = k * ss.length ∧
      buf1 = buf ++ (readsFrom (sweepSenders ss k) consumed).map (fun p =>
        { sender := p.1.Addr,
          msg := { data := if (n.interceptor.Sent p.1.Addr r.Addr p.2.data).isSome
                     then n.interceptor.Sent p.1.Addr r.Addr p.2.data else p.2.data,
                   index := p.2.index } }) := by
  induction fuel generalizing i polls buf with
  | zero => simp [collect] at h
  | succ fuel ih =>
    simp only [collect] at h
    split at h
    · simp only [Outcome.ok.injEq, Prod.mk.injEq] at h
      obtain ⟨rfl, rfl⟩ := h
      exact ⟨0, [], by simp, by simp, by simp [readsFrom, sweepSenders]⟩
    · split at h
      · rename_i buf2 polls2 hrs
        obtain ⟨c1, a1, a2, a3⟩ := rangeSenders_reads_exact n r ss polls buf buf2 polls2 hrs
        obtain ⟨k, c2, b1, b2, b3⟩ := ih _ _ _ h
        refine ⟨k + 1, c1 ++ c2, by simp [a1, b1], ?_, ?_⟩
        · simp only [List.length_append, a2, b2, Nat.succ_mul]
          omega
        · rw [b3, a3]
          simp only [sweepSenders]
          rw [readsFrom_append ss (sweepSenders ss k) c1 c2 a2.symm, List.map_append,
            List.append_assoc]
      · simp at h
      · simp at h

/-- C4: the message `pipe` and `fanIn` forward for a message read with index `i` has index
`i`, and its payload is the result of `Sent` when that is non-nil and the payload read
otherwise. For `pipe` the messages written are those of an initial run of its turns, so
transformed, in order (all of them when no select chooses cancellation). For `fanIn` the
collecting loop runs `k` whole sweeps; the `j`-th polling `select` reads the port of the
sender at position `j` modulo the number of senders, and the buffer holds, in order, every
message so read, with `Sent` applied for the address of that very sender and tagged with
it; the messages written are among them, and are all of them when no select chooses
cancellation. -/
theorem forwarded_index_and_payload {μ : Type} (n : Network μ) (r : Receiver) (s : Sender)
    (turns : List (PipeTurn μ)) (ss : List Sender) (fuel : Nat) (sch : Sched μ)
    (buf : List (fanInQueueItem μ)) (rest : List (Poll μ))
    (hbuf : collect n r ss fuel 0 [] sch.polls = .ok (buf, rest)) :
    (∃ k, n.pipe r s turns = ((turns.take k).filterMap (fun t => t.recv)).map (fun m =>
        { data := if (n.interceptor.Sent s.Addr r.Addr m.data).isSome
            then n.interceptor.Sent s.Addr r.Addr m.data else m.data,
          index := m.index })) ∧
      (∀ msgs : List (IndexedMsg μ),
        n.pipe r s (msgs.map (fun m => { recv := some m, sendOk := true })) =
          msgs.map (fun m =>
            { data := if (n.interceptor.Sent s.Addr r.Addr m.data).isSome
                then n.interceptor.Sent s.Addr r.Addr m.data else m.data,
              index := m.index })) ∧
      ∃ (k : Nat) (consumed : List (Poll μ)),
        sch.polls = consumed ++ rest ∧
        consumed.length = k * ss.length ∧
        (∀ j, j < consumed.length → (sweepSenders ss k)[j]? = ss[j % ss.length]?) ∧
        (readsFrom (sweepSenders ss k) consumed).map Prod.snd
          = consumed.filterMap Poll.received ∧
        buf = (readsFrom (sweepSenders ss k) consumed).map (fun p =>
          { sender := p.1.Addr,
            msg := { data := if (n.interceptor.Sent p.1.Addr r.Addr p.2.data).isSome
                       then n.interceptor.Sent p.1.Addr r.Addr p.2.data else p.2.data,
                     index := p.2.index } }) ∧
        (((fanInBatch n r ss fuel sch).1).map (fun item => item.msg)).Subperm
          ((readsFrom (sweepSenders ss k) consumed).map (fun p =>
            { data := if (n.interceptor.Sent p.1.Addr r.Addr p.2.data).isSome
                then n.interceptor.Sent p.1.Addr r.Addr p.2.data else p.2.data,
              index := p.2.index })) ∧
        (buf.length ≤ sch.writes.length → (∀ w ∈ sch.writes, w = true) →
          (((fanInBatch n r ss fuel sch).1).map (fun item => item.msg)).Perm
            ((readsFrom (sweepSenders ss k) consumed).map (fun p =>
              { data := if (n.interceptor.Sent p.1.Addr r.Addr p.2.data).isSome
                  then n.interceptor.Sent p.1.Addr r.Addr p.2.data else p.2.data,
                index := p.2.index }))) := by
  refine ⟨pipe_forwards n r s turns, ?_, ?_⟩
  · intro msgs
    induction msgs with
    | nil => rfl
    | cons m ms ih =>
      simp only [List.map_cons, Network.pipe, if_true]
      rw [ih]
      cases hS : n.interceptor.Sent s.Addr r.Addr m.data <;> simp [hS]
  obtain ⟨k, consumed, h1, h2, h4⟩ :=
    collect_reads_exact n r ss fuel 0 sch.polls [] buf rest hbuf
  simp only [List.nil_append] at h4
  have hperm : ((sortSlice lessIndex buf).map (fun item => item.msg)).Perm
      ((readsFrom (sweepSenders ss k) consumed).map (fun p =>
        { data := if (n.interceptor.Sent p.1.Addr r.Addr p.2.data).isSome
            then n.interceptor.Sent p.1.Addr r.Addr p.2.data else p.2.data,
          index := p.2.index })) := by
    refine ((sortSlice_perm _ _).map _).trans ?_
    rw [h4]
    simp [Function.comp_def]
  refine ⟨k, consumed, h1, h2, ?_, ?_, h4, ?_, ?_⟩
  · intro j hj
    exact sweepSenders_getElem ss k j (h2 ▸ hj)
  · exact readsFrom_snd _ _ (by rw [sweepSenders_length, h2])
  · exact (((fanInBatch_isPrefix n r ss fuel sch buf rest hbuf).sublist.map _).subperm).trans
      hperm.subperm
  · intro hlen hwr
    rw [fanInBatch_all n r ss fuel sch buf rest hbuf hlen hwr]
    exact hperm

/-- Witness of C4: an interceptor that replaces the payloads sent from sender `a` only. In
`pipe` from `a` both payloads are replaced and the indexes 7 and 8 kept; in `fanIn` the
messages read from `a` (indexes 3 and 4) are replaced and the one read from `b` (index 1) is
not. -/
theorem forwarded_index_and_payload_witness :
    addrNet.pipe { Addr := portAddr "r" } { Addr := portAddr "a" }
        (([{ data := some 10, index := 7 }, { data := some 3, index := 8 }] :
          List (IndexedMsg Nat)).map (fun m => { recv := some m, sendOk := true })) =
        [{ data := some 100, index := 7 }, { data := some 100, index := 8 }] ∧
      ((fanInBatch addrNet { Addr := portAddr "r" } sampleSenders 5 sampleSched).1).map
          (fun item => item.msg) =
        [{ data := some 20, index := 1 }, { data := some 100, index := 3 },
          { data := some 100, index := 4 }] ∧
      ∃ (k : Nat) (consumed : List (Poll Nat)),
        sampleSched.polls = consumed ++ [.recv { data := some 99, index := 9 }] ∧
        consumed.length = k * sampleSenders.length ∧
        (∀ j, j < consumed.length →
          (sweepSenders sampleSenders k)[j]? = sampleSenders[j % sampleSenders.length]?) ∧
        (readsFrom (sweepSenders sampleSenders k) consumed).map Prod.snd
          = consumed.filterMap Poll.received ∧
        ([{ sender := portAddr "a", msg := { data := some 100, index := 3 } },
          { sender := portAddr "b", msg := { data := some 20, index := 1 } },
          { sender := portAddr "a", msg := { data := some 100, index := 4 } }] :
            List (fanInQueueItem Nat)) =
          (readsFrom (sweepSenders sampleSenders k) consumed).map (fun p =>
            { sender := p.1.Addr,
              msg := { data :=
                         if (addrNet.interceptor.Sent p.1.Addr (portAddr "r") p.2.data).isSome
                           then addrNet.interceptor.Sent p.1.Addr (portAddr "r") p.2.data
                           else p.2.data,
                       index := p.2.index } }) ∧
        (((fanInBatch addrNet { Addr := portAddr "r" } sampleSenders 5 sampleSched).1).map
          (fun item => item.msg)).Subperm
          ((readsFrom (sweepSenders sampleSenders k) consumed).map (fun p =>
            { data := if (addrNet.interceptor.Sent p.1.Addr (portAddr "r") p.2.data).isSome
                then addrNet.interceptor.Sent p.1.Addr (portAddr "r") p.2.data else p.2.data,
              index := p.2.index })) ∧
        (3 ≤ sampleSched.writes.length → (∀ w ∈ sampleSched.writes, w = true) →
          (((fanInBatch addrNet { Addr := portAddr "r" } sampleSenders 5 sampleSched).1).map
            (fun item => item.msg)).Perm
            ((readsFrom (sweepSenders sampleSenders k) consumed).map (fun p =>
              { data := if (addrNet.interceptor.Sent p.1.Addr (portAddr "r") p.2.data).isSome
                  then addrNet.interceptor.Sent p.1.Addr (portAddr "r") p.2.data
                  else p.2.data,
                index := p.2.index }))) :=
  ⟨by decide, by decide,
    (forwarded_index_and_payload addrNet { Addr := portAddr "r" } { Addr := portAddr "a" } []
      sampleSenders 5 sampleSched
      [{ sender := portAddr "a", msg := { data := some 100, index := 3 } },
        { sender := portAddr "b", msg := { data := some 20, index := 1 } },
        { sender := portAddr "a", msg := { data := some 100, index := 4 } }]
      [.recv { data := some 99, index := 9 }] (by decide)).2.2⟩

end Runtime

namespace Compiler

/-! ## Constants -/

/-- The literal branch of `analyzeConst` for a resolved type that is not a union: the
constant is returned with its resolved type when the `switch` lets the message through and
an error is returned otherwise. -/
theorem analyzeConst_literal (a : Analyzer) (scope : Scope) (fuel : Nat) (t : Expr)
    (ref : Option EntityRef) (m : Message) (meta : Meta) (rt : Expr)
    (hres : a.analyzeTypeExpr t scope = .ok rt)
    (hu : (rt.Lit.bind LitExpr.Union).isSome = false) :
    (accepts (typeExprStrRepr rt) m = true →
      a.analyzeConst scope (fuel + 1) (.mk t (.mk ref (some m)) meta) =
        some (.ok (.mk rt (.mk ref (some m)) meta))) ∧
    (accepts (typeExprStrRepr rt) m = false →
      ∃ e, a.analyzeConst scope (fuel + 1) (.mk t (.mk ref (some m)) meta) =
        some (.error e)) := by
  simp only [Analyzer.analyzeConst, Const.Value, ConstValue.Message, Const.TypeExpr, hres,
    Const.Meta, hu, accepts]
  generalize typeExprStrRepr rt = repr
  by_cases h1 : repr = "bool"
  · simp only [if_pos h1]
    clear h1
    split_ifs <;> (try simp_all) <;> (try (simp only [Option.isSome_iff_ne_none] at *; tauto))
  simp only [if_neg h1]
  by_cases h2 : repr = "int"
  · simp only [if_pos h2]
    clear h1 h2
    split_ifs <;> (try simp_all) <;> (try (simp only [Option.isSome_iff_ne_none] at *; tauto))
  simp only [if_neg h2]
  by_cases h3 : repr = "float"
  · simp only [if_pos h3]
    clear h1 h2 h3
    split_ifs <;> (try simp_all) <;> (try (simp only [Option.isSome_iff_ne_none] at *; tauto))
  simp only [if_neg h3]
  by_cases h4 : repr = "string"
  · simp only [if_pos h4]
    clear h1 h2 h3 h4
    split_ifs <;> (try simp_all) <;> (try (simp only [Option.isSome_iff_ne_none] at *; tauto))
  simp only [if_neg h4]
  by_cases h5 : repr = "list"
  · simp only [if_pos h5]
    clear h1 h2 h3 h4 h5
    split_ifs <;> (try simp_all) <;> (try (simp only [Option.isSome_iff_ne_none] at *; tauto))
  simp only [if_neg h5]
  by_cases h6 : repr = "map" ∨ repr = "struct"
  · simp only [if_pos h6]
    clear h1 h2 h3 h4 h5 h6
    split_ifs <;> (try simp_all) <;> (try (simp only [Option.isSome_iff_ne_none] at *; tauto))
  simp only [if_neg h6]
  by_cases h7 : repr = "enum"
  · simp only [if_pos h7]
    clear h1 h2 h3 h4 h5 h6 h7
    split_ifs <;> (try simp_all) <;> (try (simp only [Option.isSome_iff_ne_none] at *; tauto))
  simp only [if_neg h7]
  simp

/-- The literal branch of `analyzeConst` for a resolved type that is a union literal. -/
theorem analyzeConst_union (a : Analyzer) (scope : Scope) (fuel : Nat) (t : Expr)
    (ref : Option EntityRef) (m : Message) (meta : Meta) (rt : Expr)
    (hres : a.analyzeTypeExpr t scope = .ok rt)
    (hu : (rt.Lit.bind LitExpr.Union).isSome = true) :
    a.analyzeConst scope (fuel + 1) (.mk t (.mk ref (some m)) meta) =
      some (.error (.mk "Constant cannot have type union" (some meta) none)) := by
  simp [Analyzer.analyzeConst, Const.Value, ConstValue.Message, Const.TypeExpr, hres,
    Const.Meta, hu]



/-- The literal branch of `analyzeConst` when type resolution fails. -/
theorem analyzeConst_resolve_error (a : Analyzer) (scope : Scope) (fuel : Nat) (t : Expr)
    (ref : Option EntityRef) (m : Message) (meta : Meta) (err : Error)
    (hres : a.analyzeTypeExpr t scope = .error err) :
    a.analyzeConst scope (fuel + 1) (.mk t (.mk ref (some m)) meta) =
      some (.error (Error.Wrap (.mk "Cannot resolve constant type" (some meta) none) err)) := by
  simp [Analyzer.analyzeConst, Const.Value, ConstValue.Message, Const.TypeExpr, hres,
    Const.Meta]

/-- A constant with neither a message nor a reference. -/
theorem analyzeConst_neither (a : Analyzer) (scope : Scope) (fuel : Nat) (t : Expr)
    (meta : Meta) :
    a.analyzeConst scope (fuel + 1) (.mk t (.mk none none) meta) =
      some (.error (.mk "Constant must either have value or reference to another constant"
        (some meta) none)) := by
  simp [Analyzer.analyzeConst, Const.Value, ConstValue.Message, ConstValue.Ref, Const.Meta]

/-- The verdict on a literal constant: an error, or the constant with its resolved type. It
is the same verdict for every value of the reference field. -/
theorem analyzeConst_literal_verdict (a : Analyzer) (scope : Scope) (fuel : Nat) (t : Expr)
    (m : Message) (meta : Meta) :
    (∀ ref : Option EntityRef,
        ∃ e, a.analyzeConst scope (fuel + 1) (.mk t (.mk ref (some m)) meta) = some (.error e)) ∨
    (∃ rt, ∀ ref : Option EntityRef,
        a.analyzeConst scope (fuel + 1) (.mk t (.mk ref (some m)) meta) =
          some (.ok (.mk rt (.mk ref (some m)) meta))) := by
  cases hres : a.analyzeTypeExpr t scope with
  | error err =>
    exact Or.inl (fun ref => ⟨_, analyzeConst_resolve_error a scope fuel t ref m meta err hres⟩)
  | ok rt =>
    by_cases hu : (rt.Lit.bind LitExpr.Union).isSome = true
    · exact Or.inl (fun ref => ⟨_, analyzeConst_union a scope fuel t ref m meta rt hres hu⟩)
    · have hu : (rt.Lit.bind LitExpr.Union).isSome = false := by simpa using hu
      cases hacc : accepts (typeExprStrRepr rt) m with
      | false =>
        exact Or.inl (fun ref => (analyzeConst_literal a scope fuel t ref m meta rt hres hu).2 hacc)
      | true =>
        exact Or.inr ⟨rt, fun ref =>
          (analyzeConst_literal a scope fuel t ref m meta rt hres hu).1 hacc⟩

/-- Counterexample to C5: an `int` constant with both the literal `1` and a reference set is
returned without error. -/
theorem analyzeConst_both_set_accepted :
    sampleAnalyzer.analyzeConst cyclicScope 1 bothConst = some (.ok bothConst) := rfl

/-- C5 (amended): `analyzeConst` returns an error for a constant with neither a literal
message nor a reference; a constant with both set is analysed as a literal constant and the
reference is ignored: it is rejected exactly when the same constant without the reference is
rejected, and when that one is accepted it is returned with the same resolved type and its
own value. -/
theorem analyzeConst_value_or_ref (a : Analyzer) (scope : Scope) (fuel : Nat) (t : Expr)
    (meta : Meta) (ref : EntityRef) (m : Message) :
    (∃ e, a.analyzeConst scope (fuel + 1) (.mk t (.mk none none) meta) = some (.error e)) ∧
    ((∃ e, a.analyzeConst scope (fuel + 1) (.mk t (.mk (some ref) (some m)) meta) =
        some (.error e)) ↔
      (∃ e, a.analyzeConst scope (fuel + 1) (.mk t (.mk none (some m)) meta) =
        some (.error e))) ∧
    (∀ c, a.analyzeConst scope (fuel + 1) (.mk t (.mk none (some m)) meta) = some (.ok c) →
      a.analyzeConst scope (fuel + 1) (.mk t (.mk (some ref) (some m)) meta) =
        some (.ok (.mk c.TypeExpr (.mk (some ref) (some m)) meta))) := by
  refine ⟨⟨_, analyzeConst_neither a scope fuel t meta⟩, ?_, ?_⟩
  · rcases analyzeConst_literal_verdict a scope fuel t m meta with h | ⟨rt, h⟩
    · exact ⟨fun _ => h none, fun _ => h (some ref)⟩
    · constructor
      · rintro ⟨e, he⟩
        rw [h (some ref)] at he
        simp at he
      · rintro ⟨e, he⟩
        rw [h none] at he
        simp at he
  · intro c hc
    rcases analyzeConst_literal_verdict a scope fuel t m meta with h | ⟨rt, h⟩
    · obtain ⟨e, he⟩ := h none
      rw [he] at hc
      simp at hc
    · rw [h none] at hc
      simp only [Option.some.injEq, Except.ok.injEq] at hc
      rw [h (some ref), ← hc]
      rfl

/-- Witness of C5 (amended) on the constant of the counterexample. -/
theorem analyzeConst_value_or_ref_witness :
    (∃ e, sampleAnalyzer.analyzeConst cyclicScope 1 (.mk (instExpr "int") (.mk none none)
      sampleMeta) = some (.error e)) ∧
    sampleAnalyzer.analyzeConst cyclicScope 1 bothConst =
      some (.ok (.mk (instExpr "int") (.mk (some { Pkg := "", Name := "b" })
        (some (.mk none none none none none (some 1) none))) sampleMeta)) :=
  ⟨(analyzeConst_value_or_ref sampleAnalyzer cyclicScope 0 (instExpr "int") sampleMeta
      { Pkg := "", Name := "b" } (.mk none none none none none (some 1) none)).1,
    (analyzeConst_value_or_ref sampleAnalyzer cyclicScope 0 (instExpr "int") sampleMeta
      { Pkg := "", Name := "b" } (.mk none none none none none (some 1) none)).2.2 _ rfl⟩

/-- C6 at failing inputs: a `list` constant, a `map` constant and an enum constant whose
message also has the string field set are returned without error. -/
theorem analyzeConst_extra_str_accepted :
    sampleAnalyzer.analyzeConst cyclicScope 1 listStrConst = some (.ok listStrConst) ∧
    sampleAnalyzer.analyzeConst cyclicScope 1 mapStrConst = some (.ok mapStrConst) ∧
    sampleAnalyzer.analyzeConst cyclicScope 1 enumStrConst = some (.ok enumStrConst) :=
  ⟨rfl, rfl, rfl⟩

/-- C7: a literal constant whose resolved type is bool, int, float, string, list, map or
struct, or enum, and whose message lacks the literal field of that type (for float: both the
float and the int field), is rejected with an error. -/
theorem analyzeConst_missing_literal_rejected (a : Analyzer) (scope : Scope) (fuel : Nat)
    (t : Expr) (ref : Option EntityRef) (m : Message) (meta : Meta) (rt : Expr)
    (hres : a.analyzeTypeExpr t scope = .ok rt)
    (hlack : (typeExprStrRepr rt = "bool" ∧ m.Bool = none) ∨
      (typeExprStrRepr rt = "int" ∧ m.Int = none) ∨
      (typeExprStrRepr rt = "float" ∧ m.Float = none ∧ m.Int = none) ∨
      (typeExprStrRepr rt = "string" ∧ m.Str = none) ∨
      (typeExprStrRepr rt = "list" ∧ m.List = none) ∨
      ((typeExprStrRepr rt = "map" ∨ typeExprStrRepr rt = "struct") ∧ m.DictOrStruct = none) ∨
      (typeExprStrRepr rt = "enum" ∧ m.Union = none)) :
    ∃ e, a.analyzeConst scope (fuel + 1) (.mk t (.mk ref (some m)) meta) = some (.error e) := by
  by_cases hu : (rt.Lit.bind LitExpr.Union).isSome = true
  · exact ⟨_, analyzeConst_union a scope fuel t ref m meta rt hres hu⟩
  · have hu : (rt.Lit.bind LitExpr.Union).isSome = false := by simpa using hu
    apply (analyzeConst_literal a scope fuel t ref m meta rt hres hu).2
    rcases hlack with ⟨h, hm⟩ | ⟨h, hm⟩ | ⟨h, hm, hm2⟩ | ⟨h, hm⟩ | ⟨h, hm⟩ | ⟨h, hm⟩ | ⟨h, hm⟩
    · simp [accepts, h, hm]
    · simp [accepts, h, hm]
    · simp [accepts, h, hm, hm2]
    · simp [accepts, h, hm]
    · simp [accepts, h, hm]
    · rcases h with h | h <;> simp [accepts, h, hm]
    · simp [accepts, h, hm]

/-- Witness of C7: an `int` constant whose message has only the string field set. -/
theorem analyzeConst_missing_literal_rejected_witness :
    ∃ e, sampleAnalyzer.analyzeConst cyclicScope 1
      (.mk (instExpr "int") (.mk none (some (.mk none (some "x") none none none none none)))
        sampleMeta) = some (.error e) :=
  analyzeConst_missing_literal_rejected sampleAnalyzer cyclicScope 0 (instExpr "int") none
    (.mk none (some "x") none none none none none) sampleMeta (instExpr "int") rfl
    (Or.inr (Or.inl ⟨rfl, rfl⟩))

/-- C8: a constant whose type resolves to `float` and whose message has only the integer
field set is accepted: the result carries the resolved type and the value as given, integer
literal included. -/
theorem analyzeConst_float_with_int_literal (a : Analyzer) (scope : Scope) (fuel : Nat)
    (t : Expr) (ref : Option EntityRef) (i : Int) (meta : Meta) (rt : Expr)
    (hres : a.analyzeTypeExpr t scope = .ok rt)
    (hfloat : typeExprStrRepr rt = "float")
    (hlit : ∀ lit, rt.Lit = some lit → lit.Union = none) :
    a.analyzeConst scope (fuel + 1)
        (.mk t (.mk ref (some (.mk none none none none none (some i) none))) meta) =
      some (.ok (.mk rt (.mk ref (some (.mk none none none none none (some i) none))) meta)) := by
  have hu : (rt.Lit.bind LitExpr.Union).isSome = false := by
    cases hl : rt.Lit with
    | none => simp
    | some lit => simp [hlit lit hl]
  apply (analyzeConst_literal a scope fuel t ref _ meta rt hres hu).1
  simp [accepts, hfloat, Message.Bool, Message.Int, Message.Float, Message.Str, Message.List,
    Message.DictOrStruct, Message.Union]

/-- Witness of C8: `const x float = 1`. -/
theorem analyzeConst_float_with_int_literal_witness :
    sampleAnalyzer.analyzeConst cyclicScope 1
        (.mk (instExpr "float") (.mk none (some (.mk none none none none none (some 1) none)))
          sampleMeta) =
      some (.ok (.mk (instExpr "float")
        (.mk none (some (.mk none none none none none (some 1) none))) sampleMeta)) :=
  analyzeConst_float_with_int_literal sampleAnalyzer cyclicScope 0 (instExpr "float") none 1
    sampleMeta (instExpr "float") rfl rfl (fun lit h => by simp [instExpr, Expr.Lit] at h)

/-- C9: a literal constant whose type expression resolves to a union literal is rejected
with the error "Constant cannot have type union", whatever its message holds. -/
theorem analyzeConst_union_type_rejected (a : Analyzer) (scope : Scope) (fuel : Nat)
    (t : Expr) (ref : Option EntityRef) (m : Message) (meta : Meta) (rt : Expr)
    (lit : LitExpr) (members : List Expr)
    (hres : a.analyzeTypeExpr t scope = .ok rt)
    (hlit : rt.Lit = some lit) (hunion : lit.Union = some members) :
    a.analyzeConst scope (fuel + 1) (.mk t (.mk ref (some m)) meta) =
      some (.error (.mk "Constant cannot have type union" (some meta) none)) :=
  analyzeConst_union a scope fuel t ref m meta rt hres (by simp [hlit, hunion])

/-- Witness of C9: a constant of type `int | string` with an integer literal. -/
theorem analyzeConst_union_type_rejected_witness :
    sampleAnalyzer.analyzeConst cyclicScope 1
        (.mk (.mk (some (.mk none none none (some [instExpr "int", instExpr "string"]))) none)
          (.mk none (some (.mk none none none none none (some 1) none))) sampleMeta) =
      some (.error (.mk "Constant cannot have type union" (some sampleMeta) none)) :=
  analyzeConst_union_type_rejected sampleAnalyzer cyclicScope 0 _ none _ sampleMeta _
    (.mk none none none (some [instExpr "int", instExpr "string"]))
    [instExpr "int", instExpr "string"] rfl rfl rfl

/-- A set of reference-only constants that the scope maps into itself is never left by the
recursion of `analyzeConst`: no call depth suffices. -/
theorem analyzeConst_closed_refs_none (a : Analyzer) (scope : Scope) (S : Const → Prop)
    (hS : ∀ c, S c → ∃ t ref meta next, c = .mk t (.mk (some ref) none) meta ∧
      scope.Entity ref = ({ Kind := .ConstEntity, Const := next }, none) ∧ S next)
    (fuel : Nat) : ∀ c, S c → a.analyzeConst scope fuel c = none := by
  induction fuel with
  | zero => intro c _; rfl
  | succ fuel ih =>
    intro c hc
    obtain ⟨t, ref, meta, next, rfl, hent, hnext⟩ := hS c hc
    simp only [Analyzer.analyzeConst, Const.Value, ConstValue.Message, ConstValue.Ref, hent]
    simpa using ih next hnext

/-- Counterexample to C10: with `const a = b` and `const b = a` in scope, `analyzeConst` on
`a` returns nothing at any call depth, and so at no call depth an error. -/
theorem analyzeConst_cyclic_pair_never_returns :
    (∀ fuel, sampleAnalyzer.analyzeConst cyclicScope fuel constA = none) ∧
      ¬ ∃ fuel e, sampleAnalyzer.analyzeConst cyclicScope fuel constA = some (.error e) := by
  have h : ∀ fuel, sampleAnalyzer.analyzeConst cyclicScope fuel constA = none := by
    intro fuel
    refine analyzeConst_closed_refs_none sampleAnalyzer cyclicScope
      (fun c => c = constA ∨ c = constB) ?_ fuel constA (Or.inl rfl)
    rintro c (rfl | rfl)
    · exact ⟨_, _, _, constB, rfl, rfl, Or.inr rfl⟩
    · exact ⟨_, _, _, constA, rfl, rfl, Or.inl rfl⟩
  refine ⟨h, ?_⟩
  rintro ⟨fuel, e, he⟩
  rw [h fuel] at he
  exact Option.noConfusion he

/-- C10 (amended): for a cyclic chain of constant references, where every member has only a
reference and the scope resolves it to the next member as a const entity, `analyzeConst` on
a member does not return: the recursion on references exceeds every call depth, so neither a
constant nor an error is produced. -/
theorem analyzeConst_cycle_never_returns (a : Analyzer) (scope : Scope) (cyc : List Const)
    (hcyc : ∀ i, i < cyc.length → ∃ t ref meta next,
      cyc[i]? = some (.mk t (.mk (some ref) none) meta) ∧
      scope.Entity ref = ({ Kind := .ConstEntity, Const := next }, none) ∧
      cyc[(i + 1) % cyc.length]? = some next)
    (c : Const) (hc : c ∈ cyc) (fuel : Nat) :
    a.analyzeConst scope fuel c = none := by
  refine analyzeConst_closed_refs_none a scope (fun c => c ∈ cyc) ?_ fuel c hc
  intro c hc
  obtain ⟨i, hi, hget⟩ := List.getElem_of_mem hc
  obtain ⟨t, ref, meta, next, h1, h2, h3⟩ := hcyc i hi
  refine ⟨t, ref, meta, next, ?_, h2, ?_⟩
  · rw [List.getElem?_eq_getElem hi] at h1
    rw [← hget]
    exact Option.some.inj h1
  · obtain ⟨hlt, heq⟩ := List.getElem?_eq_some_iff.mp h3
    exact heq ▸ List.getElem_mem hlt

/-- Witness of C10 (amended): the cycle `a`, `b`. -/
theorem analyzeConst_cycle_never_returns_witness :
    sampleAnalyzer.analyzeConst cyclicScope 100 constB = none :=
  analyzeConst_cycle_never_returns sampleAnalyzer cyclicScope [constA, constB]
    (fun i hi => by
      have hi2 : i < 2 := hi
      interval_cases i
      · exact ⟨_, _, _, constB, rfl, rfl, rfl⟩
      · exact ⟨_, _, _, constA, rfl, rfl, rfl⟩)
    constB (by simp) 100

/-- One step along a reference costs one call. -/
theorem analyzeConst_step (a : Analyzer) (scope : Scope) (c next : Const)
    (h : RefersTo scope c next) (fuel : Nat) :
    a.analyzeConst scope (fuel + 1) c = a.analyzeConst scope fuel next := by
  obtain ⟨t, ref, meta, rfl, hent⟩ := h
  simp [Analyzer.analyzeConst, Const.Value, ConstValue.Message, ConstValue.Ref, hent]

/-- Along a chain of references the call on the head is the call on the last member, with
one call less per link. -/
theorem analyzeConst_chain (a : Analyzer) (scope : Scope) (c0 : Const) (l : List Const)
    (hchain : List.Chain (RefersTo scope) c0 l) (fuel : Nat) :
    a.analyzeConst scope (l.length + fuel) c0 =
      a.analyzeConst scope fuel ((c0 :: l).getLast (List.cons_ne_nil c0 l)) := by
  induction l generalizing c0 with
  | nil => simp
  | cons c1 rest ih =>
    rw [List.chain_cons] at hchain
    have h1 := analyzeConst_step a scope c0 c1 hchain.1 (rest.length + fuel)
    have h2 := ih c1 hchain.2
    rw [List.getLast_cons (List.cons_ne_nil c1 rest)]
    rw [← h2, ← h1]
    congr 1
    simp only [List.length_cons]
    omega

/-- The result on a literal constant does not depend on the call depth. -/
theorem analyzeConst_literal_fuel (a : Analyzer) (scope : Scope) (t : Expr)
    (ref : Option EntityRef) (m : Message) (meta : Meta) (fuel fuel2 : Nat) :
    a.analyzeConst scope (fuel + 1) (.mk t (.mk ref (some m)) meta) =
      a.analyzeConst scope (fuel2 + 1) (.mk t (.mk ref (some m)) meta) := by
  simp only [Analyzer.analyzeConst, Const.Value, ConstValue.Message, Const.TypeExpr,
    Const.Meta]


/-- C11: along a chain of constants in which every member but the last has only a reference
that the scope resolves to the next member as a const entity, `analyzeConst` on the first
member returns, at every sufficient call depth, exactly what it returns on the last member
when that one is a literal constant, and that is a result (a constant or an error); when the
reference of the last member resolves to an entity that is not a constant, `analyzeConst` on
the first member returns an error. -/
theorem analyzeConst_follows_chain (a : Analyzer) (scope : Scope) (c0 cn : Const)
    (l : List Const) (hchain : List.Chain (RefersTo scope) c0 l)
    (hlast : (c0 :: l).getLast? = some cn) (k : Nat) :
    (∀ t ref m meta, cn = .mk t (.mk ref (some m)) meta →
      a.analyzeConst scope (l.length + 1 + k) c0 = a.analyzeConst scope 1 cn ∧
        ∃ res, a.analyzeConst scope 1 cn = some res) ∧
    (∀ t ref meta entity, cn = .mk t (.mk (some ref) none) meta →
      scope.Entity ref = (entity, none) → entity.Kind ≠ EntityKind.ConstEntity →
      ∃ e, a.analyzeConst scope (l.length + 1 + k) c0 = some (.error e)) := by
  have hcn : (c0 :: l).getLast (List.cons_ne_nil c0 l) = cn := by
    rw [List.getLast?_eq_getLast _ (List.cons_ne_nil c0 l)] at hlast
    exact Option.some.inj hlast
  have hrun := analyzeConst_chain a scope c0 l hchain (1 + k)
  rw [hcn, ← Nat.add_assoc] at hrun
  constructor
  · rintro t ref m meta rfl
    rw [hrun, Nat.add_comm 1 k]
    refine ⟨analyzeConst_literal_fuel a scope t ref m meta k 0, ?_⟩
    rcases analyzeConst_literal_verdict a scope 0 t m meta with h | ⟨rt, h⟩
    · obtain ⟨e, he⟩ := h ref
      exact ⟨_, he⟩
    · exact ⟨_, h ref⟩
  · rintro t ref meta entity rfl hent hkind
    rw [hrun, Nat.add_comm 1 k]
    simp [Analyzer.analyzeConst, Const.Value, ConstValue.Message, ConstValue.Ref, hent, hkind]

/-- Witness of C11: `x = y`, `y = z`, `z = 1` resolves to the result on `z`; `v = w`, `w = T`
with `T` a type is an error. -/
theorem analyzeConst_follows_chain_witness :
    (sampleAnalyzer.analyzeConst chainScope 3 constX =
        sampleAnalyzer.analyzeConst chainScope 1 constZ ∧
      ∃ res, sampleAnalyzer.analyzeConst chainScope 1 constZ = some res) ∧
    sampleAnalyzer.analyzeConst chainScope 3 constX = some (.ok constZ) ∧
    ∃ e, sampleAnalyzer.analyzeConst chainScope 2 constV = some (.error e) :=
  ⟨(analyzeConst_follows_chain sampleAnalyzer chainScope constX constZ [constY, constZ]
      (List.Chain.cons ⟨_, _, _, rfl, rfl⟩ (List.Chain.cons ⟨_, _, _, rfl, rfl⟩ List.Chain.nil))
      rfl 0).1 _ _ _ _ rfl,
    rfl,
    (analyzeConst_follows_chain sampleAnalyzer chainScope constV constW [constW]
      (List.Chain.cons ⟨_, _, _, rfl, rfl⟩ List.Chain.nil) rfl 0).2 _ _ _
      { Kind := .TypeEntity, Const := constZ } rfl rfl (by decide)⟩

/-- A successful result of `analyzeConst` is a literal constant whose type is the resolution of
some type expression, is not a union, and admits the message. -/
theorem analyzeConst_ok_shape (a : Analyzer) (scope : Scope) (fuel : Nat) (c c1 : Const)
    (h : a.analyzeConst scope fuel c = some (.ok c1)) :
    ∃ t rt ref m meta, c1 = .mk rt (.mk ref (some m)) meta ∧
      a.analyzeTypeExpr t scope = .ok rt ∧
      (rt.Lit.bind LitExpr.Union).isSome = false ∧
      accepts (typeExprStrRepr rt) m = true := by
  induction fuel generalizing c with
  | zero => simp [Analyzer.analyzeConst] at h
  | succ fuel ih =>
    obtain ⟨t, ⟨ref, msg⟩, meta⟩ := c
    cases msg with
    | some m =>
      cases hres : a.analyzeTypeExpr t scope with
      | error err =>
        rw [analyzeConst_resolve_error a scope fuel t ref m meta err hres] at h
        simp at h
      | ok rt =>
        by_cases hu : (rt.Lit.bind LitExpr.Union).isSome = true
        · rw [analyzeConst_union a scope fuel t ref m meta rt hres hu] at h
          simp at h
        · have hu : (rt.Lit.bind LitExpr.Union).isSome = false := by simpa using hu
          cases hacc : accepts (typeExprStrRepr rt) m with
          | false =>
            obtain ⟨e, he⟩ := (analyzeConst_literal a scope fuel t ref m meta rt hres hu).2 hacc
            rw [he] at h
            simp at h
          | true =>
            rw [(analyzeConst_literal a scope fuel t ref m meta rt hres hu).1 hacc] at h
            simp only [Option.some.injEq, Except.ok.injEq] at h
            exact ⟨t, rt, ref, m, meta, h.symm, hres, hu, hacc⟩
    | none =>
      cases ref with
      | none =>
        rw [analyzeConst_neither] at h
        simp at h
      | some r =>
        simp only [Analyzer.analyzeConst, Const.Value, ConstValue.Message, ConstValue.Ref] at h
        split at h
        · simp at h
        · split at h
          · simp at h
          · exact ih _ h

/-- C12: when type-expression resolution returns an already resolved expression unchanged,
`analyzeConst` is idempotent: on the constant it returned it succeeds, at every call depth,
and returns that constant. -/
theorem analyzeConst_idempotent (a : Analyzer) (scope : Scope)
    (hidem : ∀ e rt, a.analyzeTypeExpr e scope = .ok rt → a.analyzeTypeExpr rt scope = .ok rt)
    (fuel : Nat) (c c1 : Const) (h : a.analyzeConst scope fuel c = some (.ok c1)) (k : Nat) :
    a.analyzeConst scope (k + 1) c1 = some (.ok c1) := by
  obtain ⟨t, rt, ref, m, meta, rfl, hres, hu, hacc⟩ := analyzeConst_ok_shape a scope fuel c c1 h
  exact (analyzeConst_literal a scope k rt ref m meta rt (hidem t rt hres) hu).1 hacc

/-- Witness of C12: the result on `x = y`, `y = z`, `z = 1` is returned unchanged when analysed
again. -/
theorem analyzeConst_idempotent_witness :
    sampleAnalyzer.analyzeConst chainScope 3 constX = some (.ok constZ) ∧
      sampleAnalyzer.analyzeConst chainScope 1 constZ = some (.ok constZ) :=
  ⟨rfl, analyzeConst_idempotent sampleAnalyzer chainScope
    (fun e rt h => by cases h; rfl) 3 constX constZ rfl 0⟩

end Compiler

namespace Compiler.Interface

/-- The error value at the top of an error returned by `analyzeIO`, with the condition under
which the two empty-map errors arise. -/
theorem analyzeIO_error_cases (a : Analyzer) (typeParams : List Param) (io : Interface.IO)
    (scope : Scope) (params : analyzeInterfaceParams) (e : Error)
    (he : a.analyzeIO typeParams io scope params = .error e) :
    (e.Err = some ErrEmptyInports ∧ params.allowEmptyInports = false) ∨
    (e.Err = some ErrEmptyOutports ∧ params.allowEmptyOutports = false) ∨
    e.Err = some ErrInvalidInports ∨ e.Err = some ErrInvalidOutports := by
  unfold Analyzer.analyzeIO at he
  split_ifs at he with h1 h2
  · cases he
    exact Or.inl ⟨rfl, by simp at h1; exact h1.1⟩
  · cases he
    exact Or.inr (Or.inl ⟨rfl, by simp at h2; exact h2.1⟩)
  · cases hin : a.analyzePorts typeParams io.In scope with
    | error err =>
      rw [hin] at he
      cases he
      exact Or.inr (Or.inr (Or.inl rfl))
    | ok resolvedIn =>
      rw [hin] at he
      cases hout : a.analyzePorts typeParams io.Out scope with
      | error err =>
        rw [hout] at he
        cases he
        exact Or.inr (Or.inr (Or.inr rfl))
      | ok resolvedOut =>
        rw [hout] at he
        cases he

/-- C13: `analyzeIO` fails with `ErrEmptyInports` when the inport map is empty and empty
inports are not allowed; it fails with `ErrEmptyOutports` when the outport map is empty, empty
outports are not allowed and the inports are non-empty or allowed to be empty; and an error
it returns is neither of the two when the corresponding flag allows the empty map. -/
theorem analyzeIO_empty_ports (a : Analyzer) (typeParams : List Param) (io : Interface.IO)
    (scope : Scope) (params : analyzeInterfaceParams) :
    (params.allowEmptyInports = false → io.In = [] →
      a.analyzeIO typeParams io scope params =
        .error (.mk (some ErrEmptyInports) (some scope.Location) none none)) ∧
    (params.allowEmptyOutports = false → io.Out = [] →
      (io.In ≠ [] ∨ params.allowEmptyInports = true) →
      a.analyzeIO typeParams io scope params =
        .error (.mk (some ErrEmptyOutports) (some scope.Location) none none)) ∧
    (params.allowEmptyInports = true → ∀ e, a.analyzeIO typeParams io scope params = .error e →
      e.Err ≠ some ErrEmptyInports) ∧
    (params.allowEmptyOutports = true → ∀ e, a.analyzeIO typeParams io scope params = .error e →
      e.Err ≠ some ErrEmptyOutports) := by
  refine ⟨?_, ?_, ?_, ?_⟩
  · intro hflag hin
    simp [Analyzer.analyzeIO, hflag, hin]
  · intro hflag hout hin
    have h1 : (!params.allowEmptyInports && io.In.length == 0) = false := by
      rcases hin with hin | hin
      · cases hl : io.In with
        | nil => exact absurd hl hin
        | cons x xs => simp
      · simp [hin]
    simp [Analyzer.analyzeIO, h1, hflag, hout]
  · intro hflag e he
    rcases analyzeIO_error_cases a typeParams io scope params e he with
      ⟨_, h⟩ | ⟨h, _⟩ | h | h
    · rw [hflag] at h
      cases h
    · rw [h]; decide
    · rw [h]; decide
    · rw [h]; decide
  · intro hflag e he
    rcases analyzeIO_error_cases a typeParams io scope params e he with
      ⟨h, _⟩ | ⟨_, h⟩ | h | h
    · rw [h]; decide
    · rw [hflag] at h
      cases h
    · rw [h]; decide
    · rw [h]; decide

/-- Witness of C13: no ports at all, with and without the flags of the program root. -/
theorem analyzeIO_empty_ports_witness :
    sampleAnalyzer.analyzeIO [] { In := [], Out := [] } sampleScope
        { allowEmptyInports := false, allowEmptyOutports := false } =
      .error (.mk (some ErrEmptyInports) (some sampleScope.Location) none none) ∧
    sampleAnalyzer.analyzeIO [] { In := [("v", intPort)], Out := [] } sampleScope
        { allowEmptyInports := false, allowEmptyOutports := false } =
      .error (.mk (some ErrEmptyOutports) (some sampleScope.Location) none none) ∧
    sampleAnalyzer.analyzeIO [] { In := [], Out := [] } sampleScope
        { allowEmptyInports := true, allowEmptyOutports := false } =
      .error (.mk (some ErrEmptyOutports) (some sampleScope.Location) none none) ∧
    sampleAnalyzer.analyzeIO [] { In := [], Out := [] } sampleScope
        { allowEmptyInports := true, allowEmptyOutports := true } =
      .ok { In := [], Out := [] } :=
  ⟨(analyzeIO_empty_ports sampleAnalyzer [] { In := [], Out := [] } sampleScope
      { allowEmptyInports := false, allowEmptyOutports := false }).1 rfl rfl,
    (analyzeIO_empty_ports sampleAnalyzer [] { In := [("v", intPort)], Out := [] } sampleScope
      { allowEmptyInports := false, allowEmptyOutports := false }).2.1 rfl rfl
      (Or.inl (by simp)),
    (analyzeIO_empty_ports sampleAnalyzer [] { In := [], Out := [] } sampleScope
      { allowEmptyInports := true, allowEmptyOutports := false }).2.1 rfl rfl (Or.inr rfl),
    rfl⟩

end Compiler.Interface

namespace Strings

theorem splitChars_ne_nil (sep : Char) (s : List Char) : splitChars sep s ≠ [] := by
  cases s with
  | nil => simp [splitChars]
  | cons c cs =>
    simp only [splitChars]
    split
    · simp
    · split <;> simp

theorem splitChars_of_not_mem (sep : Char) (s : List Char) (h : sep ∉ s) :
    splitChars sep s = [s] := by
  induction s with
  | nil => rfl
  | cons c cs ih =>
    have hc : c ≠ sep := fun hc => h (by simp [hc])
    have hcs : sep ∉ cs := fun hm => h (List.mem_cons_of_mem _ hm)
    simp [splitChars, hc, ih hcs]

theorem splitChars_append (sep : Char) (t f : List Char) (h : sep ∉ t) :
    splitChars sep (t ++ sep :: f) = t :: splitChars sep f := by
  induction t with
  | nil => simp [splitChars]
  | cons c cs ih =>
    have hc : c ≠ sep := fun hc => h (by simp [hc])
    have hcs : sep ∉ cs := fun hm => h (List.mem_cons_of_mem _ hm)
    simp [splitChars, hc, ih hcs]

/-- Splitting `t ++ " " ++ f` at the blank, for `t` without a blank, gives `t` first. -/
theorem Split_pair_head (t f : String) (ht : ' ' ∉ t.data) :
    ∃ tail, Split (t ++ " " ++ f) ' ' = t :: tail := by
  refine ⟨(splitChars ' ' f.data).map String.mk, ?_⟩
  have : (t ++ " " ++ f).data = t.data ++ ' ' :: f.data := by
    simp [String.data_append]
  simp [Split, this, splitChars_append _ _ _ ht]

/-- Splitting `t ++ " " ++ f` at the blank, for `t` and `f` without a blank, gives `[t, f]`. -/
theorem Split_pair (t f : String) (ht : ' ' ∉ t.data) (hf : ' ' ∉ f.data) :
    Split (t ++ " " ++ f) ' ' = [t, f] := by
  have : (t ++ " " ++ f).data = t.data ++ ' ' :: f.data := by
    simp [String.data_append]
  simp [Split, this, splitChars_append _ _ _ ht, splitChars_of_not_mem _ _ hf]

theorem containsChars_iff (substr s : List Char) :
    containsChars substr s = true ↔ substr <:+: s := by
  induction s with
  | nil => simp [containsChars, List.isEmpty_iff]
  | cons c cs ih =>
    simp only [containsChars, Bool.or_eq_true, ih, List.isPrefixOf_iff_prefix]
    exact (List.infix_cons_iff).symm

theorem replaceChars_of_not_infix (old new : List Char) (s : List Char)
    (h : ¬ old <:+: s) : replaceChars old new 0 s = s := by
  induction s with
  | nil => rfl
  | cons c cs ih =>
    have h1 : ¬ old <+: c :: cs := fun hp => h hp.isInfix
    have h2 : ¬ old <:+: cs := fun hi => h (List.infix_cons hi)
    have h1b : old.isPrefixOf (c :: cs) = false := by
      rw [Bool.eq_false_iff]
      intro hp
      exact h1 (List.isPrefixOf_iff_prefix.mp hp)
    simp [replaceChars, h1b, ih h2]

end Strings

namespace Irgen

/-- The loop over a list of pairs returns the function name of the first pair whose type
argument name matches. -/
theorem rangeArgs_find (firstTypeArg : String) (entries : List (String × String))
    (hwf : ∀ e ∈ entries, ' ' ∉ e.1.data ∧ ' ' ∉ e.2.data) (t f : String)
    (hfind : entries.find? (fun e => decide (e.1 = firstTypeArg)) = some (t, f)) :
    rangeArgs firstTypeArg (entries.map (fun e => e.1 ++ " " ++ e.2)) = some (f, none) := by
  induction entries with
  | nil => simp at hfind
  | cons e rest ih =>
    have he := hwf e (by simp)
    simp only [List.map_cons, rangeArgs, Strings.Split_pair e.1 e.2 he.1 he.2]
    by_cases h : e.1 = firstTypeArg
    · simp only [List.find?_cons, h, decide_True] at hfind
      cases hfind
      have h3 : firstTypeArg = t := h.symm
      simp [h3]
    · have h2 : ¬ firstTypeArg = e.1 := fun h2 => h h2.symm
      simp only [List.find?_cons, h, decide_False] at hfind
      simp only [h2, if_false]
      exact ih (fun e he => hwf e (List.mem_cons_of_mem _ he)) hfind

/-- The loop over a list of pairs none of which matches ends in the error. -/
theorem rangeArgs_none (firstTypeArg : String) (entries : List (String × String))
    (hwf : ∀ e ∈ entries, ' ' ∉ e.1.data)
    (hno : ∀ e ∈ entries, e.1 ≠ firstTypeArg) :
    rangeArgs firstTypeArg (entries.map (fun e => e.1 ++ " " ++ e.2)) =
      some ("", some "type argument mismatches runtime func directive") := by
  induction entries with
  | nil => rfl
  | cons e rest ih =>
    obtain ⟨tail, htail⟩ := Strings.Split_pair_head e.1 e.2 (hwf e (by simp))
    have h2 : ¬ firstTypeArg = e.1 := fun h2 => hno e (by simp) h2.symm
    simp only [List.map_cons, rangeArgs, htail, h2, if_false]
    exact ih (fun e he => hwf e (List.mem_cons_of_mem _ he))
      (fun e he => hno e (List.mem_cons_of_mem _ he))

/-- With two or more arguments in the directive and an instantiation as first type
argument, `getFuncRef` is the loop over the arguments. -/
theorem getFuncRef_eq_rangeArgs (component : Component) (args : List String)
    (hlen : 2 ≤ args.length)
    (hdir : component.Directives.lookup ExternDirective = some args)
    (first : Compiler.Expr) (rest : List Compiler.Expr) (inst : Compiler.InstExpr)
    (hinst : first.Inst = some inst) :
    getFuncRef component (first :: rest) = rangeArgs inst.Ref args := by
  unfold getFuncRef
  rw [hdir]
  match args, hlen with
  | a1 :: a2 :: more, _ => simp [hinst]

/-- With two or more arguments in the directive, `getFuncRef` returns the empty name and no
error when there is no type argument or the first one is not an instantiation. -/
theorem getFuncRef_no_inst (component : Component) (args : List String)
    (hlen : 2 ≤ args.length)
    (hdir : component.Directives.lookup ExternDirective = some args) :
    getFuncRef component [] = some ("", none) ∧
      ∀ (first : Compiler.Expr) (rest : List Compiler.Expr), first.Inst = none →
        getFuncRef component (first :: rest) = some ("", none) := by
  unfold getFuncRef
  rw [hdir]
  match args, hlen with
  | a1 :: a2 :: more, _ =>
    refine ⟨by simp, ?_⟩
    intro first rest hinst
    simp [hinst]

/-- Counterexample to C14: for the directive `#extern(int intAdd)`, a list of one pair, and
the type argument `int`, `getFuncRef` returns the whole argument `int intAdd`, not the
function name `intAdd`. -/
theorem getFuncRef_one_pair_whole :
    getFuncRef onePairComponent [Compiler.instExpr "int"] = some ("int intAdd", none) := by
  decide

/-- C14 (amended): for a directive whose arguments are two or more `<typeArgName> <funcName>`
pairs and a node whose first type argument is an instantiation with the reference text of
some pair's type argument name, `getFuncRef` returns the function name of the first such
pair and no error; for a directive with a single argument it returns that argument whole and
no error. -/
theorem getFuncRef_selects_entry (component : Component) (entries : List (String × String))
    (hwf : ∀ e ∈ entries, ' ' ∉ e.1.data ∧ ' ' ∉ e.2.data) (hlen : 2 ≤ entries.length)
    (hdir : component.Directives.lookup ExternDirective =
      some (entries.map (fun e => e.1 ++ " " ++ e.2)))
    (first : Compiler.Expr) (rest : List Compiler.Expr) (inst : Compiler.InstExpr)
    (hinst : first.Inst = some inst) (t f : String)
    (hfind : entries.find? (fun e => decide (e.1 = inst.Ref)) = some (t, f)) :
    getFuncRef component (first :: rest) = some (f, none) ∧
      ∀ (single : Component) (arg : String) (nodeTypeArgs : List Compiler.Expr),
        single.Directives.lookup ExternDirective = some [arg] →
        getFuncRef single nodeTypeArgs = some (arg, none) := by
  constructor
  · rw [getFuncRef_eq_rangeArgs component _ (by simpa using hlen) hdir first rest inst hinst]
    exact rangeArgs_find inst.Ref entries hwf t f hfind
  · intro single arg nodeTypeArgs hsingle
    unfold getFuncRef
    rw [hsingle]

/-- Witness of C14 (amended): `#extern(int intAdd, float floatAdd)` with the type argument
`float`, and `#extern(int intAdd)`. -/
theorem getFuncRef_selects_entry_witness :
    getFuncRef addComponent [Compiler.instExpr "float"] = some ("floatAdd", none) ∧
      ∀ (single : Component) (arg : String) (nodeTypeArgs : List Compiler.Expr),
        single.Directives.lookup ExternDirective = some [arg] →
        getFuncRef single nodeTypeArgs = some (arg, none) :=
  getFuncRef_selects_entry addComponent [("int", "intAdd"), ("float", "floatAdd")]
    (by decide) (by decide) (by decide) (Compiler.instExpr "float") []
    (.mk "float" []) rfl "float" "floatAdd" (by decide)

/-- Counterexample to C15: for `#extern(int intAdd, float floatAdd)`, with no type argument
and with a literal type as first type argument, no pair matches and `getFuncRef` returns the
empty name and no error. -/
theorem getFuncRef_no_type_arg_no_error :
    getFuncRef addComponent [] = some ("", none) ∧
      getFuncRef addComponent [.mk (some (.mk none none (some ["A", "B"]) none)) none] =
        some ("", none) := by
  constructor <;> rfl

/-- C15 (amended): for a directive whose arguments are two or more `<typeArgName> <funcName>`
pairs, when the first type argument of the node is an instantiation and no pair's type
argument name is its reference text, `getFuncRef` returns the error "type argument
mismatches runtime func directive"; when the node has no type argument or the first one is
a literal type, it returns the empty name and no error. -/
theorem getFuncRef_mismatch (component : Component) (entries : List (String × String))
    (hwf : ∀ e ∈ entries, ' ' ∉ e.1.data) (hlen : 2 ≤ entries.length)
    (hdir : component.Directives.lookup ExternDirective =
      some (entries.map (fun e => e.1 ++ " " ++ e.2))) :
    (∀ (first : Compiler.Expr) (rest : List Compiler.Expr) (inst : Compiler.InstExpr),
      first.Inst = some inst → (∀ e ∈ entries, e.1 ≠ inst.Ref) →
      getFuncRef component (first :: rest) =
        some ("", some "type argument mismatches runtime func directive")) ∧
    getFuncRef component [] = some ("", none) ∧
    (∀ (first : Compiler.Expr) (rest : List Compiler.Expr), first.Inst = none →
      getFuncRef component (first :: rest) = some ("", none)) := by
  have hlen2 : 2 ≤ (entries.map (fun e => e.1 ++ " " ++ e.2)).length := by simpa using hlen
  refine ⟨?_, (getFuncRef_no_inst component _ hlen2 hdir).1,
    (getFuncRef_no_inst component _ hlen2 hdir).2⟩
  intro first rest inst hinst hno
  rw [getFuncRef_eq_rangeArgs component _ hlen2 hdir first rest inst hinst]
  exact rangeArgs_none inst.Ref entries hwf hno

/-- Witness of C15 (amended): `#extern(int intAdd, float floatAdd)` with the type argument
`string`. -/
theorem getFuncRef_mismatch_witness :
    getFuncRef addComponent [Compiler.instExpr "string"] =
      some ("", some "type argument mismatches runtime func directive") :=
  (getFuncRef_mismatch addComponent [("int", "intAdd"), ("float", "floatAdd")]
    (by decide) (by decide) (by decide)).1 (Compiler.instExpr "string") [] (.mk "string" [])
    rfl (by decide)

end Irgen

namespace Runtime

/-- Go `strings.Contains` answers whether the string is `a ++ pat ++ b` for some `a`, `b`. -/
theorem Contains_iff (path pat : String) :
    Strings.Contains path pat = true ↔ ∃ a b : String, path = a ++ pat ++ b := by
  rw [Strings.Contains, Strings.containsChars_iff]
  constructor
  · rintro ⟨s, t, hst⟩
    refine ⟨String.mk s, String.mk t, ?_⟩
    apply String.ext
    simp [String.data_append, hst]
  · rintro ⟨a, b, rfl⟩
    exact ⟨a.data, b.data, by simp [String.data_append]⟩

/-- A path in which `pat` does not occur. -/
theorem no_occurrence (path pat : String) :
    (∀ a b : String, path ≠ a ++ pat ++ b) ↔ Strings.Contains path pat = false := by
  rw [Bool.eq_false_iff, Ne, Contains_iff]
  constructor
  · rintro h ⟨a, b, hab⟩
    exact h a b hab
  · intro h a b hab
    exact h ⟨a, b, hab⟩

/-- Counterexample to C20: the paths `root/in` and `root/workers/reader/out` do not appear
unchanged before the colon. -/
theorem PortAddr_String_strips :
    PortAddr.String { Path := "root/in", Port := "v", Idx := 0, Arr := false } = "root:v" ∧
      PortAddr.String { Path := "root/workers/reader/out", Port := "v", Idx := 2, Arr := true } =
        "root/workers/reader:v[2]" := by
  decide

/-- C20 (amended): `PortAddr.String()` returns `p' ++ ":" ++ q` for an address that is not an
array address and `p' ++ ":" ++ q ++ "[" ++ decimal(i) ++ "]"` for one that is, where `p'` is
the path with the occurrences of `/out` removed when it has one, else with the occurrences of
`/in` removed; `p'` is the path `p` itself when neither `/out` nor `/in` occurs in it. -/
theorem PortAddr_String_format (p : PortAddr) :
    (p.String =
        (if Strings.Contains p.Path "/out" then Strings.ReplaceAll p.Path "/out" ""
          else if Strings.Contains p.Path "/in" then Strings.ReplaceAll p.Path "/in" ""
          else p.Path) ++ ":" ++ p.Port ++
        (if p.Arr then "[" ++ toString p.Idx ++ "]" else "")) ∧
    ((∀ a b : String, p.Path ≠ a ++ "/out" ++ b) → (∀ a b : String, p.Path ≠ a ++ "/in" ++ b) →
      p.String =
        p.Path ++ ":" ++ p.Port ++ (if p.Arr then "[" ++ toString p.Idx ++ "]" else "")) := by
  have hgen : p.String =
      (if Strings.Contains p.Path "/out" then Strings.ReplaceAll p.Path "/out" ""
        else if Strings.Contains p.Path "/in" then Strings.ReplaceAll p.Path "/in" ""
        else p.Path) ++ ":" ++ p.Port ++
      (if p.Arr then "[" ++ toString p.Idx ++ "]" else "") := by
    unfold PortAddr.String
    cases p.Arr <;> simp [String.append_assoc]
  refine ⟨hgen, ?_⟩
  intro hout hin
  rw [hgen, (no_occurrence _ _).mp hout, (no_occurrence _ _).mp hin]
  simp

/-- Witness of C20 (amended): a path without `/in` and `/out`. -/
theorem PortAddr_String_format_witness :
    PortAddr.String { Path := "root/reader", Port := "v", Idx := 3, Arr := true } =
      "root/reader" ++ ":" ++ "v" ++ (if true then "[" ++ toString 3 ++ "]" else "") ∧
    PortAddr.String { Path := "root/reader", Port := "v", Idx := 3, Arr := true } =
      "root/reader:v[3]" :=
  ⟨(PortAddr_String_format { Path := "root/reader", Port := "v", Idx := 3, Arr := true }).2
      ((no_occurrence _ _).mpr (by decide)) ((no_occurrence _ _).mpr (by decide)),
    by decide⟩

end Runtime

namespace Funcs

/-- C16 at failing inputs: for the two-rune strings `aé` and `éa` the indexes -1 and 1 are
within `-n <= idx < n`, yet the body writes the error on `err`, not the rune on `res`; on
`abc` the index -1 gives `c`. -/
theorem stringAt_rune_index_error :
    stringAtBody [{ data := some "aé", idx := some (-1), sendOk := true }] =
        [Emission.err "string index out of bounds"] ∧
      stringAtBody [{ data := some "éa", idx := some 1, sendOk := true }] =
        [Emission.err "string index out of bounds"] ∧
      stringAtBody [{ data := some "abc", idx := some (-1), sendOk := true }] =
        [Emission.res "c"] := by
  decide

/-- C17: a cycle of the body in which no select chooses cancellation writes exactly one
message, on `res` or on `err`; and when `idx >= len(data)` or `idx < -len(data)` that
message is the error "string index out of bounds" on `err`. -/
theorem stringAt_one_message (data : String) (idx : Int) (ts : List StringAtTurn) :
    (∃ e, stringAtBody ({ data := some data, idx := some idx, sendOk := true } :: ts) =
        e :: stringAtBody ts) ∧
      ((idx ≥ (len data : Int) ∨ idx < -(len data : Int)) →
        stringAtBody ({ data := some data, idx := some idx, sendOk := true } :: ts) =
          Emission.err "string index out of bounds" :: stringAtBody ts) := by
  constructor
  · simp only [stringAtBody, if_true]
    split
    · exact ⟨_, rfl⟩
    · exact ⟨_, rfl⟩
  · intro h
    have hcond : ¬ ((if idx < 0 then idx + (len data : Int) else idx) ≥ 0 ∧
        (if idx < 0 then idx + (len data : Int) else idx) < (len data : Int)) := by
      split_ifs with hneg <;> omega
    simp only [stringAtBody, hcond, if_false, if_true]
    rfl

/-- Witness of C17: the index 3 on `abc`, and the index 1 on `abc`. -/
theorem stringAt_one_message_witness :
    stringAtBody [{ data := some "abc", idx := some 3, sendOk := true }] =
        [Emission.err "string index out of bounds"] ∧
      ∃ e, stringAtBody [{ data := some "abc", idx := some 1, sendOk := true }] = [e] :=
  ⟨(stringAt_one_message "abc" 3 []).2 (Or.inl (by decide)),
    (stringAt_one_message "abc" 1 []).1⟩

end Funcs

namespace Runtime

/-! ## Port maps -/

/-- Assigning to an address that the map does not hold adds one entry. -/
theorem Ports.set_append (ports : Ports) (addr : Program.PortAddr) (ch : Chan)
    (h : ∀ e ∈ ports, e.1 ≠ addr) : Ports.set ports addr ch = ports ++ [(addr, ch)] := by
  induction ports with
  | nil => rfl
  | cons e rest ih =>
    obtain ⟨a, c⟩ := e
    have ha : a ≠ addr := h (a, c) (by simp)
    simp only [Ports.set, ha, if_false, List.cons_append]
    rw [ih (fun e he => h e (List.mem_cons_of_mem _ he))]

/-- The loop over the slots of one port adds one entry per slot, in ascending order, when
the map holds no entry of that port at or above the first index. -/
theorem slotLoop_eq (node port : String) (left idx : Nat) (ports : Ports) (next : Nat)
    (h : ∀ e ∈ ports, e.1.Node = node → e.1.Port = port → e.1.Idx < idx) :
    slotLoop node port left idx ports next =
      (ports ++ (List.range left).map
        (fun j => ({ Node := node, Port := port, Idx := idx + j }, next + j)), next + left) := by
  induction left generalizing idx ports next with
  | zero => simp [slotLoop]
  | succ left ih =>
    have hset : Ports.set ports { Node := node, Port := port, Idx := idx } next =
        ports ++ [({ Node := node, Port := port, Idx := idx }, next)] := by
      apply Ports.set_append
      intro e he heq
      have := h e he (by rw [heq]) (by rw [heq])
      rw [heq] at this
      exact Nat.lt_irrefl _ this
    simp only [slotLoop, hset]
    rw [ih]
    · simp only [List.range_succ_eq_map, List.map_cons, List.map_map, List.append_assoc,
        List.singleton_append, Nat.add_zero, Prod.mk.injEq, List.cons.injEq, true_and,
        List.append_cancel_left_eq]
      refine ⟨?_, by omega⟩
      apply List.map_congr_left
      intro j _
      simp only [Function.comp, Prod.mk.injEq, Program.PortAddr.mk.injEq, true_and]
      omega
    · intro e he hn hp
      rcases List.mem_append.mp he with he | he
      · exact Nat.lt_succ_of_lt (h e he hn hp)
      · simp only [List.mem_singleton] at he
        rw [he]
        exact Nat.lt_succ_self _

/-- The loop over declared ports with distinct names adds the entries of each declaration, in
the order of the loop, when the map holds no entry of those ports before. -/
theorem nodePorts_eq (node : String) (decl : List (String × Nat)) (ports : Ports) (next : Nat)
    (hnodup : (decl.map Prod.fst).Nodup)
    (hfresh : ∀ e ∈ ports, e.1.Node = node → e.1.Port ∉ decl.map Prod.fst) :
    nodePorts node decl ports next =
      (ports ++ entriesOf node decl next,
        next + (decl.map (fun d => if d.2 = 0 then 1 else d.2)).sum) := by
  induction decl generalizing ports next with
  | nil => simp [nodePorts, entriesOf]
  | cons d rest ih =>
    obtain ⟨port, slots⟩ := d
    simp only [List.map_cons, List.nodup_cons] at hnodup
    have hrest : ∀ (extra : Ports), (∀ e ∈ extra, e.1.Port = port) →
        ∀ e ∈ ports ++ extra, e.1.Node = node → e.1.Port ∉ rest.map Prod.fst := by
      intro extra hextra e he hn
      rcases List.mem_append.mp he with he | he
      · intro hm
        exact hfresh e he hn (by simp [hm])
      · rw [hextra e he]
        exact hnodup.1
    by_cases hs : slots = 0
    · have hset : Ports.set ports { Node := node, Port := port, Idx := 0 } next =
          ports ++ [({ Node := node, Port := port, Idx := 0 }, next)] := by
        apply Ports.set_append
        intro e he heq
        exact hfresh e he (by rw [heq]) (by rw [heq]; simp)
      simp only [nodePorts, hs, if_true, hset, entriesOf, slotEntries, List.map_cons,
        List.sum_cons]
      rw [ih _ _ hnodup.2 (hrest _ (by simp))]
      simp [Nat.add_assoc]
    · have hloop := slotLoop_eq node port slots 0 ports next (by
        intro e he hn hp
        exact absurd (by simp [hp]) (hfresh e he hn))
      simp only [nodePorts, hs, if_false, hloop, entriesOf, slotEntries, List.map_cons,
        List.sum_cons, Nat.zero_add]
      rw [ih _ _ hnodup.2 (hrest _ (by simp))]
      simp [Nat.add_assoc]

/-- Every entry made for a list of declared ports carries the name of one of them. -/
theorem entriesOf_port_mem (node : String) (decl : List (String × Nat)) (next : Nat) :
    ∀ e ∈ entriesOf node decl next, e.1.Port ∈ decl.map Prod.fst := by
  induction decl generalizing next with
  | nil => simp [entriesOf]
  | cons d rest ih =>
    obtain ⟨port, slots⟩ := d
    intro e he
    simp only [entriesOf, List.mem_append] at he
    rcases he with he | he
    · have : e.1.Port = port := by
        unfold slotEntries at he
        split_ifs at he
        · simp only [List.mem_singleton] at he
          rw [he]
        · simp only [List.mem_map] at he
          obtain ⟨j, _, rfl⟩ := he
          rfl
      simp [this]
    · simp only [List.map_cons, List.mem_cons]
      exact Or.inr (ih _ e he)

/-- Among the entries made for declared ports with distinct names, those of the port `name`
declared with `slots` slots are the entries of that one declaration. -/
theorem entriesOf_filter (node : String) (decl : List (String × Nat)) (next : Nat)
    (hnodup : (decl.map Prod.fst).Nodup) (name : String) (slots : Nat)
    (hmem : (name, slots) ∈ decl) :
    ∃ first, (entriesOf node decl next).filter (fun e => decide (e.1.Port = name)) =
      slotEntries node name slots first := by
  induction decl generalizing next with
  | nil => simp at hmem
  | cons d rest ih =>
    obtain ⟨port, slots1⟩ := d
    simp only [List.map_cons, List.nodup_cons] at hnodup
    have hown : ∀ e ∈ slotEntries node port slots1 next, e.1.Port = port := by
      intro e he
      unfold slotEntries at he
      split_ifs at he
      · simp only [List.mem_singleton] at he
        rw [he]
      · simp only [List.mem_map] at he
        obtain ⟨j, _, rfl⟩ := he
        rfl
    simp only [entriesOf, List.filter_append]
    rcases List.mem_cons.mp hmem with heq | hmem
    · simp only [Prod.mk.injEq] at heq
      obtain ⟨rfl, rfl⟩ := heq
      refine ⟨next, ?_⟩
      have h1 : (slotEntries node name slots next).filter (fun e => decide (e.1.Port = name)) =
          slotEntries node name slots next :=
        List.filter_eq_self.mpr (fun e he => by simp [hown e he])
      have h2 : (entriesOf node rest (next + if slots = 0 then 1 else slots)).filter
          (fun e => decide (e.1.Port = name)) = [] := by
        apply List.filter_eq_nil_iff.mpr
        intro e he
        have := entriesOf_port_mem node rest _ e he
        simp only [decide_eq_true_eq]
        intro hp
        exact hnodup.1 (hp ▸ this)
      rw [h1, h2, List.append_nil]
    · obtain ⟨first, hfirst⟩ := ih (next + if slots1 = 0 then 1 else slots1) hnodup.2 hmem
      refine ⟨first, ?_⟩
      have hne : port ≠ name := by
        intro hp
        apply hnodup.1
        rw [hp]
        exact List.mem_map.mpr ⟨(name, slots), hmem, rfl⟩
      have h1 : (slotEntries node port slots1 next).filter (fun e => decide (e.1.Port = name)) =
          [] := by
        apply List.filter_eq_nil_iff.mpr
        intro e he
        simp only [decide_eq_true_eq]
        rw [hown e he]
        exact hne
      rw [h1, hfirst, List.nil_append]

/-- The loop of `Ports.PortGroup` appends the channels of the entries of the port, in the
order of the iteration. -/
theorem portGroupLoop_eq (arrPort : String) (ports : Ports) (cc : List Chan) :
    portGroupLoop arrPort ports cc =
      cc ++ (ports.filter (fun e => decide (e.1.Port = arrPort))).map Prod.snd := by
  induction ports generalizing cc with
  | nil => simp [portGroupLoop]
  | cons e rest ih =>
    obtain ⟨addr, ch⟩ := e
    by_cases h : addr.Port = arrPort
    · simp [portGroupLoop, h, ih, List.filter_cons]
    · simp [portGroupLoop, h, ih, List.filter_cons]

/-- The port maps of `nodeIO` hold the entries of the declared ports, the inports first. -/
theorem nodeIO_eq (nodeMeta : Program.WorkerNodeMeta)
    (hin : (nodeMeta.In.map Prod.fst).Nodup) (hout : (nodeMeta.Out.map Prod.fst).Nodup) :
    ( nodeIO nodeMeta).In = entriesOf "in" nodeMeta.In 0 ∧
      ∃ first, ( nodeIO nodeMeta).Out = entriesOf "out" nodeMeta.Out first := by
  unfold nodeIO
  simp only
  rw [nodePorts_eq "in" nodeMeta.In [] 0 hin (by simp)]
  refine ⟨by simp, 0 + (nodeMeta.In.map (fun d => if d.2 = 0 then 1 else d.2)).sum, ?_⟩
  rw [nodePorts_eq "out" nodeMeta.Out [] _ hout (by simp)]
  simp

/-- Counterexample to C18: in the port map that `nodeIO` builds for the sample node,
`PortGroup` on the non-array port `v` and `Port` on the array port `s` of one slot return
channels and no error. -/
theorem ports_lookup_no_kind_error :
    Ports.PortGroup ( nodeIO sampleNodeMeta).In "v" = .ok [0] ∧
      Ports.Port ( nodeIO sampleNodeMeta).In "s" = .ok 3 :=
  ⟨rfl, rfl⟩

/-- C18 (amended): for a port map built by `nodeIO` from declared ports with distinct names,
in every iteration order: `PortGroup(name)` makes no check of the kind of the port, and for a
port declared as a non-array port (slot count 0) it returns the list of that port's one
channel and no error; `Port(name)` returns the error "unexpected arr port" whenever the
entry of that name which the iteration meets first has a slot index above 0. -/
theorem ports_lookup_kind (nodeMeta : Program.WorkerNodeMeta) (node : String)
    (decl : List (String × Nat)) (built ports : Ports)
    (hin : (nodeMeta.In.map Prod.fst).Nodup) (hout : (nodeMeta.Out.map Prod.fst).Nodup)
    (hbuilt : (node = "in" ∧ decl = nodeMeta.In ∧ built = ( nodeIO nodeMeta).In) ∨
      (node = "out" ∧ decl = nodeMeta.Out ∧ built = ( nodeIO nodeMeta).Out))
    (horder : ports.Perm built) (name : String) :
    ((name, 0) ∈ decl →
      ∃ ch, ({ Node := node, Port := name, Idx := 0 }, ch) ∈ built ∧
        Ports.PortGroup ports name = .ok [ch]) ∧
    (∀ (pre post : Ports) (addr : Program.PortAddr) (ch : Chan),
      ports = pre ++ (addr, ch) :: post → (∀ e ∈ pre, e.1.Port ≠ name) →
      addr.Port = name → 0 < addr.Idx →
      Ports.Port ports name = .error (.unexpectedArrPort addr)) := by
  constructor
  · intro hmem
    have hshape : ∃ first, built = entriesOf node decl first ∧ (decl.map Prod.fst).Nodup := by
      rcases hbuilt with ⟨rfl, rfl, rfl⟩ | ⟨rfl, rfl, rfl⟩
      · exact ⟨0, (nodeIO_eq nodeMeta hin hout).1, hin⟩
      · obtain ⟨first, hfirst⟩ := (nodeIO_eq nodeMeta hin hout).2
        exact ⟨first, hfirst, hout⟩
    obtain ⟨first, hbuilt, hnodup⟩ := hshape
    obtain ⟨at0, hfilter⟩ := entriesOf_filter node decl first hnodup name 0 hmem
    rw [← hbuilt] at hfilter
    simp only [slotEntries, if_true] at hfilter
    refine ⟨at0, ?_, ?_⟩
    · have : ({ Node := node, Port := name, Idx := 0 }, at0) ∈
          built.filter (fun e => decide (e.1.Port = name)) := by
        rw [hfilter]
        simp
      exact (List.mem_filter.mp this).1
    · have hperm := horder.filter (fun e => decide (e.1.Port = name))
      rw [hfilter] at hperm
      have hsingle := List.perm_singleton.mp hperm
      simp [Ports.PortGroup, portGroupLoop_eq, hsingle]
  · intro pre post addr ch hports hpre hport hidx
    subst hports
    clear horder
    unfold Ports.Port
    induction pre with
    | nil => simp [portLoop, hport, hidx]
    | cons e rest ih =>
      obtain ⟨a, c⟩ := e
      have ha : a.Port ≠ name := hpre (a, c) (by simp)
      simp only [List.cons_append, portLoop, ha, ne_eq, not_false_eq_true, if_true]
      exact ih (fun e he => hpre e (List.mem_cons_of_mem _ he))

/-- Witness of C18 (amended): the port map of the sample node, iterated in the reverse of
the order of its making. -/
theorem ports_lookup_kind_witness :
    (∃ ch, (({ Node := "in", Port := "v", Idx := 0 } : Program.PortAddr), ch) ∈
        ( nodeIO sampleNodeMeta).In ∧
      Ports.PortGroup ( nodeIO sampleNodeMeta).In.reverse "v" = .ok [ch]) ∧
    Ports.Port ( nodeIO sampleNodeMeta).In.reverse "a" =
      .error (.unexpectedArrPort { Node := "in", Port := "a", Idx := 1 }) :=
  ⟨(ports_lookup_kind sampleNodeMeta "in" sampleNodeMeta.In ( nodeIO sampleNodeMeta).In
      ( nodeIO sampleNodeMeta).In.reverse (by decide) (by decide)
      (Or.inl ⟨rfl, rfl, rfl⟩) (List.reverse_perm _) "v").1 (by decide),
    (ports_lookup_kind sampleNodeMeta "in" sampleNodeMeta.In ( nodeIO sampleNodeMeta).In
      ( nodeIO sampleNodeMeta).In.reverse (by decide) (by decide)
      (Or.inl ⟨rfl, rfl, rfl⟩) (List.reverse_perm _) "a").2
      [({ Node := "in", Port := "s", Idx := 0 }, 3)]
      [({ Node := "in", Port := "a", Idx := 0 }, 1), ({ Node := "in", Port := "v", Idx := 0 }, 0)]
      { Node := "in", Port := "a", Idx := 1 } 2 (by decide) (by decide) rfl (by decide)⟩

/-- Counterexample to C19: the array port `a` of the sample node has the channel 1 at slot 0
and the channel 2 at slot 1; iterated in the reverse of the order of its making, the map
gives `PortGroup` the list with the channel of slot 1 at position 0. -/
theorem portGroup_not_slot_order :
    ( nodeIO sampleNodeMeta).In.reverse.Perm ( nodeIO sampleNodeMeta).In ∧
      (({ Node := "in", Port := "a", Idx := 0 } : Program.PortAddr), 1) ∈
        ( nodeIO sampleNodeMeta).In ∧
      (({ Node := "in", Port := "a", Idx := 1 } : Program.PortAddr), 2) ∈
        ( nodeIO sampleNodeMeta).In ∧
      Ports.PortGroup ( nodeIO sampleNodeMeta).In.reverse "a" = .ok [2, 1] :=
  ⟨List.reverse_perm _, by decide, by decide, rfl⟩

/-- C19 (amended): for every port map and every array port with `k >= 1` slots,
`PortGroup(name)` returns a list of exactly `k` channels, the channels of the `k` slots in
the order in which the iteration of the map visits them; position `j` holds the channel of
slot `j` when the iteration visits the slots of the port in ascending order. -/
theorem portGroup_iteration_order (ports : Ports) (node name : String) (k : Nat)
    (chanOf : Nat → Chan) (hk : 1 ≤ k)
    (hslots : (ports.filter (fun e => decide (e.1.Port = name))).Perm
      ((List.range k).map (fun j => ({ Node := node, Port := name, Idx := j }, chanOf j)))) :
    ∃ cc, Ports.PortGroup ports name = .ok cc ∧ cc.length = k ∧
      cc = (ports.filter (fun e => decide (e.1.Port = name))).map Prod.snd ∧
      cc.Perm ((List.range k).map chanOf) ∧
      ((ports.filter (fun e => decide (e.1.Port = name))).Pairwise
          (fun x y => x.1.Idx < y.1.Idx) →
        cc = (List.range k).map chanOf) := by
  have hlen : ((ports.filter (fun e => decide (e.1.Port = name))).map Prod.snd).length = k := by
    rw [List.length_map, hslots.length_eq]
    simp
  refine ⟨_, ?_, hlen, rfl, ?_, ?_⟩
  · have hne : ((ports.filter (fun e => decide (e.1.Port = name))).map Prod.snd).length ≠ 0 := by
      omega
    simp only [Ports.PortGroup, portGroupLoop_eq, List.nil_append]
    rw [if_neg hne]
  · have := hslots.map Prod.snd
    simpa [Function.comp_def] using this
  · intro hasc
    have heq := eq_of_perm_of_key_sorted (fun e : Program.PortAddr × Chan => e.1.Idx) _ _ hslots
      (hasc.imp (fun h => Nat.le_of_lt h))
      (by
        rw [List.pairwise_map]
        exact (List.pairwise_lt_range k).imp (fun h => h))
    rw [heq]
    simp [Function.comp_def]

/-- Witness of C19 (amended): the array port `a` of the sample node, of two slots. -/
theorem portGroup_iteration_order_witness :
    ∃ cc, Ports.PortGroup ( nodeIO sampleNodeMeta).In "a" = .ok cc ∧ cc.length = 2 ∧
      cc = (( nodeIO sampleNodeMeta).In.filter (fun e => decide (e.1.Port = "a"))).map Prod.snd ∧
      cc.Perm ((List.range 2).map (fun j => 1 + j)) ∧
      ((( nodeIO sampleNodeMeta).In.filter (fun e => decide (e.1.Port = "a"))).Pairwise
          (fun x y => x.1.Idx < y.1.Idx) →
        cc = (List.range 2).map (fun j => 1 + j)) :=
  portGroup_iteration_order ( nodeIO sampleNodeMeta).In "in" "a" 2 (fun j => 1 + j)
    (by decide) (by decide)

end Runtime

namespace Runtime

/-- One sweep over the senders consumes one poll per sender and adds at most one item per
sender. -/
theorem rangeSenders_consumes {μ : Type} (n : Network μ) (r : Receiver) (ss : List Sender)
    (polls : List (Poll μ)) (buf buf1 : List (fanInQueueItem μ)) (rest : List (Poll μ))
    (h : rangeSenders n r ss polls buf = .ok (buf1, rest)) :
    ∃ consumed, polls = consumed ++ rest ∧ consumed.length = ss.length ∧
      (∀ p ∈ consumed, p ≠ Poll.done) ∧
      buf.length ≤ buf1.length ∧ buf1.length ≤ buf.length + ss.length ∧
      buf1.length = buf.length + (consumed.filterMap Poll.received).length := by
  induction ss generalizing polls buf with
  | nil =>
    simp only [rangeSenders, Outcome.ok.injEq, Prod.mk.injEq] at h
    exact ⟨[], by simp [h.2], rfl, by simp, by simp [h.1], by simp [h.1], by simp [h.1]⟩
  | cons s ss ih =>
    cases polls with
    | nil => simp [rangeSenders] at h
    | cons p polls =>
      cases p with
      | done => simp [rangeSenders] at h
      | recv msg =>
        simp only [rangeSenders] at h
        obtain ⟨consumed, h1, h2, h3, h4, h5, h6⟩ := ih _ _ h
        simp only [List.length_append, List.length_singleton] at h4 h5 h6
        refine ⟨Poll.recv msg :: consumed, by simp [h1], by simp [h2], ?_, ?_, ?_, ?_⟩
        · intro p hp
          rcases List.mem_cons.mp hp with rfl | hp
          · simp
          · exact h3 p hp
        · omega
        · simp only [List.length_cons]
          omega
        · simp only [List.filterMap_cons, Poll.received, List.length_cons]
          omega
      | dflt =>
        simp only [rangeSenders] at h
        obtain ⟨consumed, h1, h2, h3, h4, h5, h6⟩ := ih _ _ h
        refine ⟨Poll.dflt :: consumed, by simp [h1], by simp [h2], ?_, h4, ?_, ?_⟩
        · intro p hp
          rcases List.mem_cons.mp hp with rfl | hp
          · simp
          · exact h3 p hp
        · simp only [List.length_cons]
          omega
        · simp only [List.filterMap_cons, Poll.received]
          exact h6

/-- The collecting loop, when it exits: the buffer is non-empty, the polls consumed are `k`
sweeps over the senders with the counter at `len(ss)` or more, no poll consumed took the
cancellation case, and the buffer grew by the messages received; at no earlier check of the
exit condition was the condition met. -/
theorem collect_exit {μ : Type} (n : Network μ) (r : Receiver) (ss : List Sender)
    (fuel i : Nat) (polls : List (Poll μ)) (buf buf1 : List (fanInQueueItem μ))
    (rest : List (Poll μ))
    (h : collect n r ss fuel i buf polls = .ok (buf1, rest)) :
    ∃ k consumed, polls = consumed ++ rest ∧ consumed.length = k * ss.length ∧
      ss.length ≤ i + k ∧ 0 < buf1.length ∧
      (∀ p ∈ consumed, p ≠ Poll.done) ∧
      buf1.length = buf.length + (consumed.filterMap Poll.received).length ∧
      (buf.length ≤ min i ss.length * ss.length → buf1.length ≤ ss.length * ss.length) ∧
      (∀ j, j < k →
        ¬ (0 < buf.length + ((consumed.take (j * ss.length)).filterMap Poll.received).length ∧
          ss.length ≤ i + j)) := by
  induction fuel generalizing i polls buf with
  | zero => simp [collect] at h
  | succ fuel ih =>
    simp only [collect] at h
    split at h
    · rename_i hexit
      simp only [Outcome.ok.injEq, Prod.mk.injEq] at h
      obtain ⟨rfl, rfl⟩ := h
      refine ⟨0, [], by simp, by simp, by simpa using hexit.2, hexit.1, by simp, by simp, ?_,
        by simp⟩
      intro hinv
      calc buf.length ≤ min i ss.length * ss.length := hinv
        _ ≤ ss.length * ss.length := Nat.mul_le_mul_right _ (Nat.min_le_right _ _)
    · rename_i hexit
      split at h
      · rename_i buf2 polls2 hrs
        obtain ⟨c1, a1, a2, a3, a4, a5, a6⟩ := rangeSenders_consumes n r ss polls buf buf2 polls2 hrs
        obtain ⟨k, c2, b1, b2, b3, b4, b5, b6, b7, b8⟩ := ih _ _ _ h
        refine ⟨k + 1, c1 ++ c2, by simp [a1, b1], ?_, by omega, b4, ?_, ?_, ?_, ?_⟩
        · simp only [List.length_append, a2, b2, Nat.add_mul, Nat.one_mul]
          omega
        · intro p hp
          rcases List.mem_append.mp hp with hp | hp
          · exact a3 p hp
          · exact b5 p hp
        · simp only [List.filterMap_append, List.length_append]
          omega
        · intro hinv
          apply b7
          by_cases hi : i < ss.length
          · have hmin : min i ss.length = i := Nat.min_eq_left (Nat.le_of_lt hi)
            have hmin1 : min (i + 1) ss.length = i + 1 := Nat.min_eq_left hi
            rw [hmin] at hinv
            rw [hmin1, Nat.add_mul, Nat.one_mul]
            omega
          · have hbuf : buf.length = 0 := by
              by_contra hne
              exact hexit ⟨Nat.pos_of_ne_zero hne, Nat.le_of_not_lt hi⟩
            have hmin1 : min (i + 1) ss.length = ss.length := by
              apply Nat.min_eq_right
              omega
            rw [hmin1]
            have := Nat.le_mul_self ss.length
            omega
        · intro j hj
          cases j with
          | zero => simpa using hexit
          | succ j =>
            have hj2 : j < k := by omega
            have := b8 j hj2
            have htake : (c1 ++ c2).take ((j + 1) * ss.length) = c1 ++ c2.take (j * ss.length) := by
              rw [List.take_append_eq_append_take, a2]
              have h1 : c1.take ((j + 1) * ss.length) = c1 := by
                apply List.take_of_length_le
                rw [a2, Nat.add_mul, Nat.one_mul]
                omega
              have h2 : (j + 1) * ss.length - ss.length = j * ss.length := by
                rw [Nat.add_mul, Nat.one_mul]
                omega
              rw [h1, h2]
            rw [htake, List.filterMap_append, List.length_append]
            intro hcond
            apply this
            constructor
            · omega
            · omega
      · simp at h
      · simp at h

/-- C23 (counterexample). Two senders, nothing arrives in the first two sweeps, the first
sender delivers in the third: the collecting loop exits right after the third sweep, that
is after a single iteration counted from the one of the first receive, fewer than `N = 2`. -/
theorem fanIn_collect_exit_late_receive :
    collect sampleNet sampleReceiver sampleSenders 4 0 [] latePolls
      = .ok ([{ sender := portAddr "a", msg := { data := some 7, index := 0 } }],
          [.recv { data := some 8, index := 1 }]) ∧
    (latePolls.take (2 * sampleSenders.length)).filterMap Poll.received = [] ∧
    sampleSenders.length = 2 := by
  refine ⟨rfl, rfl, rfl⟩

/-- C23 (amended). When the collecting loop of a `fanIn` batch exits, the buffer is non-empty
and the loop has performed `iters` sweeps over the `N` senders with `iters ≥ N`, counted from
the start of the batch; the buffer holds what those sweeps received, and at no earlier check
was the buffer non-empty with at least `N` sweeps done. -/
theorem fanIn_collect_exit_condition {μ : Type} (n : Network μ) (r : Receiver)
    (ss : List Sender) (fuel : Nat) (polls rest : List (Poll μ))
    (buf : List (fanInQueueItem μ))
    (h : collect n r ss fuel 0 [] polls = .ok (buf, rest)) :
    buf ≠ [] ∧
    ∃ iters consumed, polls = consumed ++ rest ∧ consumed.length = iters * ss.length ∧
      ss.length ≤ iters ∧
      buf.length = (consumed.filterMap Poll.received).length ∧
      ∀ j, j < iters →
        ¬ ((consumed.take (j * ss.length)).filterMap Poll.received ≠ [] ∧ ss.length ≤ j) := by
  obtain ⟨k, consumed, h1, h2, h3, h4, _, h6, _, h8⟩ := collect_exit n r ss fuel 0 polls [] buf rest h
  refine ⟨List.ne_nil_of_length_pos h4, k, consumed, h1, h2, by simpa using h3,
    by simpa using h6, ?_⟩
  intro j hj hcond
  apply h8 j hj
  refine ⟨?_, by simpa using hcond.2⟩
  have := List.length_pos.mpr hcond.1
  simpa using this

/-- C23 (witness). The exit after the third sweep of `latePolls`. -/
theorem fanIn_collect_exit_condition_witness :
    collect sampleNet sampleReceiver sampleSenders 4 0 [] latePolls
      = .ok ([{ sender := portAddr "a", msg := { data := some 7, index := 0 } }],
          [.recv { data := some 8, index := 1 }]) ∧
    ([{ sender := portAddr "a", msg := { data := some 7, index := 0 } }] :
        List (fanInQueueItem Nat)) ≠ [] ∧
    ∃ iters consumed, latePolls = consumed ++ [.recv { data := some 8, index := 1 }] ∧
      consumed.length = iters * sampleSenders.length ∧
      sampleSenders.length ≤ iters ∧
      ([{ sender := portAddr "a", msg := { data := some 7, index := 0 } }] :
        List (fanInQueueItem Nat)).length = (consumed.filterMap Poll.received).length ∧
      ∀ j, j < iters →
        ¬ ((consumed.take (j * sampleSenders.length)).filterMap Poll.received ≠ [] ∧
          sampleSenders.length ≤ j) :=
  ⟨rfl, fanIn_collect_exit_condition sampleNet sampleReceiver sampleSenders 4 latePolls _ _ rfl⟩

/-- C24. For `N ≥ 1` senders and every schedule of polls, when the collecting loop of a
`fanIn` batch exits the buffer holds at least 1 and at most `N * N` messages. -/
theorem fanIn_collect_buffer_bounds {μ : Type} (n : Network μ) (r : Receiver)
    (ss : List Sender) (fuel : Nat) (polls rest : List (Poll μ))
    (buf : List (fanInQueueItem μ)) (_hN : 1 ≤ ss.length)
    (h : collect n r ss fuel 0 [] polls = .ok (buf, rest)) :
    1 ≤ buf.length ∧ buf.length ≤ ss.length * ss.length := by
  obtain ⟨k, consumed, _, _, _, h4, _, _, h7, _⟩ := collect_exit n r ss fuel 0 polls [] buf rest h
  exact ⟨h4, h7 (by simp)⟩

/-- C24 (witness). Two senders deliver three messages in two sweeps: `1 ≤ 3 ≤ 4`. -/
theorem fanIn_collect_buffer_bounds_witness :
    1 ≤ sampleSenders.length ∧
    collect sampleNet sampleReceiver sampleSenders 3 0 [] sampleSched.polls
      = .ok ([{ sender := portAddr "a", msg := { data := some 10, index := 3 } },
              { sender := portAddr "b", msg := { data := some 20, index := 1 } },
              { sender := portAddr "a", msg := { data := some 11, index := 4 } }],
          [.recv { data := some 99, index := 9 }]) ∧
    1 ≤ ([{ sender := portAddr "a", msg := { data := some 10, index := 3 } },
              { sender := portAddr "b", msg := { data := some 20, index := 1 } },
              { sender := portAddr "a", msg := { data := some 11, index := 4 } }] :
        List (fanInQueueItem Nat)).length ∧
    ([{ sender := portAddr "a", msg := { data := some 10, index := 3 } },
              { sender := portAddr "b", msg := { data := some 20, index := 1 } },
              { sender := portAddr "a", msg := { data := some 11, index := 4 } }] :
        List (fanInQueueItem Nat)).length ≤ sampleSenders.length * sampleSenders.length :=
  ⟨by decide, rfl,
    fanIn_collect_buffer_bounds sampleNet sampleReceiver sampleSenders 3 sampleSched.polls _ _
      (by decide) rfl⟩

/-- With no sender the collecting loop runs out of every fuel, from every counter and with every
schedule of polls. -/
theorem collect_no_senders {μ : Type} (n : Network μ) (r : Receiver) (fuel i : Nat)
    (polls : List (Poll μ)) : collect n r [] fuel i [] polls = .starved := by
  induction fuel generalizing i with
  | zero => rfl
  | succ fuel ih => simp [collect, rangeSenders, ih]

/-- With no sender `fanIn` writes nothing and does not return, whatever the bounds. -/
theorem fanInRun_no_senders {μ : Type} (n : Network μ) (r : Receiver) (fuel batches : Nat)
    (sch : Sched μ) : n.fanInRun r [] fuel batches sch = ([], .starved) := by
  cases batches with
  | zero => rfl
  | succ b => simp [Network.fanInRun, fanInBatch, collect_no_senders]

/-- The counter of the wait group falls by the number of goroutines that returned. -/
theorem wgDone_eq (counter : Nat) (outcomes : List (Outcome Unit)) :
    wgDone counter outcomes =
      counter - (outcomes.filter (fun o => decide (o = Outcome.cancelled))).length := by
  induction outcomes generalizing counter with
  | nil => simp [wgDone]
  | cons o os ih =>
    simp only [wgDone, ih, List.filter_cons]
    by_cases h : o = Outcome.cancelled
    · simp only [h, if_true, decide_True, List.length_cons]
      omega
    · simp [h]

/-- `wg.Wait()` returns exactly when every connection has a goroutine that ran and every
goroutine ended by cancellation. -/
theorem Run_eq_all {μ : Type} (n : Network μ) (scheds : List (TaskSched μ)) :
    n.Run scheds =
      ((List.zipWith (fun c ts => (n.runTask (taskOf c.1 c.2) ts).2) n.connections scheds).all
        (fun o => decide (o = Outcome.cancelled)) &&
      decide (n.connections.length ≤ scheds.length)) := by
  unfold Network.Run
  rw [wgDone_eq]
  generalize hz : List.zipWith (fun c ts => (n.runTask (taskOf c.1 c.2) ts).2)
    n.connections scheds = outs
  have hlen : outs.length = min n.connections.length scheds.length := by
    rw [← hz, List.length_zipWith]
  have hle := List.length_filter_le (fun o => decide (o = Outcome.cancelled)) outs
  by_cases hall : outs.all (fun o => decide (o = Outcome.cancelled)) = true
  · have hf : outs.filter (fun o => decide (o = Outcome.cancelled)) = outs :=
      List.filter_eq_self.mpr (by simpa using hall)
    rw [hall, hf, hlen]
    by_cases hl : n.connections.length ≤ scheds.length
    · simp [hl, Nat.min_eq_left hl]
    · have : scheds.length < n.connections.length := Nat.lt_of_not_le hl
      simp [hl, Nat.min_eq_right (Nat.le_of_lt this)]
      omega
  · have hlt : (outs.filter (fun o => decide (o = Outcome.cancelled))).length < outs.length := by
      rcases Nat.lt_or_eq_of_le hle with h | h
      · exact h
      · exact absurd (List.all_eq_true.mpr (fun o ho => by
          have := List.filter_eq_self.mp ((List.filter_sublist outs).eq_of_length h)
          exact this o ho)) hall
    have hne : n.connections.length -
        (outs.filter (fun o => decide (o = Outcome.cancelled))).length ≠ 0 := by
      have : outs.length ≤ n.connections.length := by
        rw [hlen]
        exact Nat.min_le_left _ _
      omega
    simp [hall, hne]

/-- A connection whose goroutine does not end by cancellation keeps `Run` from returning. -/
theorem Run_false_of_task {μ : Type} (n : Network μ) (c : Receiver × List Sender)
    (hc : c ∈ n.connections)
    (hrun : ∀ ts, (n.runTask (taskOf c.1 c.2) ts).2 ≠ Outcome.cancelled)
    (scheds : List (TaskSched μ)) : n.Run scheds = false := by
  rw [Run_eq_all]
  by_cases hlen : n.connections.length ≤ scheds.length
  · have key : ∀ (conns : List (Receiver × List Sender)) (scheds : List (TaskSched μ)),
        c ∈ conns → conns.length ≤ scheds.length →
        (List.zipWith (fun c ts => (n.runTask (taskOf c.1 c.2) ts).2) conns scheds).all
          (fun o => decide (o = Outcome.cancelled)) = false := by
      intro conns
      induction conns with
      | nil => intro _ h; simp at h
      | cons d ds ih =>
        intro scheds hmem hl
        cases scheds with
        | nil => simp at hl
        | cons t ts =>
          simp only [List.zipWith_cons_cons, List.all_cons, Bool.and_eq_false_iff]
          rcases List.mem_cons.mp hmem with rfl | hmem
          · left
            simpa using hrun t
          · right
            exact ih ts hmem (by simpa using hl)
    simp [key n.connections scheds hc hlen]
  · simp [hlen]

/-- C26. A receiver with an empty sender list is given to `fanIn` (`pipe` is chosen exactly
for one sender); there the sweep over the senders leaves the buffer as it is and makes no
`select`, so the collecting loop does not exit within any number of iterations, `fanIn`
writes nothing and does not return under any schedule, and `Run` does not return. -/
theorem fanIn_empty_senders_never_returns {μ : Type} (n : Network μ) (r : Receiver) :
    taskOf r [] = .fanIn r [] ∧
    (∀ ss s, taskOf r ss = .pipe r s ↔ ss = [s]) ∧
    (∀ polls buf, rangeSenders n r [] polls buf = .ok (buf, polls)) ∧
    (∀ fuel i polls, collect n r [] fuel i [] polls = .starved) ∧
    (∀ ts, n.runTask (taskOf r []) ts = ([], .starved)) ∧
    ((r, []) ∈ n.connections → ∀ scheds, n.Run scheds = false) := by
  refine ⟨rfl, ?_, ?_, collect_no_senders n r, ?_, ?_⟩
  · intro ss s
    constructor
    · intro h
      match ss, h with
      | [s1], h =>
        simp only [taskOf, Task.pipe.injEq] at h
        rw [h.2]
      | [], h => simp [taskOf] at h
      | _ :: _ :: _, h => simp [taskOf] at h
    · rintro rfl
      rfl
  · intro polls buf
    rfl
  · intro ts
    simp [taskOf, Network.runTask, fanInRun_no_senders]
  · intro hc scheds
    apply Run_false_of_task n (r, []) hc
    intro ts
    simp [taskOf, Network.runTask, fanInRun_no_senders]

/-- The number of entries that `nodeIO` makes for a port declared with `slots` slots. -/
theorem slotEntries_length (node port : String) (slots next : Nat) :
    (slotEntries node port slots next).length = max 1 slots := by
  unfold slotEntries
  split_ifs with h
  · simp [h]
  · simp only [List.length_map, List.length_range]
    omega

/-- The channels made for one declared port are the next serial numbers, in order. -/
theorem slotEntries_snd (node port : String) (slots next : Nat) :
    (slotEntries node port slots next).map Prod.snd = List.range' next (max 1 slots) := by
  unfold slotEntries
  split_ifs with h
  · simp [h]
  · have hmax : max 1 slots = slots := by omega
    rw [hmax, List.map_map, List.range'_eq_map_range]
    rfl

/-- The addresses made for one declared port. -/
theorem slotEntries_mem_fst (node port : String) (slots next : Nat) (addr : Program.PortAddr) :
    addr ∈ (slotEntries node port slots next).map Prod.fst ↔
      addr.Node = node ∧ addr.Port = port ∧
        (if slots = 0 then addr.Idx = 0 else addr.Idx < slots) := by
  unfold slotEntries
  obtain ⟨an, ap, ai⟩ := addr
  split_ifs with h
  · simp
  · simp only [List.map_map, List.mem_map, List.mem_range, Function.comp_apply,
      Program.PortAddr.mk.injEq]
    constructor
    · rintro ⟨j, hj, rfl, rfl, rfl⟩
      exact ⟨rfl, rfl, hj⟩
    · rintro ⟨rfl, rfl, hj⟩
      exact ⟨ai, hj, rfl, rfl, rfl⟩

/-- The addresses made for one declared port are distinct. -/
theorem slotEntries_fst_nodup (node port : String) (slots next : Nat) :
    ((slotEntries node port slots next).map Prod.fst).Nodup := by
  unfold slotEntries
  split_ifs with h
  · simp
  · rw [List.map_map]
    apply List.Nodup.map _ (List.nodup_range slots)
    intro a b hab
    simp only [Function.comp_apply, Program.PortAddr.mk.injEq, true_and] at hab
    exact hab

/-- The channels made for a list of declared ports are the next serial numbers, in order. -/
theorem entriesOf_snd (node : String) (decl : List (String × Nat)) (next : Nat) :
    (entriesOf node decl next).map Prod.snd =
      List.range' next (decl.map (fun d => max 1 d.2)).sum := by
  induction decl generalizing next with
  | nil => simp [entriesOf]
  | cons d rest ih =>
    obtain ⟨port, slots⟩ := d
    have hstep : (if slots = 0 then 1 else slots) = max 1 slots := by
      split_ifs with h
      · simp [h]
      · omega
    simp only [entriesOf, List.map_append, slotEntries_snd, ih, List.map_cons, List.sum_cons,
      hstep]
    rw [List.range'_append_1, Nat.add_comm]

/-- The addresses made for a list of declared ports: one per declared port and slot. -/
theorem entriesOf_mem_fst (node : String) (decl : List (String × Nat)) (next : Nat)
    (addr : Program.PortAddr) :
    addr ∈ (entriesOf node decl next).map Prod.fst ↔
      addr.Node = node ∧ ∃ slots, (addr.Port, slots) ∈ decl ∧
        (if slots = 0 then addr.Idx = 0 else addr.Idx < slots) := by
  induction decl generalizing next with
  | nil => simp [entriesOf]
  | cons d rest ih =>
    obtain ⟨port, slots⟩ := d
    simp only [entriesOf, List.map_append, List.mem_append, slotEntries_mem_fst, ih,
      List.mem_cons, Prod.mk.injEq]
    constructor
    · rintro (⟨h1, h2, h3⟩ | ⟨h1, s, h2, h3⟩)
      · exact ⟨h1, slots, Or.inl ⟨h2, rfl⟩, h3⟩
      · exact ⟨h1, s, Or.inr h2, h3⟩
    · rintro ⟨h1, s, (⟨h2, rfl⟩ | h2), h3⟩
      · exact Or.inl ⟨h1, h2, h3⟩
      · exact Or.inr ⟨h1, s, h2, h3⟩

/-- The addresses made for declared ports with distinct names are distinct. -/
theorem entriesOf_fst_nodup (node : String) (decl : List (String × Nat)) (next : Nat)
    (hnodup : (decl.map Prod.fst).Nodup) : ((entriesOf node decl next).map Prod.fst).Nodup := by
  induction decl generalizing next with
  | nil => simp [entriesOf]
  | cons d rest ih =>
    obtain ⟨port, slots⟩ := d
    simp only [List.map_cons, List.nodup_cons] at hnodup
    simp only [entriesOf, List.map_append]
    refine List.Nodup.append (slotEntries_fst_nodup _ _ _ _) (ih _ hnodup.2) ?_
    intro addr h1 h2
    have hp := ((slotEntries_mem_fst _ _ _ _ _).mp h1).2.1
    obtain ⟨_, s, hs, _⟩ := (entriesOf_mem_fst _ _ _ _).mp h2
    apply hnodup.1
    rw [← hp]
    exact List.mem_map.mpr ⟨(addr.Port, s), hs, rfl⟩

/-- C25. For a worker node meta (port names distinct within `In` and within `Out`, as the keys
of a Go map are), `nodeIO` makes exactly one channel per port address: the addresses of `In`
are `("in", port, 0)` for each inport with slot count 0 and `("in", port, i)` with `i < k` for
each inport with slot count `k ≥ 1`, each address occurs once, likewise for `Out` under
`"out"`, all channels are distinct, and each map has as many entries as the sum of
`max 1 slots` over its ports. -/
theorem nodeIO_one_channel_per_address (nodeMeta : Program.WorkerNodeMeta)
    (hin : (nodeMeta.In.map Prod.fst).Nodup) (hout : (nodeMeta.Out.map Prod.fst).Nodup) :
    (∀ addr, addr ∈ ( nodeIO nodeMeta).In.map Prod.fst ↔
      addr.Node = "in" ∧ ∃ slots, (addr.Port, slots) ∈ nodeMeta.In ∧
        (if slots = 0 then addr.Idx = 0 else addr.Idx < slots)) ∧
    (∀ addr, addr ∈ ( nodeIO nodeMeta).Out.map Prod.fst ↔
      addr.Node = "out" ∧ ∃ slots, (addr.Port, slots) ∈ nodeMeta.Out ∧
        (if slots = 0 then addr.Idx = 0 else addr.Idx < slots)) ∧
    (( nodeIO nodeMeta).In.map Prod.fst).Nodup ∧
    (( nodeIO nodeMeta).Out.map Prod.fst).Nodup ∧
    ((( nodeIO nodeMeta).In ++ ( nodeIO nodeMeta).Out).map Prod.snd).Nodup ∧
    ( nodeIO nodeMeta).In.length = (nodeMeta.In.map (fun d => max 1 d.2)).sum ∧
    ( nodeIO nodeMeta).Out.length = (nodeMeta.Out.map (fun d => max 1 d.2)).sum := by
  have hI : ( nodeIO nodeMeta).In = entriesOf "in" nodeMeta.In 0 := by
    unfold nodeIO
    simp only
    rw [nodePorts_eq "in" nodeMeta.In [] 0 hin (by simp)]
    simp
  have hO : ( nodeIO nodeMeta).Out =
      entriesOf "out" nodeMeta.Out (0 + (nodeMeta.In.map (fun d => max 1 d.2)).sum) := by
    unfold nodeIO
    simp only
    rw [nodePorts_eq "in" nodeMeta.In [] 0 hin (by simp)]
    rw [nodePorts_eq "out" nodeMeta.Out [] _ hout (by simp)]
    have hsum : (nodeMeta.In.map (fun d => if d.2 = 0 then 1 else d.2)) =
        (nodeMeta.In.map (fun d => max 1 d.2)) := by
      apply List.map_congr_left
      intro d _
      split_ifs with h
      · simp [h]
      · omega
    simp [hsum]
  rw [hI, hO]
  refine ⟨fun addr => entriesOf_mem_fst _ _ _ addr, fun addr => entriesOf_mem_fst _ _ _ addr,
    entriesOf_fst_nodup _ _ _ hin, entriesOf_fst_nodup _ _ _ hout, ?_, ?_, ?_⟩
  · rw [List.map_append, entriesOf_snd, entriesOf_snd, List.range'_append_1]
    exact List.nodup_range' _ _
  · have := congrArg List.length (entriesOf_snd "in" nodeMeta.In 0)
    simpa using this
  · have := congrArg List.length (entriesOf_snd "out" nodeMeta.Out
      (0 + (nodeMeta.In.map (fun d => max 1 d.2)).sum))
    simpa using this

/-- C25 (witness). The sample node: four entries under `"in"` (`v`; `a` at 0 and 1; `s`) and
one under `"out"`. -/
theorem nodeIO_one_channel_per_address_witness :
    (sampleNodeMeta.In.map Prod.fst).Nodup ∧ (sampleNodeMeta.Out.map Prod.fst).Nodup ∧
    nodeIO sampleNodeMeta =
      { In := [({ Node := "in", Port := "v", Idx := 0 }, 0),
          ({ Node := "in", Port := "a", Idx := 0 }, 1),
          ({ Node := "in", Port := "a", Idx := 1 }, 2),
          ({ Node := "in", Port := "s", Idx := 0 }, 3)],
        Out := [({ Node := "out", Port := "res", Idx := 0 }, 4)] } ∧
    ( nodeIO sampleNodeMeta).In.length = (sampleNodeMeta.In.map (fun d => max 1 d.2)).sum ∧
    ( nodeIO sampleNodeMeta).Out.length = (sampleNodeMeta.Out.map (fun d => max 1 d.2)).sum :=
  ⟨by decide, by decide, by decide,
    (nodeIO_one_channel_per_address sampleNodeMeta (by decide) (by decide)).2.2.2.2.2⟩

end Runtime

namespace Compiler.Parser

/-- C30 (fails). A walk that panics with a `*compiler.Error`, as `parseTypeExpr` does on a
missing type expression, makes `walkTree` return a nil error, and `parseFile` then returns
the file that the interrupted walk left, with a nil error, when the lexer and the parser
reported nothing; a panic with any other value does give a non-nil error and the empty
file. -/
theorem walkTree_swallows_compiler_error {φ : Type} (empty file : φ) (e : Error)
    (text stack : String) (startLine stopLine : Nat) :
    walkTree (some (.compilerError e)) stack = none ∧
    walkTree (some (missingTypeExpr text startLine stopLine)) stack = none ∧
    parseFile empty (some (missingTypeExpr text startLine stopLine)) stack file [] []
      = (file, none) ∧
    parseFile empty (some (.compilerError e)) stack file [] [] = (file, none) ∧
    (∀ v lexerErrors parserErrors,
      (parseFile empty (some (.other v)) stack file lexerErrors parserErrors).2.isSome ∧
      (parseFile empty (some (.other v)) stack file lexerErrors parserErrors).1 = empty) :=
  ⟨rfl, rfl, rfl, rfl, fun _ _ _ => ⟨rfl, rfl⟩⟩

end Compiler.Parser

namespace Core

/-- C29 (fails). For an array outport as `Ports` makes it (`tmpArrSize = 10` channels) the
point with `Index = 10` passes the guard and the access `arrport[10]` is out of range; so
it is for every array port of length `n < 256` at `Index = n`. The guard raises "arrport to
small" exactly from `n + 1` on. -/
theorem chanByPoint_guard_off_by_one (node port : String) (next : Nat) :
    chanByPoint (.ArrPortPoint node port 10) ( nodeIO [] [(port, { Arr := true })] next).1
      = .error (.indexOutOfRange 10 10) ∧
    (∀ cc : List Chan, cc.length < 256 →
      chanByPoint (.ArrPortPoint node port cc.length) (arrNode port cc)
        = .error (.indexOutOfRange cc.length cc.length)) ∧
    (∀ (cc : List Chan) (index : Nat), cc.length < 256 →
      (chanByPoint (.ArrPortPoint node port index) (arrNode port cc) = .error .arrportToSmall
        ↔ cc.length < index)) := by
  refine ⟨?_, ?_, ?_⟩
  · have h10 : (List.range 10)[10]? = none := by decide
    simp [chanByPoint, nodeIO, Ports, portsLoop, nodePorts.set, NodeIO.ArrOutport,
      List.lookup, tmpArrSize, h10]
  · intro cc hlen
    simp [chanByPoint, arrNode, NodeIO.ArrOutport, List.lookup, Nat.mod_eq_of_lt hlen]
  · intro cc index hlen
    simp only [chanByPoint, arrNode, NodeIO.ArrOutport, List.lookup, beq_self_eq_true,
      Nat.mod_eq_of_lt hlen]
    constructor
    · intro h
      by_contra hn
      rw [if_neg hn] at h
      cases hget : cc[index]? with
      | none => simp [hget] at h
      | some c => simp [hget] at h
    · intro h
      rw [if_pos h]

end Core

namespace Irgen

/-- An argument is the texts of its identifiers joined by single spaces. -/
theorem joinLoop_sample :
    joinLoop 3 0 ["a", "b", "c"] "" = "a b c" ∧ joinLoop 1 0 ["a"] "" = "a" := by
  refine ⟨by decide, by decide⟩

/-- C28 (fails). `parseCompilerDirectives` maps `#extern(foo, bar)` to the arguments `foo`
and `bar`, on which `getFuncRef` with the first type argument `foo` reads `parts[1]` of the
one-element `parts`; and it maps `#bind` to the empty argument list, of which `getCfgMsg`
reads `args[0]`, whatever the scope holds. Both calls panic. -/
theorem directive_readers_index_out_of_range :
    parseCompilerDirectives (some [externSingles]) = [("extern", ["foo", "bar"])] ∧
    getFuncRef { Directives := parseCompilerDirectives (some [externSingles]) }
      [Compiler.instExpr "foo"] = none ∧
    parseCompilerDirectives (some [bareBind]) = [("bind", [])] ∧
    (∀ (entity : String → Except String Nat) (getIRMsgBySrcRef : Nat → Except String Nat),
      getCfgMsg { Directives := parseCompilerDirectives (some [bareBind]) } entity
        getIRMsgBySrcRef = none) := by
  refine ⟨by decide, by decide, by decide, ?_⟩
  intro entity getIR
  rfl

end Irgen

namespace Typesystem

/-- The separator loop returns when `String` returns on every element. -/
theorem sepLoop_isSome (sep : String) (len : Nat) (l : List Expr)
    (hall : ∀ e ∈ l, (Expr.String e).isSome = true) (i : Nat) (str : String) :
    (sepLoop sep len i l str).isSome = true := by
  induction l generalizing i str with
  | nil => simp [sepLoop]
  | cons e rest ih =>
    obtain ⟨s, hs⟩ := Option.isSome_iff_exists.mp (hall e (by simp))
    simp only [sepLoop, hs]
    exact ih (fun e he => hall e (List.mem_cons_of_mem _ he)) _ _

/-- The record loop returns when `String` returns on every field. -/
theorem recLoop_isSome (len : Nat) (l : List (String × Expr))
    (hall : ∀ p ∈ l, (Expr.String p.2).isSome = true) (count : Nat) (str : String) :
    (recLoop len count l str).isSome = true := by
  induction l generalizing count str with
  | nil => simp [recLoop]
  | cons p rest ih =>
    obtain ⟨name, e⟩ := p
    obtain ⟨s, hs⟩ := Option.isSome_iff_exists.mp (hall (name, e) (by simp))
    simp only at hs
    simp only [recLoop, hs]
    exact ih (fun e he => hall e (List.mem_cons_of_mem _ he)) _ _

/-- A list of expressions is well-formed when each of them is. -/
theorem allWellFormed_iff (l : List Expr) :
    allWellFormed l = true ↔ ∀ e ∈ l, Expr.wellFormed e = true := by
  induction l with
  | nil => simp [allWellFormed]
  | cons e rest ih => simp [allWellFormed, ih]

/-- The fields of a record are well-formed when the expression of each is. -/
theorem fieldsWellFormed_iff (l : List (String × Expr)) :
    fieldsWellFormed l = true ↔ ∀ p ∈ l, Expr.wellFormed p.2 = true := by
  induction l with
  | nil => simp [fieldsWellFormed]
  | cons p rest ih =>
    obtain ⟨name, e⟩ := p
    simp [fieldsWellFormed, ih]

/-- `String` on an instantiation without a literal. -/
theorem String_inst (ref : Option String) (args : List Expr) :
    Expr.String (.mk none (some (.mk ref args))) =
      if args.length = 0 then ref
      else
        match sepLoop ", " args.length 0 args (ref.getD "" ++ "<") with
        | none => none
        | some str => some (str ++ ">") := by
  rfl

/-- `String` on an array literal. -/
theorem String_arr (e : Expr) (size : Int) (rec : Option (List (String × Expr)))
    (enum : Option (List String)) (union : Option (List Expr)) (inst : Option InstExpr) :
    Expr.String (.mk (some (.mk (some (.mk e size)) rec enum union)) inst) =
      match Expr.String e with
      | none => none
      | some s => some ("[" ++ toString size ++ "]" ++ s) := by
  cases inst <;> rfl

/-- `String` on a record literal. -/
theorem String_rec (fields : List (String × Expr)) (enum : Option (List String))
    (union : Option (List Expr)) (inst : Option InstExpr) :
    Expr.String (.mk (some (.mk none (some fields) enum union)) inst) =
      match recLoop fields.length 0 fields "\x7b" with
      | none => none
      | some str => some (str ++ "\x7d") := by
  cases inst <;> rfl

/-- `String` on an enumeration literal. -/
theorem String_enum (en : List String) (union : Option (List Expr)) (inst : Option InstExpr) :
    Expr.String (.mk (some (.mk none none (some en) union)) inst) =
      some (enumLoop en.length 0 en "\x7b" ++ "\x7d") := by
  cases inst <;> rfl

/-- `String` on a union literal. -/
theorem String_union (els : List Expr) (inst : Option InstExpr) :
    Expr.String (.mk (some (.mk none none none (some els))) inst) =
      sepLoop " | " els.length 0 els "" := by
  cases inst <;> rfl

/-- `String` returns on every well-formed expression of size at most `n`. -/
theorem String_isSome_of_size (n : Nat) :
    ∀ e : Expr, sizeOf e ≤ n → e.wellFormed = true → (Expr.String e).isSome = true := by
  induction n with
  | zero =>
    intro e hsize
    cases e
    simp at hsize
  | succ n ih =>
    intro e hsize h
    obtain ⟨lit, inst⟩ := e
    rcases lit with _ | lit <;> rcases inst with _ | inst
    · simp [Expr.wellFormed] at h
    · obtain ⟨ref, args⟩ := inst
      simp only [Expr.wellFormed, InstExpr.wellFormed, Bool.and_eq_true] at h
      obtain ⟨s, rfl⟩ := Option.isSome_iff_exists.mp h.1
      have hargs : ∀ e ∈ args, (Expr.String e).isSome = true := by
        intro e he
        apply ih e _ ((allWellFormed_iff args).mp h.2 e he)
        have := List.sizeOf_lt_of_mem he
        simp at hsize
        omega
      have hloop := sepLoop_isSome ", " args.length args hargs 0 (s ++ "<")
      obtain ⟨str, hstr⟩ := Option.isSome_iff_exists.mp hloop
      rw [String_inst]
      by_cases hlen : args.length = 0
      · simp [hlen]
      · simp [hlen, hstr]
    · obtain ⟨arr, rec, enum, union⟩ := lit
      rcases arr with _ | ⟨e, size⟩ <;> rcases rec with _ | fields <;>
        rcases enum with _ | en <;> rcases union with _ | els <;>
        simp [Expr.wellFormed, LitExpr.wellFormed] at h
      · have hels : ∀ e ∈ els, (Expr.String e).isSome = true := by
          intro e he
          apply ih e _ ((allWellFormed_iff els).mp h e he)
          have := List.sizeOf_lt_of_mem he
          simp at hsize
          omega
        rw [String_union]
        exact sepLoop_isSome " | " els.length els hels 0 ""
      · rw [String_enum]
        rfl
      · have hfields : ∀ p ∈ fields, (Expr.String p.2).isSome = true := by
          intro p hp
          apply ih p.2 _ ((fieldsWellFormed_iff fields).mp h p hp)
          have := List.sizeOf_lt_of_mem hp
          obtain ⟨name, e⟩ := p
          simp at hsize this ⊢
          omega
        obtain ⟨str, hstr⟩ := Option.isSome_iff_exists.mp
          (recLoop_isSome fields.length fields hfields 0 "\x7b")
        rw [String_rec]
        simp [hstr]
      · have he : (Expr.String e).isSome = true := by
          apply ih e _ h
          simp at hsize
          omega
        obtain ⟨s, hs⟩ := Option.isSome_iff_exists.mp he
        rw [String_arr]
        simp [hs]
    · simp [Expr.wellFormed] at h

/-- Outside the well-formed expressions `String` does dereference nil: on a literal with no
field initialised and no instantiation (`expr.Inst.Args`), and on an instantiation with a nil
`Ref` and no arguments (`expr.Inst.Ref.String()`). -/
theorem String_nil_dereference :
    Expr.String (.mk (some (.mk none none none none)) none) = none ∧
    Expr.String (.mk none (some (.mk none []))) = none := by
  refine ⟨by decide, by decide⟩

/-- C27. `Expr.String` is total on well-formed expressions: on every expression in which
exactly one of `Lit` and `Inst` is set, every set `Lit` has exactly one of `Arr`, `Rec`,
`Enum`, `Union` initialised and every `Inst` has a non-nil `Ref` (recursively), it returns a
string without dereferencing nil; on a nil pointer and on an expression with neither `Lit`
nor `Inst` it returns "empty". -/
theorem Expr_String_total (expr : Expr) (h : expr.wellFormed = true) :
    (∃ s, stringOfPtr (some expr) = some s) ∧
    stringOfPtr none = some "empty" ∧
    stringOfPtr (some (.mk none none)) = some "empty" := by
  refine ⟨?_, rfl, rfl⟩
  exact Option.isSome_iff_exists.mp (String_isSome_of_size (sizeOf expr) expr (Nat.le_refl _) h)

/-- C27 (witness). The strings of `map<int, { a, b }>`. -/
theorem Expr_String_total_witness :
    mapExpr.wellFormed = true ∧
    stringOfPtr (some mapExpr) = some "map<int, \x7b a, b \x7d>" ∧
    stringOfPtr (some arrExpr) = some "[3]\x7b x int, y int | string \x7d" ∧
    (∃ s, stringOfPtr (some mapExpr) = some s) ∧
    stringOfPtr none = some "empty" ∧
    stringOfPtr (some (.mk none none)) = some "empty" :=
  ⟨by decide, by decide, by decide, Expr_String_total mapExpr (by decide)⟩

end Typesystem

namespace Core

/-- The loop over the workers does not return when it reaches a worker whose run does not
return, every worker before it having been run without error. -/
theorem runWorkers_none
    (run : String → RunState → Option (Except RunError NodeIO × RunState))
    (pre : List (String × String)) (w dep : String) (post : List (String × String))
    (hpre : ∀ p ∈ pre, ∀ st err st1, run p.2 st ≠ some (.error err, st1))
    (hw : ∀ st, run dep st = none)
    (nodes : List (String × NodeIO)) (st : RunState) :
    workersLoop run (pre ++ (w, dep) :: post) nodes st = none := by
  induction pre generalizing nodes st with
  | nil => simp [workersLoop, hw]
  | cons p rest ih =>
    obtain ⟨name, pdep⟩ := p
    simp only [List.cons_append, workersLoop]
    cases hsp : run pdep st with
    | none => rfl
    | some res =>
      obtain ⟨r, st1⟩ := res
      cases r with
      | error err => exact absurd hsp (hpre (name, pdep) (by simp) st err st1)
      | ok io =>
        simp only
        exact ih (fun p hp => hpre p (List.mem_cons_of_mem _ hp)) _ _

/-- In a set `S` of module names each of which is a custom module with resolvable
dependencies and a worker in `S`, the workers before it being run without error, `Run`
returns for no fuel. -/
theorem Run_unbounded (compare : ModuleInterface → ModuleInterface → Option String)
    (env : List (String × Module)) (S : String → Prop)
    (hS : ∀ name, S name → ∃ iface deps pre w dep post net,
      env.lookup name = some (.customModule iface deps (pre ++ (w, dep) :: post) net) ∧
      resolveDeps compare env deps = none ∧ S dep ∧
      ∀ p ∈ pre, ∀ fuel st err st1, Run compare env fuel p.2 st ≠ some (.error err, st1))
    (fuel : Nat) (name : String) (st : RunState) (hname : S name) :
    Run compare env fuel name st = none := by
  induction fuel generalizing name st with
  | zero => rfl
  | succ fuel ih =>
    obtain ⟨iface, deps, pre, w, dep, post, net, hlook, hdeps, hnext, hpre⟩ := hS _ hname
    have hloop : ∀ nodes st1, workersLoop (Run compare env fuel) (pre ++ (w, dep) :: post)
        nodes st1 = none := fun nodes st1 =>
      runWorkers_none (Run compare env fuel) pre w dep post
        (fun p hp st err st1 => hpre p hp fuel st err st1)
        (fun st => ih dep st hnext) nodes st1
    simp only [Run, hlook, hdeps]
    by_cases hc : name ∈ st.cache
    · simp [hc, hloop]
    · simp [hc, hloop]

end Core

namespace Runtime

/-- The loop over the workers does not return when it reaches a worker whose spawning does
not return, every worker before it having been spawned without error. -/
theorem workersLoop_none
    (spawn : String → Program.WorkerNodeMeta → SpawnState →
      Option (Except SpawnError Runtime.IO × SpawnState))
    (pre : List (String × Program.WorkerNodeMeta)) (w : String)
    (wmeta : Program.WorkerNodeMeta) (post : List (String × Program.WorkerNodeMeta))
    (hpre : ∀ p ∈ pre, ∀ st err st1, spawn p.1 p.2 st ≠ some (.error err, st1))
    (hw : ∀ st, spawn w wmeta st = none)
    (subnet : List (String × Runtime.IO)) (st : SpawnState) :
    workersLoop spawn (pre ++ (w, wmeta) :: post) subnet st = none := by
  induction pre generalizing subnet st with
  | nil => simp [workersLoop, hw]
  | cons p rest ih =>
    obtain ⟨name, pmeta⟩ := p
    simp only [List.cons_append, workersLoop]
    cases hsp : spawn name pmeta st with
    | none => rfl
    | some res =>
      obtain ⟨r, st1⟩ := res
      cases r with
      | error err => exact absurd hsp (hpre (name, pmeta) (by simp) st err st1)
      | ok spawned =>
        simp only
        exact ih (fun p hp => hpre p (List.mem_cons_of_mem _ hp)) _ _

/-- In a set `S` of component names each of which is a component of worker nodes with a
worker that refers into `S`, the workers before it being spawned without error, `spawnNode`
returns for no fuel. -/
theorem spawnNode_unbounded (cnctr : Connector) (scope : List (String × Program.Component))
    (S : String → Prop)
    (hS : ∀ name, S name → ∃ component pre w wmeta post,
      scope.lookup name = some component ∧ component.Operator = "" ∧
      component.WorkerNodesMeta = pre ++ (w, wmeta) :: post ∧
      S wmeta.ComponentName ∧
      ∀ p ∈ pre, ∀ fuel st err st1,
        spawnNode cnctr scope fuel p.1 p.2 st ≠ some (.error err, st1))
    (fuel : Nat) (nodeName : String) (nodeMeta : Program.WorkerNodeMeta) (st : SpawnState)
    (hname : S nodeMeta.ComponentName) :
    spawnNode cnctr scope fuel nodeName nodeMeta st = none := by
  induction fuel generalizing nodeName nodeMeta st with
  | zero => rfl
  | succ fuel ih =>
    obtain ⟨component, pre, w, wmeta, post, hlook, hop, hworkers, hnext, hpre⟩ :=
      hS _ hname
    simp only [spawnNode, hlook, hop, hworkers]
    rw [workersLoop_none (spawnNode cnctr scope fuel) pre w wmeta post
      (fun p hp st err st1 => hpre p hp fuel st err st1)
      (fun st => ih w wmeta st hnext)]
    simp

/-- Spawning a node of an operator component returns no error under the connector that
accepts every operator. -/
theorem spawnNode_op_no_error (fuel : Nat) (nodeName : String) (st : SpawnState)
    (err : SpawnError) (st1 : SpawnState) :
    spawnNode okConnector chainScope2 fuel nodeName (nodeOf "op") st
      ≠ some (.error err, st1) := by
  cases fuel with
  | zero => simp [spawnNode]
  | succ fuel =>
    have hlook : chainScope2.lookup "op" =
        some { Operator := "plus", Const := [], WorkerNodesMeta := [], Net := [] } := rfl
    simp [spawnNode, nodeOf, hlook, okConnector]

/-- The components `a` and `b` of `chainScope2` lead to each other. -/
theorem chainScope2_cycle (name : String) (h : name = "a" ∨ name = "b") :
    ∃ component pre w wmeta post,
      chainScope2.lookup name = some component ∧ component.Operator = "" ∧
      component.WorkerNodesMeta = pre ++ (w, wmeta) :: post ∧
      (wmeta.ComponentName = "a" ∨ wmeta.ComponentName = "b") ∧
      ∀ p ∈ pre, ∀ fuel st err st1,
        spawnNode okConnector chainScope2 fuel p.1 p.2 st ≠ some (.error err, st1) := by
  rcases h with rfl | rfl
  · refine ⟨Program.Component.mk "" [] [("x", nodeOf "op"), ("y", nodeOf "b")] [],
      [("x", nodeOf "op")], "y", nodeOf "b", [], rfl, rfl, rfl, Or.inr rfl, ?_⟩
    intro p hp fuel st err st1
    simp only [List.mem_singleton] at hp
    subst hp
    exact spawnNode_op_no_error fuel "x" st err st1
  · refine ⟨Program.Component.mk "" [] [("z", nodeOf "a")] [],
      [], "z", nodeOf "a", [], rfl, rfl, rfl, Or.inl rfl, ?_⟩
    intro p hp
    simp at hp

/-- Running the native module `plus` of `chainEnv` returns no error. -/
theorem Run_plus_no_error (fuel : Nat) (st : Core.RunState) (err : Core.RunError)
    (st1 : Core.RunState) :
    Core.Run Core.okCompare Core.chainEnv fuel "plus" st ≠ some (.error err, st1) := by
  cases fuel with
  | zero => simp [Core.Run]
  | succ fuel =>
    have hlook : Core.chainEnv.lookup "plus" = some (.nativeModule Core.noPorts "plus") := by
      decide
    simp [Core.Run, hlook]

/-- The modules `a` and `b` of `chainEnv` lead to each other. -/
theorem chainEnv_cycle (name : String) (h : name = "a" ∨ name = "b") :
    ∃ iface deps pre w dep post net,
      Core.chainEnv.lookup name = some (.customModule iface deps (pre ++ (w, dep) :: post) net) ∧
      Core.resolveDeps Core.okCompare Core.chainEnv deps = none ∧ (dep = "a" ∨ dep = "b") ∧
      ∀ p ∈ pre, ∀ fuel st err st1,
        Core.Run Core.okCompare Core.chainEnv fuel p.2 st ≠ some (.error err, st1) := by
  rcases h with rfl | rfl
  · refine ⟨Core.noPorts, [], [("x", "plus")], "y", "b", [], [], by decide, rfl, Or.inr rfl, ?_⟩
    intro p hp fuel st err st1
    simp only [List.mem_singleton] at hp
    subst hp
    exact Run_plus_no_error fuel st err st1
  · refine ⟨Core.noPorts, [], [], "z", "a", [], [], by decide, rfl, Or.inl rfl, ?_⟩
    intro p hp
    simp at hp

/-- A scope without self-reference is expanded: `spawnNode` returns with fuel 2. -/
theorem spawnNode_flat_returns :
    (Run okConnector flatScope (nodeOf "top") 1) = none ∧
    (Run okConnector flatScope (nodeOf "top") 2).isSome = true ∧
    ((Run okConnector flatScope (nodeOf "top") 2).map (fun res => res.1)) =
      some (.ok { In := [], Out := [] }) := by
  refine ⟨rfl, rfl, rfl⟩

/-- C22 (counterexample). For the component `loop` whose worker node refers to `loop`
itself, `spawnNode` returns for no bound on the depth of the recursion, and so does `Run`
of `core` for the custom module `loop` whose worker is `loop`: no error is reported. -/
theorem self_reference_recurses_without_bound :
    (selfScope.lookup "loop").isSome = true ∧
    (∀ fuel, Run okConnector selfScope (nodeOf "loop") fuel = none) ∧
    (Core.selfEnv.lookup "loop").isSome = true ∧
    (∀ fuel st, Core.Run Core.okCompare Core.selfEnv fuel "loop" st = none) := by
  refine ⟨rfl, ?_, rfl, ?_⟩
  · intro fuel
    apply spawnNode_unbounded okConnector selfScope (fun name => name = "loop") _ fuel
    · rfl
    · rintro name rfl
      exact ⟨Program.Component.mk "" [] [("w", nodeOf "loop")] [], [], "w", nodeOf "loop", [],
        rfl, rfl, rfl, rfl, by simp⟩
  · intro fuel st
    apply Core.Run_unbounded Core.okCompare Core.selfEnv (fun name => name = "loop") _ fuel
    · rfl
    · rintro name rfl
      exact ⟨Core.noPorts, [], [], "w", "loop", [], [], by decide, rfl, rfl, by simp⟩

/-- C22 (amended). Component expansion keeps no record of the components on the path: in a
set `S` of component names, each a component of worker nodes with a worker that refers into
`S` while the workers visited before it are spawned without error, `spawnNode` returns for
no bound on the depth of the recursion, whatever the connector; and in a set `T` of module
names, each a custom module with resolvable dependencies and a worker in `T` while the
workers visited before it are run without error, `Run` of `core` returns for no bound. -/
theorem component_expansion_unbounded (cnctr : Connector)
    (scope : List (String × Program.Component)) (S : String → Prop)
    (hS : ∀ name, S name → ∃ component pre w wmeta post,
      scope.lookup name = some component ∧ component.Operator = "" ∧
      component.WorkerNodesMeta = pre ++ (w, wmeta) :: post ∧
      S wmeta.ComponentName ∧
      ∀ p ∈ pre, ∀ fuel st err st1,
        spawnNode cnctr scope fuel p.1 p.2 st ≠ some (.error err, st1))
    (compare : Core.ModuleInterface → Core.ModuleInterface → Option String)
    (env : List (String × Core.Module)) (T : String → Prop)
    (hT : ∀ name, T name → ∃ iface deps pre w dep post net,
      env.lookup name = some (.customModule iface deps (pre ++ (w, dep) :: post) net) ∧
      Core.resolveDeps compare env deps = none ∧ T dep ∧
      ∀ p ∈ pre, ∀ fuel st err st1, Core.Run compare env fuel p.2 st ≠ some (.error err, st1)) :
    (∀ fuel nodeName nodeMeta st, S nodeMeta.ComponentName →
      spawnNode cnctr scope fuel nodeName nodeMeta st = none) ∧
    (∀ fuel name st, T name → Core.Run compare env fuel name st = none) :=
  ⟨fun fuel nodeName nodeMeta st h =>
      spawnNode_unbounded cnctr scope S hS fuel nodeName nodeMeta st h,
    fun fuel name st h => Core.Run_unbounded compare env T hT fuel name st h⟩

/-- C22 (witness). The components `a` and `b` that refer to each other, `a` through its
second worker. -/
theorem component_expansion_unbounded_witness :
    (∀ fuel nodeName st,
      spawnNode okConnector chainScope2 fuel nodeName (nodeOf "a") st = none) ∧
    (∀ fuel st, Core.Run Core.okCompare Core.chainEnv fuel "a" st = none) :=
  ⟨fun fuel nodeName st =>
      (component_expansion_unbounded okConnector chainScope2
        (fun name => name = "a" ∨ name = "b") chainScope2_cycle
        Core.okCompare Core.chainEnv (fun name => name = "a" ∨ name = "b") chainEnv_cycle).1
        fuel nodeName (nodeOf "a") st (Or.inl rfl),
    fun fuel st =>
      (component_expansion_unbounded okConnector chainScope2
        (fun name => name = "a" ∨ name = "b") chainScope2_cycle
        Core.okCompare Core.chainEnv (fun name => name = "a" ∨ name = "b") chainEnv_cycle).2
        fuel "a" st (Or.inl rfl)⟩

/-- A sweep over the senders that runs out of schedule met no cancellation. -/
theorem rangeSenders_starved {μ : Type} (n : Network μ) (r : Receiver) (ss : List Sender)
    (polls : List (Poll μ)) (buf : List (fanInQueueItem μ))
    (h : rangeSenders n r ss polls buf = .starved) : ∀ p ∈ polls, p ≠ Poll.done := by
  induction ss generalizing polls buf with
  | nil => simp [rangeSenders] at h
  | cons s ss ih =>
    cases polls with
    | nil => simp
    | cons p polls =>
      cases p with
      | done => simp [rangeSenders] at h
      | recv msg =>
        simp only [rangeSenders] at h
        intro q hq
        rcases List.mem_cons.mp hq with rfl | hq
        · simp
        · exact ih _ _ h q hq
      | dflt =>
        simp only [rangeSenders] at h
        intro q hq
        rcases List.mem_cons.mp hq with rfl | hq
        · simp
        · exact ih _ _ h q hq

/-- A prefix without `d` of a list whose first `d` stands behind `pre` is a prefix of
`pre`. -/
theorem prefix_before_first {α : Type} (d : α) (c rest pre post : List α)
    (h : c ++ rest = pre ++ d :: post) (hc : ∀ p ∈ c, p ≠ d) :
    ∃ pre1, pre = c ++ pre1 ∧ rest = pre1 ++ d :: post := by
  induction c generalizing pre with
  | nil => exact ⟨pre, rfl, by simpa using h⟩
  | cons x c ih =>
    cases pre with
    | nil =>
      simp only [List.cons_append, List.nil_append, List.cons.injEq] at h
      exact absurd h.1 (hc x (by simp))
    | cons y pre =>
      simp only [List.cons_append, List.cons.injEq] at h
      obtain ⟨pre1, h1, h2⟩ := ih pre h.2 (fun p hp => hc p (List.mem_cons_of_mem _ hp))
      exact ⟨pre1, by rw [h.1, h1]; rfl, h2⟩

/-- The collecting loop, on polls with `ctx.Done()` behind `pre` and more fuel than `pre`
is long: it ends by cancellation, or it exits with a non-empty buffer received from an
initial part of `pre`. -/
theorem collect_before_done {μ : Type} (n : Network μ) (r : Receiver) (ss : List Sender)
    (hss : ss ≠ []) (fuel i : Nat) (buf : List (fanInQueueItem μ))
    (pre post : List (Poll μ)) (hfuel : pre.length < fuel) :
    collect n r ss fuel i buf (pre ++ Poll.done :: post) = .cancelled ∨
    ∃ buf1 c pre1, collect n r ss fuel i buf (pre ++ Poll.done :: post)
        = .ok (buf1, pre1 ++ Poll.done :: post) ∧
      pre = c ++ pre1 ∧ 0 < buf1.length ∧
      buf1.length = buf.length + (c.filterMap Poll.received).length := by
  induction fuel generalizing i buf pre with
  | zero => simp at hfuel
  | succ fuel ih =>
    simp only [collect]
    split
    · rename_i hexit
      exact Or.inr ⟨buf, [], pre, rfl, rfl, hexit.1, by simp⟩
    · cases hrs : rangeSenders n r ss (pre ++ Poll.done :: post) buf with
      | cancelled => exact Or.inl rfl
      | starved =>
        exact absurd rfl (rangeSenders_starved n r ss _ buf hrs Poll.done (by simp))
      | ok res =>
        obtain ⟨buf2, polls2⟩ := res
        obtain ⟨c, a1, a2, a3, _, _, a6⟩ := rangeSenders_consumes n r ss _ buf buf2 polls2 hrs
        obtain ⟨pre1, b1, b2⟩ := prefix_before_first Poll.done c polls2 pre post a1.symm a3
        have hlen : 0 < ss.length := List.length_pos.mpr hss
        have hpre1 : pre1.length < fuel := by
          have := congrArg List.length b1
          simp only [List.length_append] at this
          omega
        simp only
        rw [b2]
        rcases ih (i + 1) buf2 pre1 hpre1 with h | ⟨buf1, c1, pre2, h1, h2, h3, h4⟩
        · exact Or.inl h
        · refine Or.inr ⟨buf1, c ++ c1, pre2, h1, by rw [b1, h2, List.append_assoc], h3, ?_⟩
          simp only [List.filterMap_append, List.length_append]
          omega

/-- The delivery loop with a schedule long enough ends by cancellation or writes the whole
buffer. -/
theorem deliver_enough {μ : Type} (buf : List (fanInQueueItem μ)) (writes : List Bool)
    (hlen : buf.length ≤ writes.length) :
    (deliver buf writes).2 = .cancelled ∨
    ∃ rest, deliver buf writes = (buf, .ok rest) ∧ rest.length + buf.length = writes.length := by
  induction buf generalizing writes with
  | nil => exact Or.inr ⟨writes, by cases writes <;> simp [deliver], by simp⟩
  | cons item rest ih =>
    cases writes with
    | nil => simp at hlen
    | cons w ws =>
      cases w with
      | false => exact Or.inl (by simp [deliver])
      | true =>
        rcases ih ws (by simpa using hlen) with h | ⟨rest1, h1, h2⟩
        · exact Or.inl (by simp [deliver, h])
        · refine Or.inr ⟨rest1, by simp [deliver, h1], ?_⟩
          simp only [List.length_cons]
          omega

/-- One batch of `fanIn`, on polls with `ctx.Done()` behind `pre`, more fuel than `pre` is
long and a write schedule as long as the receives of `pre`: the batch ends by cancellation,
having written no more than `pre` received, or it writes what an initial part of `pre`
received and leaves the rest of `pre` before the `ctx.Done()`. -/
theorem fanInBatch_before_done {μ : Type} (n : Network μ) (r : Receiver) (ss : List Sender)
    (hss : ss ≠ []) (fuel : Nat) (sch : Sched μ) (pre post : List (Poll μ))
    (hpolls : sch.polls = pre ++ Poll.done :: post) (hfuel : pre.length < fuel)
    (hw : (pre.filterMap Poll.received).length ≤ sch.writes.length) :
    ((fanInBatch n r ss fuel sch).2 = .cancelled ∧
      (fanInBatch n r ss fuel sch).1.length ≤ (pre.filterMap Poll.received).length) ∨
    ∃ sch1 pre1, (fanInBatch n r ss fuel sch).2 = .ok sch1 ∧
      sch1.polls = pre1 ++ Poll.done :: post ∧ pre1.length < pre.length ∧
      (fanInBatch n r ss fuel sch).1.length + (pre1.filterMap Poll.received).length
        = (pre.filterMap Poll.received).length ∧
      (pre1.filterMap Poll.received).length ≤ sch1.writes.length := by
  unfold fanInBatch
  rw [hpolls]
  rcases collect_before_done n r ss hss fuel 0 [] pre post hfuel with
    h | ⟨buf1, c, pre1, h1, h2, h3, h4⟩
  · left
    simp [h]
  · have hsorted : (sortSlice lessIndex buf1).length = buf1.length :=
      (sortSlice_perm lessIndex buf1).length_eq
    have hrecv : (pre.filterMap Poll.received).length =
        (c.filterMap Poll.received).length + (pre1.filterMap Poll.received).length := by
      rw [h2, List.filterMap_append, List.length_append]
    simp only [List.length_nil, Nat.zero_add] at h4
    have hc : 0 < c.length := by
      have := List.length_filterMap_le Poll.received c
      omega
    have hpre1 : pre1.length < pre.length := by
      rw [h2, List.length_append]
      omega
    rw [h1]
    rcases deliver_enough (sortSlice lessIndex buf1) sch.writes (by omega) with
      hd | ⟨rest, hd1, hd2⟩
    · left
      refine ⟨by simp [hd], ?_⟩
      have := (deliver_isPrefix (sortSlice lessIndex buf1) sch.writes).length_le
      simp only
      omega
    · right
      refine ⟨{ polls := pre1 ++ Poll.done :: post, writes := rest }, pre1, by simp [hd1],
        rfl, hpre1, ?_, ?_⟩
      · simp only [hd1]
        omega
      · simp only
        omega

/-- The run of `fanIn` over at least one sender, on polls with `ctx.Done()` behind `pre`:
with bounds above the length of `pre` and a write schedule as long as the receives of `pre`
it ends by cancellation, having written no more messages than `pre` received. -/
theorem fanInRun_before_done {μ : Type} (n : Network μ) (r : Receiver) (ss : List Sender)
    (hss : ss ≠ []) (fuel batches : Nat) (sch : Sched μ) (pre post : List (Poll μ))
    (hpolls : sch.polls = pre ++ Poll.done :: post) (hfuel : pre.length < fuel)
    (hbatches : pre.length < batches)
    (hw : (pre.filterMap Poll.received).length ≤ sch.writes.length) :
    (n.fanInRun r ss fuel batches sch).2 = .cancelled ∧
    (n.fanInRun r ss fuel batches sch).1.length ≤ (pre.filterMap Poll.received).length := by
  induction batches generalizing sch pre with
  | zero => simp at hbatches
  | succ batches ih =>
    rcases fanInBatch_before_done n r ss hss fuel sch pre post hpolls hfuel hw with
      ⟨h1, h2⟩ | ⟨sch1, pre1, h1, h2, h3, h4, h5⟩
    · cases hb : fanInBatch n r ss fuel sch with
      | mk out o =>
        rw [hb] at h1 h2
        simp only at h1 h2
        subst h1
        simp only [Network.fanInRun, hb, List.length_map]
        exact ⟨trivial, h2⟩
    · cases hb : fanInBatch n r ss fuel sch with
      | mk out o =>
        rw [hb] at h1 h4
        simp only at h1 h4
        subst h1
        have := ih sch1 pre1 h2 (by omega) (by omega) h5
        simp only [Network.fanInRun, hb, List.length_append, List.length_map]
        exact ⟨this.1, by omega⟩

/-- The run of `pipe` up to the first `select` that takes `ctx.Done()`: the messages of the
complete turns before it are written, none after, and the goroutine returns. -/
theorem pipeRun_cancel {μ : Type} (n : Network μ) (r : Receiver) (s : Sender)
    (pre : List (PipeTurn μ)) (t : PipeTurn μ) (post : List (PipeTurn μ))
    (hpre : ∀ u ∈ pre, u.recv.isSome = true ∧ u.sendOk = true)
    (ht : t.recv = none ∨ t.sendOk = false) :
    n.pipeRun r s (pre ++ t :: post) = (n.pipe r s pre, .cancelled) ∧
    (n.pipe r s pre).length = pre.length := by
  induction pre with
  | nil =>
    refine ⟨?_, rfl⟩
    simp only [List.nil_append, Network.pipeRun, Network.pipe]
    cases hrecv : t.recv with
    | none => rfl
    | some msg =>
      rcases ht with ht | ht
      · rw [hrecv] at ht
        cases ht
      · simp [ht]
  | cons u pre ih =>
    have hu := hpre u (by simp)
    obtain ⟨msg, hmsg⟩ := Option.isSome_iff_exists.mp hu.1
    have ih1 := ih (fun v hv => hpre v (List.mem_cons_of_mem _ hv))
    simp only [List.cons_append, Network.pipeRun, Network.pipe, hmsg, hu.2, if_true,
      List.length_cons, ih1.2]
    constructor
    · change (_ :: (n.pipeRun r s (pre ++ t :: post)).1,
        (n.pipeRun r s (pre ++ t :: post)).2) = _
      rw [ih1.1]
    · trivial

/-- One sweep over the senders on the polls before the first `ctx.Done()` goes as on all
polls, but is out of schedule where it was cancelled. -/
theorem rangeSenders_untilDone {μ : Type} (n : Network μ) (r : Receiver) (ss : List Sender)
    (polls : List (Poll μ)) (buf : List (fanInQueueItem μ)) :
    rangeSenders n r ss (pollsUntilDone polls) buf =
      (rangeSenders n r ss polls buf).cutBy (fun res => (res.1, pollsUntilDone res.2)) := by
  induction ss generalizing polls buf with
  | nil => simp [rangeSenders, Outcome.cutBy]
  | cons s ss ih =>
    cases polls with
    | nil => simp [rangeSenders, Outcome.cutBy, pollsUntilDone]
    | cons p polls =>
      cases p with
      | done => simp [rangeSenders, Outcome.cutBy, pollsUntilDone, Poll.isDone]
      | recv msg =>
        have hcut : pollsUntilDone (Poll.recv msg :: polls) =
            Poll.recv msg :: pollsUntilDone polls := by
          simp [pollsUntilDone, Poll.isDone]
        rw [hcut]
        simp only [rangeSenders]
        exact ih _ _
      | dflt =>
        have hcut : pollsUntilDone (Poll.dflt :: polls) =
            (Poll.dflt : Poll μ) :: pollsUntilDone polls := by
          simp [pollsUntilDone, Poll.isDone]
        rw [hcut]
        simp only [rangeSenders]
        exact ih _ _

/-- The collecting loop on the polls before the first `ctx.Done()` goes as on all polls, but
is out of schedule where it was cancelled. -/
theorem collect_untilDone {μ : Type} (n : Network μ) (r : Receiver) (ss : List Sender)
    (fuel i : Nat) (buf : List (fanInQueueItem μ)) (polls : List (Poll μ)) :
    collect n r ss fuel i buf (pollsUntilDone polls) =
      (collect n r ss fuel i buf polls).cutBy (fun res => (res.1, pollsUntilDone res.2)) := by
  induction fuel generalizing i buf polls with
  | zero => simp [collect, Outcome.cutBy]
  | succ fuel ih =>
    simp only [collect]
    split
    · simp [Outcome.cutBy]
    · rw [rangeSenders_untilDone]
      cases hrs : rangeSenders n r ss polls buf with
      | cancelled => simp [Outcome.cutBy]
      | starved => simp [Outcome.cutBy]
      | ok res =>
        obtain ⟨buf1, polls1⟩ := res
        simp only [Outcome.cutBy]
        exact ih _ _ _

/-- The delivery loop on the writing selects before the first `ctx.Done()` writes the same
items. -/
theorem deliver_untilDone {μ : Type} (buf : List (fanInQueueItem μ)) (writes : List Bool) :
    deliver buf (writesUntilDone writes) =
      ((deliver buf writes).1, (deliver buf writes).2.cutBy writesUntilDone) := by
  induction buf generalizing writes with
  | nil => cases writes <;> simp [deliver, Outcome.cutBy, writesUntilDone]
  | cons item rest ih =>
    cases writes with
    | nil => simp [deliver, Outcome.cutBy, writesUntilDone]
    | cons w ws =>
      cases w with
      | false => simp [deliver, Outcome.cutBy, writesUntilDone]
      | true =>
        have hcut : writesUntilDone (true :: ws) = true :: writesUntilDone ws := by
          simp [writesUntilDone]
        rw [hcut]
        simp only [deliver, if_true, ih ws]

/-- The delivery loop up to the first writing `select` that takes `ctx.Done()`: the items
before are written, in order, and no other. -/
theorem deliver_cancel {μ : Type} (buf : List (fanInQueueItem μ)) (wpre wpost : List Bool)
    (hpre : ∀ w ∈ wpre, w = true) (hlen : wpre.length < buf.length) :
    deliver buf (wpre ++ false :: wpost) = (buf.take wpre.length, .cancelled) := by
  induction buf generalizing wpre with
  | nil => simp at hlen
  | cons item rest ih =>
    cases wpre with
    | nil => simp [deliver]
    | cons w ws =>
      have hw : w = true := hpre w (by simp)
      subst hw
      have := ih ws (fun w hw => hpre w (List.mem_cons_of_mem _ hw)) (by simpa using hlen)
      simp [deliver, this]

/-- One batch of `fanIn` on the schedule before the first selects that take `ctx.Done()`
writes the same items. -/
theorem fanInBatch_untilDone {μ : Type} (n : Network μ) (r : Receiver) (ss : List Sender)
    (fuel : Nat) (sch : Sched μ) :
    fanInBatch n r ss fuel sch.untilDone =
      ((fanInBatch n r ss fuel sch).1, (fanInBatch n r ss fuel sch).2.cutBy Sched.untilDone) := by
  unfold fanInBatch
  simp only [Sched.untilDone]
  rw [collect_untilDone]
  cases hc : collect n r ss fuel 0 [] sch.polls with
  | cancelled => simp [Outcome.cutBy]
  | starved => simp [Outcome.cutBy]
  | ok res =>
    obtain ⟨buf, polls⟩ := res
    simp only [Outcome.cutBy]
    rw [deliver_untilDone]
    cases hd : (deliver (sortSlice lessIndex buf) sch.writes).2 <;>
      simp [Outcome.cutBy, Sched.untilDone]

/-- The run of `fanIn` on the schedule before the first selects that take `ctx.Done()`
writes the same messages. -/
theorem fanInRun_untilDone {μ : Type} (n : Network μ) (r : Receiver) (ss : List Sender)
    (fuel batches : Nat) (sch : Sched μ) :
    n.fanInRun r ss fuel batches sch.untilDone =
      ((n.fanInRun r ss fuel batches sch).1, .starved) := by
  induction batches generalizing sch with
  | zero => rfl
  | succ batches ih =>
    simp only [Network.fanInRun]
    rw [fanInBatch_untilDone]
    cases hb : fanInBatch n r ss fuel sch with
    | mk out o =>
      cases o with
      | cancelled => simp [Outcome.cutBy]
      | starved => simp [Outcome.cutBy]
      | ok sch1 =>
        simp only [Outcome.cutBy]
        rw [ih sch1]

/-- `Run` returns exactly when every connection has a schedule and every goroutine ends by
cancellation. -/
theorem Run_iff {μ : Type} (n : Network μ) (scheds : List (TaskSched μ)) :
    n.Run scheds = true ↔
      n.connections.length ≤ scheds.length ∧
      ∀ p ∈ List.zip n.connections scheds,
        (n.runTask (taskOf p.1.1 p.1.2) p.2).2 = Outcome.cancelled := by
  have key : ∀ (conns : List (Receiver × List Sender)) (scheds : List (TaskSched μ)),
      (List.zipWith (fun c ts => (n.runTask (taskOf c.1 c.2) ts).2) conns scheds).all
          (fun o => decide (o = Outcome.cancelled)) = true ↔
        ∀ p ∈ List.zip conns scheds,
          (n.runTask (taskOf p.1.1 p.1.2) p.2).2 = Outcome.cancelled := by
    intro conns
    induction conns with
    | nil => intro scheds; simp
    | cons c conns ih =>
      intro scheds
      cases scheds with
      | nil => simp
      | cons ts scheds =>
        simp only [List.zipWith_cons_cons, List.all_cons, Bool.and_eq_true, decide_eq_true_eq,
          List.zip_cons_cons, List.mem_cons, forall_eq_or_imp, ih scheds]
  rw [Run_eq_all, Bool.and_eq_true, key, decide_eq_true_eq]
  exact And.comm

/-- C21 (counterexample). The signal is raised before the first `select` of `pipe`; the
reads and the writes of two turns are ready and their selects take them, the third read
takes `ctx.Done()`: two messages are written after the signal was raised. (Before the
signal no `select` can take `ctx.Done()`.) -/
theorem pipe_writes_after_signal :
    pipePossible 0 0 raceTurns = true ∧
    sampleNet.pipeRun sampleReceiver { Addr := portAddr "a" } raceTurns
      = ([{ data := some 1, index := 0 }, { data := some 2, index := 1 }], .cancelled) ∧
    sampleNet.pipe sampleReceiver { Addr := portAddr "a" } raceTurns
      = [{ data := some 1, index := 0 }, { data := some 2, index := 1 }] ∧
    pipePossible 5 0 raceTurns = false := by
  refine ⟨by decide, by decide, by decide, by decide⟩

/-- C21 (amended). From the `select` that takes `ctx.Done()` on, `pipe` and `fanIn` write no
further message and return. `pipe`: the messages written are exactly those of the complete
turns before that `select`. `fanIn`: a batch cancelled at a polling `select` writes
nothing; a batch cancelled at a writing `select` writes exactly the items of the sorted
buffer before it; the messages of a whole run are those written on the schedule cut before
its first selects that take `ctx.Done()`; and over at least one sender the run returns once
a polling `select` takes `ctx.Done()`, the bounds and the write schedule reaching that
far. `Run` returns exactly when every goroutine has returned. -/
theorem cancellation_ends_delivery {μ : Type} (n : Network μ) :
    (∀ (r : Receiver) (s : Sender) (pre : List (PipeTurn μ)) (t : PipeTurn μ)
        (post : List (PipeTurn μ)),
      (∀ u ∈ pre, u.recv.isSome = true ∧ u.sendOk = true) →
      (t.recv = none ∨ t.sendOk = false) →
      n.pipeRun r s (pre ++ t :: post) = (n.pipe r s pre, .cancelled) ∧
      (n.pipe r s pre).length = pre.length) ∧
    (∀ (r : Receiver) (ss : List Sender) (fuel batches : Nat) (sch : Sched μ),
      collect n r ss fuel 0 [] sch.polls = .cancelled →
      n.fanInRun r ss fuel (batches + 1) sch = ([], .cancelled)) ∧
    (∀ (r : Receiver) (ss : List Sender) (fuel batches : Nat) (sch : Sched μ)
        (buf : List (fanInQueueItem μ)) (rest : List (Poll μ)) (wpre wpost : List Bool),
      collect n r ss fuel 0 [] sch.polls = .ok (buf, rest) →
      sch.writes = wpre ++ false :: wpost → (∀ w ∈ wpre, w = true) →
      wpre.length < buf.length →
      n.fanInRun r ss fuel (batches + 1) sch =
        (((sortSlice lessIndex buf).take wpre.length).map (fun item => item.msg),
          .cancelled)) ∧
    (∀ (r : Receiver) (ss : List Sender) (fuel batches : Nat) (sch : Sched μ),
      n.fanInRun r ss fuel batches sch.untilDone =
        ((n.fanInRun r ss fuel batches sch).1, .starved)) ∧
    (∀ (r : Receiver) (ss : List Sender) (fuel batches : Nat) (sch : Sched μ)
        (pre post : List (Poll μ)),
      ss ≠ [] → sch.polls = pre ++ Poll.done :: post → pre.length < fuel →
      pre.length < batches → (pre.filterMap Poll.received).length ≤ sch.writes.length →
      (n.fanInRun r ss fuel batches sch).2 = .cancelled) ∧
    (∀ scheds : List (TaskSched μ),
      n.Run scheds = true ↔
        n.connections.length ≤ scheds.length ∧
        ∀ p ∈ List.zip n.connections scheds,
          (n.runTask (taskOf p.1.1 p.1.2) p.2).2 = Outcome.cancelled) := by
  refine ⟨fun r s pre t post hpre ht => pipeRun_cancel n r s pre t post hpre ht, ?_, ?_,
    fun r ss fuel batches sch => fanInRun_untilDone n r ss fuel batches sch,
    fun r ss fuel batches sch pre post hss hpolls hfuel hbatches hw =>
      (fanInRun_before_done n r ss hss fuel batches sch pre post hpolls hfuel hbatches hw).1,
    fun scheds => Run_iff n scheds⟩
  · intro r ss fuel batches sch hc
    simp [Network.fanInRun, fanInBatch, hc]
  · intro r ss fuel batches sch buf rest wpre wpost hc hw hpre hlen
    have hd := deliver_cancel (sortSlice lessIndex buf) wpre wpost hpre
      (by rw [(sortSlice_perm lessIndex buf).length_eq]; exact hlen)
    simp [Network.fanInRun, fanInBatch, hc, hw, hd]

/-- C21 (witness). A `pipe` that forwards one message and then takes `ctx.Done()` at its
read; a `fanIn` over two senders that has three messages in its buffer and takes
`ctx.Done()` at the third write; a `fanIn` that writes three messages and takes
`ctx.Done()` at the first poll of its second batch; and `Run` of a network with one `pipe`,
which returns when the goroutine has returned and does not while it has not run. -/
theorem cancellation_ends_delivery_witness :
    sampleNet.pipeRun sampleReceiver { Addr := portAddr "a" } pipeTurns
      = ([{ data := some 1, index := 0 }], .cancelled) ∧
    sampleNet.fanInRun sampleReceiver sampleSenders 5 1 cancelSched
      = ([{ data := some 20, index := 1 }, { data := some 10, index := 3 }], .cancelled) ∧
    (sampleNet.fanInRun sampleReceiver sampleSenders 5 5 doneSched).2 = .cancelled ∧
    (sampleNet.fanInRun sampleReceiver sampleSenders 5 5 doneSched).1
      = [{ data := some 20, index := 1 }, { data := some 10, index := 3 },
          { data := some 11, index := 4 }] ∧
    sampleNet.fanInRun sampleReceiver sampleSenders 5 5 doneSched.untilDone
      = ((sampleNet.fanInRun sampleReceiver sampleSenders 5 5 doneSched).1, .starved) ∧
    oneNet.Run [oneSched] = true ∧ oneNet.Run [] = false :=
  ⟨((cancellation_ends_delivery sampleNet).1 sampleReceiver { Addr := portAddr "a" }
      [{ recv := some { data := some 1, index := 0 }, sendOk := true }]
      { recv := none, sendOk := true }
      [{ recv := some { data := some 2, index := 1 }, sendOk := true }]
      (by simp) (Or.inl rfl)).1,
    (cancellation_ends_delivery sampleNet).2.2.1 sampleReceiver sampleSenders 5 0 cancelSched
      [{ sender := portAddr "a", msg := { data := some 10, index := 3 } },
        { sender := portAddr "b", msg := { data := some 20, index := 1 } },
        { sender := portAddr "a", msg := { data := some 11, index := 4 } }]
      [.recv { data := some 99, index := 9 }] [true, true] [] (by decide) rfl (by decide)
      (by decide),
    (cancellation_ends_delivery sampleNet).2.2.2.2.1 sampleReceiver sampleSenders 5 5 doneSched
      [.recv { data := some 10, index := 3 }, .recv { data := some 20, index := 1 },
        .recv { data := some 11, index := 4 }, .dflt]
      [.recv { data := some 99, index := 9 }]
      (by decide) rfl (by decide) (by decide) (by decide),
    by decide,
    (cancellation_ends_delivery sampleNet).2.2.2.1 sampleReceiver sampleSenders 5 5 doneSched,
    ((cancellation_ends_delivery oneNet).2.2.2.2.2 [oneSched]).mpr
      ⟨by decide, by decide⟩,
    by decide⟩

end Runtime
